import Mathlib

/-!
Temporal: history archiver (gcloud) and matching task-queue database

A shallow embedding of

* `common/archiver/gcloud/history_archiver.go` (namespace `gcloud`): the paginated read path
  `historyArchiver.Get`, the write path `historyArchiver.Archive`, `historyMutated`,
  `getHighestVersion`, `loadHistoryIterator`, `saveHistoryIteratorState`;
* `service/matching/db.go` (namespace `matching`): `taskQueueDB` with `RenewLease`,
  `takeOverTaskQueueLocked`, `updateTaskQueueLocked`, `CreateTasks`, `CreateFairTasks`,
  `OldUpdateState`, `SyncState`, `AllocateSubqueue` and the ack-level / backlog bookkeeping
  (`updateAckLevelAndBacklogStats`, `updateFairAckLevel`, `setKnownFairBacklogCount`,
  `updateBacklogStats`);
* `common/persistence/cassandra/matching_task_store.go` (namespace `cassandra`): the row types
  of the tasks table and `rowTypeTaskInSubqueue`.

Conventions.  Go errors are identified by their `Error()` text.  A Go `panic` (index or slice out
of range) is an explicit outcome.  `int64` counters on which the source does arithmetic with
caller-supplied operands (the approximate backlog count) are reduced with `wrap64`, Go's
two's-complement wrap-around.  Identifiers and sequence numbers that the system itself hands out
one by one (range ids, event ids, task ids, part numbers) are unbounded integers.
-/

/-- Go's `int64` wrap-around: the representative of `x` modulo `2^64` in `[-2^63, 2^63)`. -/
def wrap64 (x : Int) : Int := (x + 2 ^ 63) % 2 ^ 64 - 2 ^ 63

/-- The largest `int64`, `math.MaxInt64`. -/
def maxInt64 : Int := 2 ^ 63 - 1

/-- The smallest `int64`, `math.MinInt64`. -/
def minInt64 : Int := -(2 ^ 63)

/-- Membership in the `int64` range. -/
def isInt64 (x : Int) : Prop := minInt64 ≤ x ∧ x ≤ maxInt64

instance (x : Int) : Decidable (isInt64 x) := by unfold isInt64; infer_instance

namespace gcloud

/-- A Go `error`, identified by its `Error()` text. -/
abbrev GoError := String

/-- An encoded blob (`[]byte`). -/
abbrev Blob := List Nat

/-- The fields of `historypb.HistoryEvent` the archiver reads. -/
structure HistoryEvent where
  EventId : Int
  Version : Int
deriving DecidableEq, Repr

/-- One batch of events, `historypb.History`. -/
structure History where
  Events : List HistoryEvent
deriving DecidableEq, Repr

/-- Continuation token of the read path. -/
structure getHistoryToken where
  CloseFailoverVersion : Int
  HighestPart : Int
  CurrentPart : Int
  BatchIdxOffset : Int
deriving DecidableEq, Repr

/-- Cursor of the write path. -/
structure progress where
  CurrentPageNumber : Int
  IteratorState : Option Blob
deriving DecidableEq, Repr

/-- The parts of `archiver.URI` that `validateURI` reads. -/
structure URI where
  Scheme : String
  Path : String
  Hostname : String
deriving DecidableEq, Repr

/-- Name of a stored object.  `part v p` is the name built by
`constructHistoryFilenameMultipart` for close failover version `v` and part number `p` (the
namespace, workflow and run identifiers are those of the request and are left implicit); `other`
is any name that `extractCloseFailoverVersion` rejects. -/
inductive FileName where
  | part (version : Int) (partNumber : Int)
  | other (name : String)
deriving DecidableEq, Repr

/-- Modelled from the spec: `constructHistoryFilenameMultipart` (the file that defines it is not
part of the sources at hand); history parts are named deterministically from the identifiers, the
close failover version and the part number. -/
def constructHistoryFilenameMultipart (closeFailoverVersion : Int) (partNumber : Int) : FileName :=
  .part closeFailoverVersion partNumber

/-- Modelled from the spec: `extractCloseFailoverVersion` (the file that defines it is not part of
the sources at hand), the inverse of the filename convention: version and part number of a part
file name, an error for any other name. -/
def extractCloseFailoverVersion : FileName → Except GoError (Int × Int)
  | .part v p => .ok (v, p)
  | .other _ => .error "file name has wrong format"

/-- The service errors returned by the read path, by class. -/
inductive ServiceError where
  | InvalidArgument (msg : String)
  | Unavailable (msg : String)
  | NotFound (msg : String)
  | Internal (msg : String)
deriving DecidableEq, Repr

/-- How a call that does not return normally ends: with a service error, or with a Go panic. -/
inductive Failure where
  | err (e : ServiceError)
  | panic
deriving DecidableEq, Repr

/-- The read side of `connector.Client` (the storage of an unchanged destination):
`Query` lists the names under the history prefix of the request, `Get` fetches one object,
`ExistRoot` is the error, if any, of the existence check of the root that `ValidateURI` makes. -/
structure Client where
  Query : Except GoError (List FileName)
  Get : FileName → Except GoError (Option Blob)
  ExistRoot : Option GoError

/-- Package-level collaborators of the archiver whose definitions are outside the sources at
hand; they are parameters of the embedding. -/
structure Deps where
  /-- `archiver.ValidateGetRequest`. -/
  ValidateGetRequest : Option Int → Int → Option GoError
  /-- `archiver.ValidateHistoryArchiveRequest`, on the expected closing version and next event
  id of the request. -/
  ValidateHistoryArchiveRequest : Int → Int → Option GoError
  /-- `codec.NewJSONPBEncoder().DecodeHistories`. -/
  DecodeHistories : Blob → Except GoError (List History)
  /-- `codec.NewJSONPBEncoder().EncodeHistories`. -/
  EncodeHistories : List History → Except GoError Blob
  /-- The `serializeToken` helper, applied to a `getHistoryToken`. -/
  serializeToken : getHistoryToken → Except GoError Blob
  /-- The `deserializeGetHistoryToken` helper. -/
  deserializeGetHistoryToken : Blob → Except GoError getHistoryToken
  /-- The `Error()` text of `archiver.ErrHistoryMutated`. -/
  ErrHistoryMutated : GoError

/-- The request of the read path (identifiers left implicit). -/
structure GetHistoryRequest where
  CloseFailoverVersion : Option Int
  PageSize : Int
  NextPageToken : Option Blob
deriving DecidableEq, Repr

/-- The response of the read path. -/
structure GetHistoryResponse where
  HistoryBatches : List History
  NextPageToken : Option Blob
deriving DecidableEq, Repr

/-- `URIScheme`. -/
def URIScheme : String := "gs"

/-- The two errors of `validateURI`. -/
inductive URIError where
  | ErrURISchemeMismatch
  | ErrInvalidURI
deriving DecidableEq, Repr

/-- `historyArchiver.validateURI`. -/
def validateURI (u : URI) : Option URIError :=
  if u.Scheme ≠ URIScheme then some .ErrURISchemeMismatch
  else if u.Path = "" ∨ u.Hostname = "" then some .ErrInvalidURI
  else none

/-- `historyArchiver.ValidateURI`: the shape check, then the existence check of the root; `true`
when an error is returned. -/
def ValidateURI (existRoot : Option GoError) (u : URI) : Bool :=
  match validateURI u with
  | some _ => true
  | none => existRoot.isSome

/-- The three results of `getHighestVersion` (all `nil` when no file matches). -/
structure versionParts where
  highestVersion : Option Int
  highestVersionPart : Option Int
  lowestVersionPart : Option Int
deriving DecidableEq, Repr

/-- One iteration of the loop over file names in `getHighestVersion`. -/
def getHighestVersionStep (want : Option Int) (acc : versionParts) (filename : FileName) :
    versionParts :=
  match extractCloseFailoverVersion filename with
  | .error _ => acc
  | .ok (version, partVersionID) =>
    if want.isSome ∧ some version ≠ want then acc
    else
      let acc1 : versionParts :=
        if acc.highestVersion.isNone ∨ (∃ hv ∈ acc.highestVersion, version > hv) then
          { highestVersion := some version, highestVersionPart := some 0,
            lowestVersionPart := some 0 }
        else acc
      if acc1.highestVersion = some version then
        let hi : Option Int :=
          if acc1.highestVersionPart.isNone ∨ (∃ p ∈ acc1.highestVersionPart, partVersionID > p)
          then some partVersionID else acc1.highestVersionPart
        let lo : Option Int :=
          if acc1.lowestVersionPart.isNone ∨ (∃ p ∈ acc1.lowestVersionPart, partVersionID < p)
          then some partVersionID else acc1.lowestVersionPart
        { acc1 with highestVersionPart := hi, lowestVersionPart := lo }
      else acc1

/-- `historyArchiver.getHighestVersion`. -/
def getHighestVersion (c : Client) (want : Option Int) : Except GoError versionParts :=
  match c.Query with
  | .error e => .error e
  | .ok filenames =>
    .ok (filenames.foldl (getHighestVersionStep want)
      { highestVersion := none, highestVersionPart := none, lowestVersionPart := none })

/-- The variables of the loop of `Get`: the response under construction, the token, the running
event count. -/
structure getState where
  HistoryBatches : List History
  token : getHistoryToken
  numOfEvents : Int
deriving DecidableEq, Repr

/-- The inner loop of `Get`, `for idx, batch := range batches`.  The flag tells whether
`break outer` was taken. -/
def rangeBatches (PageSize : Int) : List History → getState → getState × Bool
  | [], st => (st, false)
  | batch :: rest, st =>
    let st1 : getState :=
      { HistoryBatches := st.HistoryBatches ++ [batch]
        token := { st.token with BatchIdxOffset := st.token.BatchIdxOffset + 1 }
        numOfEvents := st.numOfEvents + batch.Events.length }
    if st1.numOfEvents ≥ PageSize then
      if rest.isEmpty then
        ({ st1 with token := { st1.token with BatchIdxOffset := 0,
                                              CurrentPart := st1.token.CurrentPart + 1 } }, true)
      else (st1, true)
    else rangeBatches PageSize rest st1

/-- The outer loop of `Get`, `for token.CurrentPart <= token.HighestPart`.  The first argument
bounds the number of iterations; `Get` passes the number of parts left, which the loop never
exceeds because every iteration that does not leave the loop advances `CurrentPart` by one. -/
def readParts (d : Deps) (c : Client) (PageSize : Int) : Nat → getState → Except Failure getState
  | 0, st => .ok st
  | fuel + 1, st =>
    if st.token.CurrentPart ≤ st.token.HighestPart then
      match c.Get (constructHistoryFilenameMultipart st.token.CloseFailoverVersion
          st.token.CurrentPart) with
      | .error e => .error (.err (.Unavailable e))
      | .ok none => .error (.err (.Internal "Fail retrieving history file"))
      | .ok (some encodedHistoryBatches) =>
        match d.DecodeHistories encodedHistoryBatches with
        | .error e => .error (.err (.Internal e))
        | .ok batches =>
          if st.token.BatchIdxOffset < 0 ∨ (batches.length : Int) < st.token.BatchIdxOffset then
            .error .panic
          else
            match rangeBatches PageSize (batches.drop st.token.BatchIdxOffset.toNat) st with
            | (st1, true) => .ok st1
            | (st1, false) =>
              readParts d c PageSize fuel
                { st1 with token := { st1.token with BatchIdxOffset := 0,
                                                     CurrentPart := st1.token.CurrentPart + 1 } }
    else .ok st

/-- The token `Get` starts from: the deserialized `NextPageToken`, or the token built from
`getHighestVersion`. -/
def initialToken (d : Deps) (c : Client) (request : GetHistoryRequest) :
    Except Failure getHistoryToken :=
  match request.NextPageToken with
  | some bytes =>
    match d.deserializeGetHistoryToken bytes with
    | .error _ => .error (.err (.InvalidArgument "next page token is corrupted"))
    | .ok token => .ok token
  | none =>
    match getHighestVersion c request.CloseFailoverVersion with
    | .error e => .error (.err (.Unavailable e))
    | .ok r =>
      match r.highestVersion, r.highestVersionPart, r.lowestVersionPart with
      | some v, some hi, some lo =>
        .ok { CloseFailoverVersion := v, HighestPart := hi, CurrentPart := lo,
              BatchIdxOffset := 0 }
      | none, _, _ => .error (.err (.NotFound "requested workflow history does not exist"))
      | some _, _, _ => .error .panic

/-- `historyArchiver.Get`. -/
def Get (d : Deps) (c : Client) (u : URI) (request : GetHistoryRequest) :
    Except Failure GetHistoryResponse :=
  if ValidateURI c.ExistRoot u then .error (.err (.InvalidArgument "URI is invalid"))
  else if (d.ValidateGetRequest request.CloseFailoverVersion request.PageSize).isSome then
    .error (.err (.InvalidArgument "get archived history request is invalid"))
  else
    match initialToken d c request with
    | .error f => .error f
    | .ok token =>
      match readParts d c request.PageSize (token.HighestPart + 1 - token.CurrentPart).toNat
          { HistoryBatches := [], token := token, numOfEvents := 0 } with
      | .error f => .error f
      | .ok st =>
        if st.token.CurrentPart ≤ st.token.HighestPart then
          match d.serializeToken st.token with
          | .error e => .error (.err (.Internal e))
          | .ok nextToken =>
            .ok { HistoryBatches := st.HistoryBatches, NextPageToken := some nextToken }
        else .ok { HistoryBatches := st.HistoryBatches, NextPageToken := none }

/-- The driver of a paginated read: call `Get` with the given token, then again with each returned
`NextPageToken`, until a response carries none.  `none` when a call fails or when the given
number of calls does not reach the end. -/
def followTokens (d : Deps) (c : Client) (u : URI) (request : GetHistoryRequest) :
    Nat → Option Blob → Option (List GetHistoryResponse)
  | 0, _ => none
  | n + 1, tok =>
    match Get d c u { request with NextPageToken := tok } with
    | .error _ => none
    | .ok resp =>
      match resp.NextPageToken with
      | none => some [resp]
      | some t => (followTokens d c u request n (some t)).map (resp :: ·)

/-- The decoded batches of part `p` of version `v` (empty when the part does not fetch or
decode). -/
def decodedPart (d : Deps) (c : Client) (v : Int) (p : Int) : List History :=
  match c.Get (constructHistoryFilenameMultipart v p) with
  | .ok (some blob) =>
    match d.DecodeHistories blob with
    | .ok batches => batches
    | .error _ => []
  | _ => []

/-- The decoded batches of the `n` parts `p, p+1, ..., p+n-1`, in part order. -/
def decodedParts (d : Deps) (c : Client) (v : Int) : Nat → Int → List History
  | 0, _ => []
  | n + 1, p => decodedPart d c v p ++ decodedParts d c v n (p + 1)

/-- Total weight of the `n` parts `p, ..., p+n-1`: one per part plus one per decoded batch. -/
def partsWeight (d : Deps) (c : Client) (v : Int) : Nat → Int → Nat
  | 0, _ => 0
  | n + 1, p => (decodedPart d c v p).length + 1 + partsWeight d c v n (p + 1)

/-- The batches a token still has to deliver: those of its current part from its offset on,
then those of the later parts up to the highest part. -/
def remaining (d : Deps) (c : Client) (t : getHistoryToken) : List History :=
  (decodedParts d c t.CloseFailoverVersion (t.HighestPart + 1 - t.CurrentPart).toNat
    t.CurrentPart).drop t.BatchIdxOffset.toNat

/-- Distance of a token from the end of the history; it drops with every call of `Get`. -/
def tokenMeasure (d : Deps) (c : Client) (t : getHistoryToken) : Nat :=
  partsWeight d c t.CloseFailoverVersion (t.HighestPart + 1 - t.CurrentPart).toNat t.CurrentPart
    - t.BatchIdxOffset.toNat

/-- A token position that lies inside the stored history: not below the first part, with an
offset inside its current part. -/
def tokenOK (d : Deps) (c : Client) (lo : Int) (t : getHistoryToken) : Prop :=
  lo ≤ t.CurrentPart ∧ 0 ≤ t.BatchIdxOffset ∧
    (t.CurrentPart ≤ t.HighestPart →
      t.BatchIdxOffset ≤ (decodedPart d c t.CloseFailoverVersion t.CurrentPart).length)

/-! ### A concrete store: three parts with one batch each, of 6, 6 and 1 events -/

/-- A sign flag and the absolute value of an integer, as two bytes-like numbers. -/
def encodeInt (x : Int) : List Nat := [if x < 0 then 1 else 0, x.natAbs]

/-- Inverse of `encodeInt`. -/
def decodeInt (s a : Nat) : Int := if s = 1 then -(a : Int) else (a : Int)

/-- A batch of `n` events of version 1 with event ids `first, first+1, ...`. -/
def sampleBatch (first : Int) (n : Nat) : History :=
  { Events := (List.range n).map fun i => { EventId := first + i, Version := 1 } }

/-- A concrete instance of the collaborators: a blob lists the event counts of its batches, a
token is written as the sign and absolute value of its four fields. -/
def sampleDeps : Deps where
  ValidateGetRequest := fun _ pageSize => if pageSize = 0 then some "invalid request" else none
  ValidateHistoryArchiveRequest := fun _ _ => none
  DecodeHistories := fun blob => .ok (blob.map (sampleBatch 1))
  EncodeHistories := fun batches => .ok (batches.map fun b => b.Events.length)
  serializeToken := fun t =>
    .ok (encodeInt t.CloseFailoverVersion ++ encodeInt t.HighestPart ++ encodeInt t.CurrentPart
      ++ encodeInt t.BatchIdxOffset)
  deserializeGetHistoryToken := fun b =>
    match b with
    | [s1, a1, s2, a2, s3, a3, s4, a4] =>
      .ok { CloseFailoverVersion := decodeInt s1 a1, HighestPart := decodeInt s2 a2,
            CurrentPart := decodeInt s3 a3, BatchIdxOffset := decodeInt s4 a4 }
    | _ => .error "corrupted token"
  ErrHistoryMutated := "history was mutated"

/-- A store holding parts 0, 1 and 2 of version 1, decoding to one batch each, of 6, 6 and 1
events. -/
def sampleClient : Client where
  Query := .ok [.part 1 0, .part 1 1, .part 1 2]
  Get := fun name =>
    match name with
    | .part 1 0 => .ok (some [6])
    | .part 1 1 => .ok (some [6])
    | .part 1 2 => .ok (some [1])
    | _ => .error "object does not exist"
  ExistRoot := none

/-- A well-formed destination URI. -/
def sampleURI : URI := { Scheme := "gs", Path := "/temporal_archival", Hostname := "my-bucket" }

/-- A first-page request with page size 10. -/
def sampleRequest : GetHistoryRequest :=
  { CloseFailoverVersion := none, PageSize := 10, NextPageToken := none }

end gcloud

namespace gcloud

/-! ### Write path: `Archive` -/

/-- `errUploadNonRetryable`, by its text. -/
def errUploadNonRetryable : GoError := "upload non-retryable error"

/-- The fields of `archiver.ArchiveHistoryRequest` the archiver computes with (identifiers left
implicit). -/
structure ArchiveHistoryRequest where
  CloseFailoverVersion : Int
  NextEventID : Int
deriving DecidableEq, Repr

/-- One page of the source history, `archiverspb.HistoryBlob`: `Header.IsLast` and `Body`. -/
structure HistoryBlob where
  IsLast : Bool
  Body : List History
deriving DecidableEq, Repr

/-- `historyMutated`.  `none` is the index-out-of-range panic on a page without batches or on a
last batch without events. -/
def historyMutated (request : ArchiveHistoryRequest) (historyBatches : List History)
    (isLast : Bool) : Option Bool :=
  match historyBatches.getLast? with
  | none => none
  | some lastBatch =>
    match lastBatch.Events.getLast? with
    | none => none
    | some lastEvent =>
      let lastFailoverVersion := lastEvent.Version
      if lastFailoverVersion > request.CloseFailoverVersion then some true
      else if !isLast then some false
      else
        let lastEventID := lastEvent.EventId
        some (decide (lastFailoverVersion ≠ request.CloseFailoverVersion
          ∨ lastEventID + 1 ≠ request.NextEventID))

/-- The errors of `HistoryIterator.Next`, by the classes `Archive` distinguishes:
`*serviceerror.NotFound`, errors for which `common.IsPersistenceTransientError` holds, others. -/
inductive IterError where
  | NotFound (msg : GoError)
  | Transient (msg : GoError)
  | Other (msg : GoError)
deriving DecidableEq, Repr

/-- Modelled from the spec: the source history behind `persistence.ExecutionManager` as the
history iterator sees it (`archiver.HistoryIterator` is declared outside the sources at hand):
an externally supplied, resumable sequence of pages.  `pages` are the outcomes of the successive
`Next` calls from the start of the history, `encodeState n` is what `GetState` returns after `n`
pages, `decodeState` is the parsing of a state done by `NewHistoryIteratorFromState`. -/
structure HistorySource where
  pages : List (Except IterError HistoryBlob)
  encodeState : Nat → Except GoError Blob
  decodeState : Blob → Except GoError Nat

/-- Modelled from the spec: `archiver.HistoryIterator`, a cursor into a source: `HasNext` holds
while `pos` is below the number of pages, `Next` returns page `pos` and advances. -/
structure HistoryIterator where
  source : HistorySource
  pos : Nat

/-- Modelled from the spec: `archiver.NewHistoryIteratorFromState`; a `nil` state starts at the
first page. -/
def NewHistoryIteratorFromState (source : HistorySource) (state : Option Blob) :
    Except GoError HistoryIterator :=
  match state with
  | none => .ok { source := source, pos := 0 }
  | some b =>
    match source.decodeState b with
    | .ok n => .ok { source := source, pos := n }
    | .error e => .error e

/-- Modelled from the spec: `archiver.ProgressManager`, the pluggable progress persistence:
`saved` is the progress on record (`HasProgress` holds when there is one), `loadErr` the error of
`LoadProgress`, `recordErr` the error of `RecordProgress` for a given progress. -/
structure ProgressManager where
  saved : Option progress
  loadErr : Option GoError
  recordErr : progress → Option GoError

/-- `archiver.ArchiveFeatureCatalog`: the optional progress manager and the optional
non-retryable-error translator (by the error it returns). -/
structure ArchiveFeatureCatalog where
  ProgressManager : Option ProgressManager
  NonRetryableError : Option GoError

/-- Modelled from the spec: the write side of `connector.Client`, a flat blob namespace:
`files` are the stored objects, `uploadErr` the error of `Upload` for a name (when there is one
the upload stores nothing), `ExistRoot` the error of the existence check of the root. -/
structure Storage where
  files : List (FileName × Blob)
  uploadErr : FileName → Option GoError
  ExistRoot : Option GoError

/-- `connector.Client.Exist` on a file. -/
def Storage.Exist (s : Storage) (name : FileName) : Bool :=
  s.files.any (fun f => decide (f.1 = name))

/-- `connector.Client.Upload`. -/
def Storage.Upload (s : Storage) (name : FileName) (data : Blob) : Except GoError Storage :=
  match s.uploadErr name with
  | some e => .error e
  | none => .ok { s with files := (name, data) :: s.files.filter (fun f => f.1 ≠ name) }

/-- A call `Archive` makes to the storage. -/
inductive StoreCall where
  | Exist (name : FileName)
  | Upload (name : FileName) (data : Blob)
deriving DecidableEq, Repr

/-- The counters `Archive` records. -/
structure Metrics where
  transientErrorCount : Nat
  nonRetryableErrorCount : Nat
  successCount : Nat
  duplicateArchivalsCount : Nat
deriving DecidableEq, Repr

/-- The variables of `Archive`: the storage, the progress cursor, the progress manager, the
storage calls made so far, the counters, the upload size. -/
structure archiveState where
  storage : Storage
  progress : progress
  pm : Option ProgressManager
  calls : List StoreCall
  metrics : Metrics
  totalUploadSize : Int

/-- How the body of `Archive` ends: the loop ran to its end, a `return` was taken with the given
error, or a panic. -/
inductive archiveExit where
  | done
  | ret (err : Option GoError)
  | panic
deriving DecidableEq, Repr

/-- `saveHistoryIteratorState`; `state` is the result of `historyIterator.GetState()`. -/
def saveHistoryIteratorState (pm : Option ProgressManager) (state : Except GoError Blob)
    (currentPartNum : Int) (p : progress) :
    Option GoError × progress × Option ProgressManager :=
  match pm with
  | none => (none, p, none)
  | some m =>
    match state with
    | .error e => (some e, p, some m)
    | .ok st =>
      let p1 : progress := { CurrentPageNumber := currentPartNum + 1, IteratorState := some st }
      match m.recordErr p1 with
      | some e => (some e, p1, some m)
      | none => (none, p1, some { m with saved := some p1 })

/-- `loadHistoryIterator`: the iterator and the progress `Archive` starts from (the error is
dropped by the caller). -/
def loadHistoryIterator (source : HistorySource) (pm : Option ProgressManager) (p : progress) :
    HistoryIterator × progress :=
  let fresh : HistoryIterator := { source := source, pos := 0 }
  match pm with
  | none => (fresh, p)
  | some m =>
    match m.saved with
    | none => (fresh, p)
    | some saved =>
      match m.loadErr with
      | some _ => (fresh, p)
      | none =>
        match NewHistoryIteratorFromState source saved.IteratorState with
        | .ok it => (it, saved)
        | .error _ => (fresh, saved)

/-- One iteration of the loop of `Archive` on the outcome `next` of `historyIterator.Next`;
`pos` is the number of pages the iterator has returned before.  The second component is `none`
when the iteration runs to its end (the loop goes on) and the way `Archive` is left otherwise. -/
def archivePage (d : Deps) (source : HistorySource) (request : ArchiveHistoryRequest)
    (next : Except IterError HistoryBlob) (pos : Nat) (st : archiveState) :
    archiveState × Option archiveExit :=
  let part := st.progress.CurrentPageNumber
  match next with
  | .error (.NotFound _) =>
    ({ st with metrics := { st.metrics with
        duplicateArchivalsCount := st.metrics.duplicateArchivalsCount + 1 } }, some (.ret none))
  | .error (.Other _) => (st, some (.ret (some errUploadNonRetryable)))
  | .error (.Transient e) => (st, some (.ret (some e)))
  | .ok historyBlob =>
    match historyMutated request historyBlob.Body historyBlob.IsLast with
    | none => (st, some .panic)
    | some true => (st, some (.ret (some d.ErrHistoryMutated)))
    | some false =>
      match d.EncodeHistories historyBlob.Body with
      | .error _ => (st, some (.ret (some errUploadNonRetryable)))
      | .ok encodedHistoryPart =>
        let filename := constructHistoryFilenameMultipart request.CloseFailoverVersion part
        let st1 : archiveState := { st with calls := st.calls ++ [.Exist filename] }
        let uploaded : Except GoError archiveState :=
          if st1.storage.Exist filename then .ok st1
          else
            match st1.storage.Upload filename encodedHistoryPart with
            | .error e => .error e
            | .ok storage =>
              .ok { st1 with storage := storage
                             calls := st1.calls ++ [.Upload filename encodedHistoryPart]
                             totalUploadSize := st1.totalUploadSize
                               + encodedHistoryPart.length }
        match uploaded with
        | .error e =>
          ({ st1 with calls := st1.calls ++ [.Upload filename encodedHistoryPart]
                      metrics := { st1.metrics with
                        transientErrorCount := st1.metrics.transientErrorCount + 1 } },
            some (.ret (some e)))
        | .ok st2 =>
          match saveHistoryIteratorState st2.pm (source.encodeState (pos + 1)) part
              st2.progress with
          | (some e, p, pm) => ({ st2 with progress := p, pm := pm }, some (.ret (some e)))
          | (none, p, pm) => ({ st2 with progress := p, pm := pm }, none)

/-- The loop of `Archive`, `for historyIterator.HasNext()`, over the pages the iterator has
left; `pos` is the number of pages the iterator has returned before. -/
def archivePages (d : Deps) (source : HistorySource) (request : ArchiveHistoryRequest) :
    List (Except IterError HistoryBlob) → Nat → archiveState → archiveState × archiveExit
  | [], _, st => (st, .done)
  | next :: rest, pos, st =>
    match archivePage d source request next pos st with
    | (st1, some exit) => (st1, exit)
    | (st1, none) => archivePages d source request rest (pos + 1) st1

/-- The archiver: its storage, the source behind its execution manager, and the history
iterator that only test code sets. -/
structure historyArchiver where
  gcloudStorage : Storage
  executionManager : HistorySource
  historyIterator : Option HistoryIterator

/-- What a call of `Archive` leaves behind: the returned error, whether it panicked, the storage,
the storage calls in order, the progress manager, the final cursor and the counters. -/
structure archiveResult where
  err : Option GoError
  panicked : Bool
  storage : Storage
  calls : List StoreCall
  pm : Option ProgressManager
  progress : progress
  metrics : Metrics

/-- The iterator and the progress cursor `Archive` starts its loop with: the iterator set by
test code with a zero cursor, or else what `loadHistoryIterator` gives. -/
def archiveStart (h : historyArchiver) (featureCatalog : ArchiveFeatureCatalog) :
    HistoryIterator × progress :=
  match h.historyIterator with
  | some it => (it, { CurrentPageNumber := 0, IteratorState := none })
  | none =>
    loadHistoryIterator h.executionManager featureCatalog.ProgressManager
      { CurrentPageNumber := 0, IteratorState := none }

/-- The body of `Archive`, up to its `return`. -/
def archiveBody (d : Deps) (h : historyArchiver) (u : URI) (request : ArchiveHistoryRequest)
    (featureCatalog : ArchiveFeatureCatalog) : archiveState × archiveExit :=
  let st0 : archiveState :=
    { storage := h.gcloudStorage
      progress := { CurrentPageNumber := 0, IteratorState := none }
      pm := featureCatalog.ProgressManager
      calls := []
      metrics := { transientErrorCount := 0, nonRetryableErrorCount := 0, successCount := 0,
                   duplicateArchivalsCount := 0 }
      totalUploadSize := 0 }
  if ValidateURI h.gcloudStorage.ExistRoot u then (st0, .ret (some errUploadNonRetryable))
  else if (d.ValidateHistoryArchiveRequest request.CloseFailoverVersion
      request.NextEventID).isSome then
    (st0, .ret (some errUploadNonRetryable))
  else
    let start : HistoryIterator × progress := archiveStart h featureCatalog
    match archivePages d start.1.source request (start.1.source.pages.drop start.1.pos)
        start.1.pos { st0 with progress := start.2 } with
    | (st, .done) =>
      ({ st with metrics := { st.metrics with successCount := st.metrics.successCount + 1 } },
        .ret none)
    | r => r

/-- `historyArchiver.Archive`: the body, then the deferred classification of the returned
error. -/
def Archive (d : Deps) (h : historyArchiver) (u : URI) (request : ArchiveHistoryRequest)
    (featureCatalog : ArchiveFeatureCatalog) : archiveResult :=
  match archiveBody d h u request featureCatalog with
  | (st, .ret (some err)) =>
    if err ≠ errUploadNonRetryable then
      { err := some err, panicked := false, storage := st.storage, calls := st.calls,
        pm := st.pm, progress := st.progress,
        metrics := { st.metrics with
          transientErrorCount := st.metrics.transientErrorCount + 1 } }
    else
      { err := match featureCatalog.NonRetryableError with
               | some translated => some translated
               | none => some err
        panicked := false, storage := st.storage, calls := st.calls, pm := st.pm,
        progress := st.progress,
        metrics := { st.metrics with
          nonRetryableErrorCount := st.metrics.nonRetryableErrorCount + 1 } }
  | (st, .panic) =>
    { err := none, panicked := true, storage := st.storage, calls := st.calls, pm := st.pm,
      progress := st.progress, metrics := st.metrics }
  | (st, _) =>
    { err := none, panicked := false, storage := st.storage, calls := st.calls, pm := st.pm,
      progress := st.progress, metrics := st.metrics }

/-- The uploads among a list of storage calls. -/
def uploadsOf : List StoreCall → List (FileName × Blob)
  | [] => []
  | .Upload name data :: rest => (name, data) :: uploadsOf rest
  | .Exist _ :: rest => uploadsOf rest

/-- The names of the existence checks among a list of storage calls. -/
def existsOf : List StoreCall → List FileName
  | [] => []
  | .Exist name :: rest => name :: existsOf rest
  | .Upload _ _ :: rest => existsOf rest

end gcloud

namespace gcloud

/-! ### Concrete inputs of the write path -/

/-- A request expecting close failover version 5 and next event id 11. -/
def sampleArchiveRequest : ArchiveHistoryRequest := { CloseFailoverVersion := 5, NextEventID := 11 }

/-- A page whose last event has version 5 and event id 9. -/
def samplePage (isLast : Bool) : HistoryBlob :=
  { IsLast := isLast, Body := [{ Events := [{ EventId := 8, Version := 5 },
                                            { EventId := 9, Version := 5 }] }] }

/-- A page whose last event has version 5 and event id 10. -/
def sampleLastPage : HistoryBlob :=
  { IsLast := true, Body := [{ Events := [{ EventId := 10, Version := 5 }] }] }

/-- A source with the given pages whose iterator state is the number of pages returned. -/
def sampleSource (pages : List (Except IterError HistoryBlob)) : HistorySource where
  pages := pages
  encodeState := fun n => .ok [n]
  decodeState := fun b =>
    match b with
    | [n] => .ok n
    | _ => .error "corrupted iterator state"

/-- An empty destination on which no call fails. -/
def emptyStorage : Storage := { files := [], uploadErr := fun _ => none, ExistRoot := none }

/-- A progress manager without progress on record and on which no call fails. -/
def freshProgressManager : ProgressManager :=
  { saved := none, loadErr := none, recordErr := fun _ => none }

/-- An archiver over the empty destination and a source of the given pages. -/
def sampleArchiver (pages : List (Except IterError HistoryBlob)) : historyArchiver :=
  { gcloudStorage := emptyStorage, executionManager := sampleSource pages, historyIterator := none }

end gcloud

namespace matching

/-! ### The task-queue database, `service/matching/db.go` -/

/-- `initialRangeID`: id of the first range of a new task queue. -/
def initialRangeID : Int := 1

/-- `subqueueZero`. -/
def subqueueZero : Nat := 0

/-- An instant (`time.Time`); `0` is the zero time. -/
abbrev Time := Nat

/-- Modelled from the spec: `fairLevel` (declared outside the sources at hand), an ordering key
`(pass, id)`. -/
structure fairLevel where
  pass : Int
  id : Int
deriving DecidableEq, Repr

/-- Modelled from the spec: `fairLevel.less`, the total order over `(pass, id)` pairs. -/
def fairLevel.less (a b : fairLevel) : Bool :=
  decide (a.pass < b.pass ∨ (a.pass = b.pass ∧ a.id < b.id))

/-- Modelled from the spec: `fairLevel.max`, the larger of two levels in that order. -/
def fairLevel.max (a b : fairLevel) : fairLevel := if a.less b then b else a

/-- Modelled from the spec: `fairLevelFromProto`; a missing level reads as the zero level. -/
def fairLevelFromProto (l : Option fairLevel) : fairLevel := l.getD { pass := 0, id := 0 }

/-- Modelled from the spec: `fairLevel.toProto`. -/
def fairLevel.toProto (l : fairLevel) : Option fairLevel := some l

/-- `persistencespb.SubqueueKey`. -/
structure SubqueueKey where
  Priority : Int
deriving DecidableEq, Repr

/-- `persistencespb.SubqueueInfo`: the persisted metadata of one subqueue. -/
structure SubqueueInfo where
  Key : Option SubqueueKey
  AckLevel : Int
  FairAckLevel : Option fairLevel
  FairMaxReadLevel : Option fairLevel
  ApproximateBacklogCount : Int
deriving DecidableEq, Repr

/-- `dbSubqueue`: the persisted metadata (the embedded `SubqueueInfo`, flattened) with the
in-memory `maxReadLevel` and `oldestTime`. -/
structure dbSubqueue where
  Key : Option SubqueueKey
  AckLevel : Int
  FairAckLevel : Option fairLevel
  FairMaxReadLevel : Option fairLevel
  ApproximateBacklogCount : Int
  maxReadLevel : Int
  oldestTime : Time
deriving DecidableEq, Repr

/-- The embedded `SubqueueInfo` of a `dbSubqueue`. -/
def dbSubqueue.SubqueueInfo (s : dbSubqueue) : SubqueueInfo :=
  { Key := s.Key, AckLevel := s.AckLevel, FairAckLevel := s.FairAckLevel,
    FairMaxReadLevel := s.FairMaxReadLevel,
    ApproximateBacklogCount := s.ApproximateBacklogCount }

/-- The fields of `taskQueueConfig` the database reads, together with the two package helpers it
calls whose definitions are outside the sources at hand: `rangeIDToTaskIDBlock(rangeID,
rangeSize).start` and `defaultPriorityLevel(priorityLevels)`. -/
structure taskQueueConfig where
  RangeSize : Int
  PriorityLevels : Int
  rangeIDToTaskIDBlockStart : Int → Int → Int
  defaultPriorityLevel : Int → Int

/-- `taskQueueDB` (the lock, the store handle, the logger and the queue key are left out). -/
structure taskQueueDB where
  config : taskQueueConfig
  rangeID : Int
  subqueues : List dbSubqueue
  lastChange : Time
  lastWrite : Time

/-- `taskQueueState`. -/
structure taskQueueState where
  rangeID : Int
  ackLevel : Int
  subqueues : List SubqueueInfo
deriving DecidableEq, Repr

/-- The fields of `persistencespb.TaskQueueInfo` that depend on the database state. -/
structure TaskQueueInfo where
  AckLevel : Int
  ApproximateBacklogCount : Int
  Subqueues : List SubqueueInfo
deriving DecidableEq, Repr

/-- The errors of the task store, by the classes the database distinguishes:
`*serviceerror.NotFound`, `*persistence.ConditionFailedError`, any other error. -/
inductive StoreError where
  | NotFound (msg : String)
  | ConditionFailed (msg : String)
  | Other (msg : String)
deriving DecidableEq, Repr

/-- `persistence.GetTaskQueueResponse`. -/
structure GetTaskQueueResponse where
  RangeID : Int
  TaskQueueInfo : TaskQueueInfo
deriving DecidableEq, Repr

/-- `persistence.CreateTaskQueueRequest`. -/
structure CreateTaskQueueRequest where
  RangeID : Int
  TaskQueueInfo : TaskQueueInfo
deriving DecidableEq, Repr

/-- `persistence.UpdateTaskQueueRequest`. -/
structure UpdateTaskQueueRequest where
  RangeID : Int
  TaskQueueInfo : TaskQueueInfo
  PrevRangeID : Int
deriving DecidableEq, Repr

/-- A computation of the database that talks to the task store: it returns, panics, or issues one
store call and goes on with the answer. -/
inductive Prog (α : Type) where
  | ret (a : α)
  | panic
  | GetTaskQueue (k : Except StoreError GetTaskQueueResponse → Prog α)
  | CreateTaskQueue (req : CreateTaskQueueRequest) (k : Option StoreError → Prog α)
  | UpdateTaskQueue (req : UpdateTaskQueueRequest) (k : Option StoreError → Prog α)

/-- Sequencing of store computations. -/
def Prog.bind {α β : Type} : Prog α → (α → Prog β) → Prog β
  | .ret a, f => f a
  | .panic, _ => .panic
  | .GetTaskQueue k, f => .GetTaskQueue fun r => (k r).bind f
  | .CreateTaskQueue req k, f => .CreateTaskQueue req fun r => (k r).bind f
  | .UpdateTaskQueue req k, f => .UpdateTaskQueue req fun r => (k r).bind f

/-- `taskQueueDB.cachedQueueInfo`; `none` is the index-out-of-range panic on a database without
subqueues. -/
def taskQueueDB.cachedQueueInfo (db : taskQueueDB) : Option TaskQueueInfo :=
  match db.subqueues[subqueueZero]? with
  | none => none
  | some s0 =>
    some { AckLevel := s0.AckLevel
           ApproximateBacklogCount := s0.ApproximateBacklogCount
           Subqueues := db.subqueues.map dbSubqueue.SubqueueInfo }

/-- `taskQueueDB.cloneSubqueues`. -/
def taskQueueDB.cloneSubqueues (db : taskQueueDB) : List SubqueueInfo :=
  db.subqueues.map dbSubqueue.SubqueueInfo

/-- `taskQueueDB.newSubqueueLocked`. -/
def taskQueueDB.newSubqueueLocked (db : taskQueueDB) (key : Option SubqueueKey) : dbSubqueue :=
  let initAckLevel := db.config.rangeIDToTaskIDBlockStart db.rangeID db.config.RangeSize - 1
  { Key := key, AckLevel := initAckLevel, FairAckLevel := none, FairMaxReadLevel := none,
    ApproximateBacklogCount := 0, maxReadLevel := initAckLevel, oldestTime := 0 }

/-- `taskQueueDB.ensureDefaultSubqueuesLocked`. -/
def taskQueueDB.ensureDefaultSubqueuesLocked (db : taskQueueDB) (infos : List SubqueueInfo)
    (initAckLevel : Int) (initApproxCount : Int) : List dbSubqueue :=
  let subqueues : List dbSubqueue := infos.map fun info =>
    { Key := info.Key, AckLevel := info.AckLevel, FairAckLevel := info.FairAckLevel,
      FairMaxReadLevel := info.FairMaxReadLevel,
      ApproximateBacklogCount := info.ApproximateBacklogCount, maxReadLevel := 0,
      oldestTime := 0 }
  let defKey : Option SubqueueKey :=
    some { Priority := db.config.defaultPriorityLevel db.config.PriorityLevels }
  let hasDefault := subqueues.any fun s => decide (s.Key = defKey)
  if !hasDefault then
    let subqueues1 := subqueues ++ [db.newSubqueueLocked defKey]
    if subqueues1.length = 1 then
      subqueues1.map fun s =>
        { s with AckLevel := initAckLevel, ApproximateBacklogCount := initApproxCount }
    else subqueues1
  else subqueues

/-- `taskQueueDB.updateTaskQueueLocked`; `now` is the reading of the clock after the write. -/
def taskQueueDB.updateTaskQueueLocked (db : taskQueueDB) (incrementRangeId : Bool) (now : Time) :
    Prog (taskQueueDB × Option StoreError) :=
  let newRangeID := if incrementRangeId then db.rangeID + 1 else db.rangeID
  match db.cachedQueueInfo with
  | none => .panic
  | some info =>
    .UpdateTaskQueue { RangeID := newRangeID, TaskQueueInfo := info, PrevRangeID := db.rangeID }
      fun err =>
        match err with
        | some e => .ret (db, some e)
        | none => .ret ({ db with lastWrite := now, rangeID := newRangeID }, none)

/-- `taskQueueDB.takeOverTaskQueueLocked`. -/
def taskQueueDB.takeOverTaskQueueLocked (db : taskQueueDB) (now : Time) :
    Prog (taskQueueDB × Option StoreError) :=
  .GetTaskQueue fun r =>
    match r with
    | .ok response =>
      let db0 : taskQueueDB := { db with rangeID := response.RangeID }
      let db1 : taskQueueDB :=
        { db0 with subqueues := (db0.ensureDefaultSubqueuesLocked
            response.TaskQueueInfo.Subqueues response.TaskQueueInfo.AckLevel
            response.TaskQueueInfo.ApproximateBacklogCount) }
      (db1.updateTaskQueueLocked true now).bind fun res =>
        match res.2 with
        | some e => .ret ({ res.1 with rangeID := 0 }, some e)
        | none =>
          let maxReadLevel :=
            res.1.config.rangeIDToTaskIDBlockStart res.1.rangeID res.1.config.RangeSize - 1
          .ret ({ res.1 with subqueues := res.1.subqueues.map fun s =>
                    { s with maxReadLevel := maxReadLevel } }, none)
    | .error (.NotFound _) =>
      let db0 : taskQueueDB := { db with rangeID := initialRangeID }
      let db1 : taskQueueDB := { db0 with subqueues := db0.ensureDefaultSubqueuesLocked [] 0 0 }
      match db1.cachedQueueInfo with
      | none => .panic
      | some info =>
        .CreateTaskQueue { RangeID := db1.rangeID, TaskQueueInfo := info } fun err =>
          match err with
          | some e => .ret ({ db1 with rangeID := 0 }, some e)
          | none => .ret ({ db1 with lastWrite := now }, none)
    | .error e => .ret (db, some e)

/-- `taskQueueDB.RenewLease`: the database after the call and the returned state or error. -/
def taskQueueDB.RenewLease (db : taskQueueDB) (now : Time) :
    Prog (taskQueueDB × Except StoreError taskQueueState) :=
  (if db.rangeID = 0 then db.takeOverTaskQueueLocked now
   else db.updateTaskQueueLocked true now).bind fun res =>
    match res.2 with
    | some e => .ret (res.1, .error e)
    | none =>
      match res.1.subqueues[subqueueZero]? with
      | none => .panic
      | some s0 =>
        .ret (res.1, .ok { rangeID := res.1.rangeID, ackLevel := s0.AckLevel,
                           subqueues := res.1.cloneSubqueues })

/-! ### Concrete inputs of the database -/

/-- A configuration with range size 1000, three priority levels, task id blocks
`[(r-1)*size + 1, r*size]` and the middle priority as the default. -/
def sampleConfig : taskQueueConfig where
  RangeSize := 1000
  PriorityLevels := 3
  rangeIDToTaskIDBlockStart := fun rangeID rangeSize => (rangeID - 1) * rangeSize + 1
  defaultPriorityLevel := fun levels => (levels + 1) / 2

/-- A database that has not been loaded yet: no lease, no subqueues. -/
def unloadedDB : taskQueueDB :=
  { config := sampleConfig, rangeID := 0, subqueues := [], lastChange := 0, lastWrite := 0 }

/-- The result of running a store computation against scripted answers: the answer to
`GetTaskQueue` and the answer to the write. -/
def Prog.answer {α : Type} (get : Except StoreError GetTaskQueueResponse)
    (write : Option StoreError) : Prog α → Option α
  | .ret a => some a
  | .panic => none
  | .GetTaskQueue k =>
    match k get with
    | .ret a => some a
    | .CreateTaskQueue _ k2 => match k2 write with | .ret a => some a | _ => none
    | .UpdateTaskQueue _ k2 => match k2 write with | .ret a => some a | _ => none
    | _ => none
  | .CreateTaskQueue _ k => match k write with | .ret a => some a | _ => none
  | .UpdateTaskQueue _ k => match k write with | .ret a => some a | _ => none

/-- A freshly created partition: the database after `RenewLease` (at time 7) against a store
without metadata that accepts the creation. -/
def freshDB : taskQueueDB :=
  match (unloadedDB.RenewLease 7).answer (.error (.NotFound "task queue not found")) none with
  | some res => res.1
  | none => unloadedDB

/-! ### The persisted lease as a compare-and-swap register, and competing owners -/

/-- The persisted metadata of the partition: nothing, or a range id with the queue info. -/
abbrev Register := Option (Int × TaskQueueInfo)

/-- What can go wrong with a store call apart from its condition: nothing; the call is lost
before it reaches the store; the call reaches the store but its answer is lost (the caller sees
an error and does not know the outcome). -/
inductive Fault where
  | none
  | lost
  | unknown
deriving DecidableEq, Repr

/-- One step of a store computation against the register: the head call, if any, is made.
`CreateTaskQueue` is accepted only when no metadata exists, `UpdateTaskQueue` only when the
stored range id equals `PrevRangeID`.  The result is the rest of the computation, the register,
and the range id installed when a write was accepted. -/
def Prog.step {α : Type} (p : Prog α) (reg : Register) (fault : Fault) :
    Prog α × Register × Option Int :=
  match p with
  | .ret a => (.ret a, reg, none)
  | .panic => (.panic, reg, none)
  | .GetTaskQueue k =>
    match fault with
    | .none =>
      match reg with
      | none => (k (.error (.NotFound "task queue not found")), reg, none)
      | some (rangeID, info) => (k (.ok { RangeID := rangeID, TaskQueueInfo := info }), reg, none)
    | _ => (k (.error (.Other "store unavailable")), reg, none)
  | .CreateTaskQueue req k =>
    match fault with
    | .lost => (k (some (.Other "store unavailable")), reg, none)
    | f =>
      match reg with
      | none =>
        (k (if f = .unknown then some (.Other "timeout") else none),
          some (req.RangeID, req.TaskQueueInfo), some req.RangeID)
      | some _ => (k (some (.ConditionFailed "task queue exists")), reg, none)
  | .UpdateTaskQueue req k =>
    match fault with
    | .lost => (k (some (.Other "store unavailable")), reg, none)
    | f =>
      match reg with
      | some (rangeID, _) =>
        if rangeID = req.PrevRangeID then
          (k (if f = .unknown then some (.Other "timeout") else none),
            some (req.RangeID, req.TaskQueueInfo), some req.RangeID)
        else (k (some (.ConditionFailed "range id mismatch")), reg, none)
      | none => (k (some (.ConditionFailed "range id mismatch")), reg, none)

/-- One `taskQueueDB` instance of the partition: between calls of `RenewLease`, or inside
one. -/
inductive Owner where
  | idle (db : taskQueueDB)
  | renewing (p : Prog (taskQueueDB × Except StoreError taskQueueState))

/-- The partition with its competing owners: the register, the owners, and the range ids
installed by accepted writes, oldest first. -/
structure Partition where
  register : Register
  owners : List Owner
  installed : List Int

/-- One event of an interleaving: owner `owner` takes its next step (it calls `RenewLease`,
makes the next store call of the `RenewLease` it is in, or returns from it); `fault` is the fault
of the store call, `now` the reading of the clock. -/
structure Event where
  owner : Nat
  fault : Fault
  now : Time

/-- The effect of one event. -/
def Partition.step (sys : Partition) (ev : Event) : Partition :=
  match sys.owners[ev.owner]? with
  | none => sys
  | some (.idle db) =>
    { sys with owners := sys.owners.set ev.owner (.renewing (db.RenewLease ev.now)) }
  | some (.renewing (.ret res)) =>
    { sys with owners := sys.owners.set ev.owner (.idle res.1) }
  | some (.renewing p) =>
    match p.step sys.register ev.fault with
    | (p1, reg, inst) =>
      { register := reg
        owners := sys.owners.set ev.owner (.renewing p1)
        installed := sys.installed ++ inst.toList }

/-- The effect of an interleaving. -/
def Partition.run (sys : Partition) (events : List Event) : Partition :=
  events.foldl Partition.step sys

/-- Every `UpdateTaskQueue` a computation can issue asks for a range id above the one it is
conditioned on. -/
def Prog.raisesLease {α : Type} : Prog α → Prop
  | .ret _ => True
  | .panic => True
  | .GetTaskQueue k => ∀ r, (k r).raisesLease
  | .CreateTaskQueue _ k => ∀ r, (k r).raisesLease
  | .UpdateTaskQueue req k => req.PrevRangeID < req.RangeID ∧ ∀ r, (k r).raisesLease

/-- No installed range id is above the stored one (and none is installed while no metadata
exists). -/
def belowRegister (reg : Register) (installed : List Int) : Prop :=
  match reg with
  | none => installed = []
  | some (rangeID, _) => ∀ x ∈ installed, x ≤ rangeID

/-- The invariant of the interleavings: owners inside `RenewLease` only raise the lease; the
installed range ids are strictly increasing and none of them is above the stored one. -/
def Partition.inv (sys : Partition) : Prop :=
  (∀ p, Owner.renewing p ∈ sys.owners → p.raisesLease) ∧
  sys.installed.Pairwise (· < ·) ∧
  belowRegister sys.register sys.installed

/-! ### Tasks and backlog bookkeeping -/

/-- The fields of `writeTaskRequest` the database reads (the task payload is left out). -/
structure writeTaskRequest where
  subqueue : Nat
  id : Int
  pass : Int
  fairLevel : fairLevel
deriving DecidableEq, Repr

/-- `persistencespb.AllocatedTaskInfo` without its payload. -/
structure AllocatedTaskInfo where
  TaskId : Int
  TaskPass : Int
deriving DecidableEq, Repr

/-- `subqueueCreateTasksResponse`. -/
structure subqueueCreateTasksResponse where
  tasks : List AllocatedTaskInfo
  maxReadLevelBefore : Int
  maxReadLevelAfter : Int
deriving DecidableEq, Repr

/-- `persistence.CreateTasksResponse`. -/
structure CreateTasksResponse where
  UpdatedMetadata : Bool
deriving DecidableEq, Repr

/-- A Go `map[int]T`: the value stored under each key, if any. -/
abbrev IntMap (β : Type) := Nat → Option β

/-- The map assignment `m[key] = v`. -/
def IntMap.set {β : Type} (m : IntMap β) (key : Nat) (v : β) : IntMap β :=
  fun i => if i = key then some v else m i

/-- `for i, s := range subqueues` applying `f i` to the subqueue of index `i`, counting from
`start`. -/
def modifySubqueuesFrom (f : Nat → dbSubqueue → dbSubqueue) : Nat → List dbSubqueue →
    List dbSubqueue
  | _, [] => []
  | start, s :: rest => f start s :: modifySubqueuesFrom f (start + 1) rest

/-- A loop `for sq, v := range m` over a map whose keys are subqueue indexes in range, with a body
that only touches `db.subqueues[sq]`: the bodies of different keys commute, so the loop is the
pointwise application of the body to the subqueues that have a key. -/
def rangeOverMap {β : Type} (m : IntMap β) (body : β → dbSubqueue → dbSubqueue)
    (subqueues : List dbSubqueue) : List dbSubqueue :=
  modifySubqueuesFrom (fun sq s => (m sq).elim s (fun v => body v s)) 0 subqueues

/-- The statement `s.ApproximateBacklogCount += int64(n)`. -/
def dbSubqueue.addBacklog (s : dbSubqueue) (n : Nat) : dbSubqueue :=
  { s with ApproximateBacklogCount := wrap64 (s.ApproximateBacklogCount + n) }

/-- The statement `s.maxReadLevel = level`. -/
def dbSubqueue.setMaxReadLevel (s : dbSubqueue) (level : Int) : dbSubqueue :=
  { s with maxReadLevel := level }

/-- The statement `s.ApproximateBacklogCount -= int64(n)`. -/
def dbSubqueue.subBacklog (s : dbSubqueue) (n : Nat) : dbSubqueue :=
  { s with ApproximateBacklogCount := wrap64 (s.ApproximateBacklogCount - n) }

/-- The first loop of `CreateTasks`, building the `updates` map; `none` is the
index-out-of-range panic of `getMaxReadLevelLocked` on a subqueue the database does not have. -/
def collectUpdates (db : taskQueueDB) :
    List writeTaskRequest → IntMap subqueueCreateTasksResponse →
      Option (IntMap subqueueCreateTasksResponse)
  | [], updates => some updates
  | req :: rest, updates =>
    match db.subqueues[req.subqueue]? with
    | none => none
    | some s =>
      let task : AllocatedTaskInfo := { TaskId := req.id, TaskPass := 0 }
      let u : subqueueCreateTasksResponse :=
        (updates req.subqueue).getD { tasks := [], maxReadLevelBefore := 0,
                                      maxReadLevelAfter := 0 }
      collectUpdates db rest (updates.set req.subqueue
        { tasks := u.tasks ++ [task]
          maxReadLevelBefore := s.maxReadLevel
          maxReadLevelAfter := task.TaskId })

/-- `taskQueueDB.CreateTasks`; `result` is what the store answers to the one `CreateTasks` call
(made only for a non-empty batch).  The outcome is the database, the response map and the
returned error; `none` is a panic. -/
def taskQueueDB.CreateTasks (db : taskQueueDB) (reqs : List writeTaskRequest) (now : Time)
    (result : Except StoreError CreateTasksResponse) :
    Option (taskQueueDB × IntMap subqueueCreateTasksResponse × Option StoreError) :=
  if reqs.isEmpty then some (db, fun _ => none, none)
  else
    match collectUpdates db reqs (fun _ => none) with
    | none => none
    | some updates =>
      let db1 : taskQueueDB := { db with subqueues := (rangeOverMap updates
        (fun update s => s.addBacklog update.tasks.length) db.subqueues) }
      let db2 : taskQueueDB := { db1 with subqueues := (rangeOverMap updates
        (fun update s => s.setMaxReadLevel update.maxReadLevelAfter) db1.subqueues) }
      match result with
      | .ok resp =>
        some (if resp.UpdatedMetadata then { db2 with lastWrite := now } else db2, updates, none)
      | .error (.ConditionFailed msg) =>
        some ({ db2 with subqueues := (rangeOverMap updates
          (fun update s => s.subBacklog update.tasks.length) db2.subqueues) },
          updates, some (.ConditionFailed msg))
      | .error e => some (db2, updates, some e)

/-- The first loop of `CreateFairTasks`, building the `newTasks` and `newMaxLevel` maps. -/
def collectFairTasks :
    List writeTaskRequest → IntMap (List AllocatedTaskInfo) × IntMap fairLevel →
      IntMap (List AllocatedTaskInfo) × IntMap fairLevel
  | [], maps => maps
  | req :: rest, (newTasks, newMaxLevel) =>
    let task : AllocatedTaskInfo := { TaskId := req.id, TaskPass := req.pass }
    collectFairTasks rest
      (newTasks.set req.subqueue ((newTasks req.subqueue).getD [] ++ [task]),
       newMaxLevel.set req.subqueue
        (((newMaxLevel req.subqueue).getD { pass := 0, id := 0 }).max req.fairLevel))

/-- `taskQueueDB.CreateFairTasks`; `none` is the index-out-of-range panic on a subqueue the
database does not have. -/
def taskQueueDB.CreateFairTasks (db : taskQueueDB) (reqs : List writeTaskRequest) (now : Time)
    (result : Except StoreError CreateTasksResponse) :
    Option (taskQueueDB × IntMap (List AllocatedTaskInfo) × Option StoreError) :=
  if reqs.isEmpty then some (db, fun _ => none, none)
  else
    match collectFairTasks reqs (fun _ => none, fun _ => none) with
    | (newTasks, newMaxLevel) =>
      if reqs.any (fun req => decide (db.subqueues.length ≤ req.subqueue)) then none
      else
        let db1 : taskQueueDB := { db with subqueues := (rangeOverMap newTasks
          (fun tasks s => s.addBacklog tasks.length) db.subqueues) }
        let db2 : taskQueueDB := { db1 with subqueues := (rangeOverMap newMaxLevel
          (fun level s =>
            { s with FairMaxReadLevel := ((fairLevelFromProto s.FairMaxReadLevel).max level).toProto })
          db1.subqueues) }
        match result with
        | .ok resp =>
          some (if resp.UpdatedMetadata then { db2 with lastWrite := now } else db2,
            newTasks, none)
        | .error (.ConditionFailed msg) =>
          some ({ db2 with subqueues := (rangeOverMap newTasks
            (fun tasks s => s.subBacklog tasks.length) db2.subqueues) },
            newTasks, some (.ConditionFailed msg))
        | .error e => some (db2, newTasks, some e)

/-- `taskQueueDB.updateBacklogStatsLocked`; `none` is the index-out-of-range panic. -/
def taskQueueDB.updateBacklogStatsLocked (db : taskQueueDB) (subqueue : Nat) (countDelta : Int)
    (oldestTime : Time) : Option taskQueueDB :=
  match db.subqueues[subqueue]? with
  | none => none
  | some s =>
    let count : Int :=
      if wrap64 (s.ApproximateBacklogCount + countDelta) < 0 then 0
      else wrap64 (s.ApproximateBacklogCount + countDelta)
    some { db with subqueues := (db.subqueues.set subqueue
      { s with ApproximateBacklogCount := count, oldestTime := oldestTime }) }

/-- `taskQueueDB.updateAckLevelAndBacklogStats`. -/
def taskQueueDB.updateAckLevelAndBacklogStats (db : taskQueueDB) (subqueue : Nat)
    (newAckLevel : Int) (countDelta : Int) (oldestTime : Time) (now : Time) :
    Option taskQueueDB :=
  match db.subqueues[subqueue]? with
  | none => none
  | some dbQueue =>
    let db1 : taskQueueDB :=
      if dbQueue.AckLevel ≠ newAckLevel then
        { db with lastChange := now
                  subqueues := (db.subqueues.set subqueue
                    { dbQueue with AckLevel := newAckLevel }) }
      else db
    let dbQueue1 : dbSubqueue :=
      if dbQueue.AckLevel ≠ newAckLevel then { dbQueue with AckLevel := newAckLevel } else dbQueue
    if newAckLevel = dbQueue1.maxReadLevel then
      if dbQueue1.ApproximateBacklogCount ≠ 0 ∨ dbQueue1.oldestTime ≠ oldestTime then
        some { db1 with lastChange := now
                        subqueues := (db1.subqueues.set subqueue
                          { dbQueue1 with ApproximateBacklogCount := 0,
                                          oldestTime := oldestTime }) }
      else some db1
    else if countDelta ≠ 0 then
      ({ db1 with lastChange := now } : taskQueueDB).updateBacklogStatsLocked subqueue countDelta
        oldestTime
    else some db1

/-- `taskQueueDB.updateFairAckLevel`. -/
def taskQueueDB.updateFairAckLevel (db : taskQueueDB) (subqueue : Nat) (newAckLevel : fairLevel)
    (countDelta knownCount : Int) (oldestTime : Time) (now : Time) : Option taskQueueDB :=
  match db.subqueues[subqueue]? with
  | none => none
  | some dbQueue =>
    let dbQueue1 : dbSubqueue := { dbQueue with FairAckLevel := newAckLevel.toProto }
    let db1 : taskQueueDB :=
      { db with lastChange := now, subqueues := db.subqueues.set subqueue dbQueue1 }
    if knownCount ≥ 0 then
      some { db1 with subqueues := (db1.subqueues.set subqueue
        { dbQueue1 with ApproximateBacklogCount := knownCount, oldestTime := oldestTime }) }
    else if countDelta ≠ 0 then db1.updateBacklogStatsLocked subqueue countDelta oldestTime
    else some db1

/-- `taskQueueDB.updateBacklogStats`. -/
def taskQueueDB.updateBacklogStats (db : taskQueueDB) (countDelta : Int) (oldestTime : Time)
    (now : Time) : Option taskQueueDB :=
  ({ db with lastChange := now } : taskQueueDB).updateBacklogStatsLocked 0 countDelta oldestTime

/-- A call of one of the operations that move the backlog counters, with its arguments, the
reading of the clock and, for the two creations, the answer of the store. -/
inductive BacklogOp where
  | CreateTasks (reqs : List writeTaskRequest) (now : Time)
      (result : Except StoreError CreateTasksResponse)
  | CreateFairTasks (reqs : List writeTaskRequest) (now : Time)
      (result : Except StoreError CreateTasksResponse)
  | updateAckLevelAndBacklogStats (subqueue : Nat) (newAckLevel : Int) (countDelta : Int)
      (oldestTime : Time) (now : Time)
  | updateFairAckLevel (subqueue : Nat) (newAckLevel : fairLevel) (countDelta knownCount : Int)
      (oldestTime : Time) (now : Time)
  | updateBacklogStats (countDelta : Int) (oldestTime : Time) (now : Time)

/-- The database after a call; `none` is a panic. -/
def taskQueueDB.apply (db : taskQueueDB) : BacklogOp → Option taskQueueDB
  | .CreateTasks reqs now result => (db.CreateTasks reqs now result).map (·.1)
  | .CreateFairTasks reqs now result => (db.CreateFairTasks reqs now result).map (·.1)
  | .updateAckLevelAndBacklogStats subqueue newAckLevel countDelta oldestTime now =>
    db.updateAckLevelAndBacklogStats subqueue newAckLevel countDelta oldestTime now
  | .updateFairAckLevel subqueue newAckLevel countDelta knownCount oldestTime now =>
    db.updateFairAckLevel subqueue newAckLevel countDelta knownCount oldestTime now
  | .updateBacklogStats countDelta oldestTime now => db.updateBacklogStats countDelta oldestTime now

/-- The database after a sequence of calls; `none` when one of them panics. -/
def taskQueueDB.applyAll (db : taskQueueDB) : List BacklogOp → Option taskQueueDB
  | [] => some db
  | op :: rest =>
    match db.apply op with
    | none => none
    | some db1 => db1.applyAll rest

/-- The number of tasks of a batch that go to subqueue `sq`. -/
def tasksFor (reqs : List writeTaskRequest) (sq : Nat) : Nat :=
  (reqs.filter fun req => decide (req.subqueue = sq)).length

/-- The optimistic increment of a creation stays inside `int64`: no subqueue's count plus the
number of tasks it receives exceeds `math.MaxInt64`.  Holds of every other call. -/
def BacklogOp.fits (db : taskQueueDB) : BacklogOp → Prop
  | .CreateTasks reqs _ _ =>
    ∀ sq s, db.subqueues[sq]? = some s → s.ApproximateBacklogCount + tasksFor reqs sq ≤ maxInt64
  | .CreateFairTasks reqs _ _ =>
    ∀ sq s, db.subqueues[sq]? = some s → s.ApproximateBacklogCount + tasksFor reqs sq ≤ maxInt64
  | _ => True

/-- A sequence of calls none of which panics and in which every creation fits. -/
def taskQueueDB.fitsAll (db : taskQueueDB) : List BacklogOp → Prop
  | [] => True
  | op :: rest => op.fits db ∧ ∀ db1, db.apply op = some db1 → db1.fitsAll rest

/-- Every subqueue's `ApproximateBacklogCount` is `>= 0`. -/
def taskQueueDB.backlogNonneg (db : taskQueueDB) : Prop :=
  ∀ s ∈ db.subqueues, 0 ≤ s.ApproximateBacklogCount

/-- The number of tasks the `updates` map of `CreateTasks` holds for subqueue `sq`. -/
def updateLen (updates : IntMap subqueueCreateTasksResponse) (sq : Nat) : Nat :=
  match updates sq with
  | some u => u.tasks.length
  | none => 0

/-- The number of tasks the `newTasks` map of `CreateFairTasks` holds for subqueue `sq`. -/
def fairLen (newTasks : IntMap (List AllocatedTaskInfo)) (sq : Nat) : Nat :=
  match newTasks sq with
  | some tasks => tasks.length
  | none => 0

end matching

namespace matching

/-! ### Concrete inputs of a takeover -/

/-- Stored metadata of a partition a previous owner left: range id 4, ack level 3000, two tasks
in the backlog, no subqueue list (written before subqueues existed). -/
def sampleStored : GetTaskQueueResponse :=
  { RangeID := 4
    TaskQueueInfo := { AckLevel := 3000, ApproximateBacklogCount := 2, Subqueues := [] } }

/-- The outcome of `RenewLease` (at time 7) of the unloaded database against a store that holds
`sampleStored` and accepts the update. -/
def takenOver : Option (taskQueueDB × Except StoreError taskQueueState) :=
  (unloadedDB.RenewLease 7).answer (.ok sampleStored) none

/-- The database after that takeover. -/
def takenOverDB : taskQueueDB :=
  match takenOver with
  | some res => res.1
  | none => unloadedDB

/-- The state that takeover returned. -/
def takenOverState : taskQueueState :=
  match takenOver with
  | some (_, .ok st) => st
  | _ => { rangeID := 0, ackLevel := 0, subqueues := [] }

end matching

namespace gcloud

/-! ### Event counts and a loop state of the sample store -/

/-- The number of events of a list of batches (the value `numOfEvents` accumulates). -/
def eventCount (batches : List History) : Int :=
  (batches.map fun b => (b.Events.length : Int)).sum

/-- The loop state of `Get` on the sample store after part 0: one batch of 6 events appended,
the token on part 1. -/
def sampleLoopState : getState :=
  { HistoryBatches := [sampleBatch 1 6]
    token := { CloseFailoverVersion := 1, HighestPart := 2, CurrentPart := 1, BatchIdxOffset := 0 }
    numOfEvents := 6 }

end gcloud

namespace gcloud

/-- The token the first call on the sample store starts from: version 1, parts 0 to 2. -/
def sampleToken : getHistoryToken :=
  { CloseFailoverVersion := 1, HighestPart := 2, CurrentPart := 0, BatchIdxOffset := 0 }

/-- The response of the first call on the sample store: the batches of parts 0 and 1, and the
token of part 2, offset 0. -/
def sampleFirstPage : GetHistoryResponse :=
  { HistoryBatches := [sampleBatch 1 6, sampleBatch 1 6]
    NextPageToken := some [0, 1, 0, 2, 0, 2, 0, 0] }

/-- A store holding parts 0 and 1 of version 1: part 0 decodes to one batch of 6 events, part 1
to two batches, of 6 events and 1 event. -/
def cutClient : Client where
  Query := .ok [.part 1 0, .part 1 1]
  Get := fun name =>
    match name with
    | .part 1 0 => .ok (some [6])
    | .part 1 1 => .ok (some [6, 1])
    | _ => .error "object does not exist"
  ExistRoot := none

/-- The token the first call on `cutClient` starts from: version 1, parts 0 to 1. -/
def cutToken : getHistoryToken :=
  { CloseFailoverVersion := 1, HighestPart := 1, CurrentPart := 0, BatchIdxOffset := 0 }

/-- The response of the first call on `cutClient` with page size 10: the batch of part 0, the
first batch of part 1, and the token of part 1, offset 1. -/
def cutPage : GetHistoryResponse :=
  { HistoryBatches := [sampleBatch 1 6, sampleBatch 1 6]
    NextPageToken := some [0, 1, 0, 1, 0, 1, 0, 1] }

end gcloud

namespace gcloud

/-! ### Stored part files as (version, part) pairs -/

/-- The file names of a list of (version, part) pairs. -/
def partFiles (pairs : List (Int × Int)) : List FileName :=
  pairs.map fun vp => FileName.part vp.1 vp.2

/-- The pairs a request looks at: all of them, or those of the requested version when the
request sets `CloseFailoverVersion`. -/
def selected (want : Option Int) (pairs : List (Int × Int)) : List (Int × Int) :=
  pairs.filter fun vp => decide (want = none ∨ want = some vp.1)

/-- What `getHighestVersion` has computed after the selected pairs `sel`: nothing when there is
none; otherwise the highest version `v`, and for the parts of version `v` the greatest of them
and 0 (`hi`) and the least of them and 0 (`lo`). -/
def describes (sel : List (Int × Int)) (acc : versionParts) : Prop :=
  (sel = [] ∧ acc = { highestVersion := none, highestVersionPart := none,
                      lowestVersionPart := none }) ∨
  ∃ v hi lo, acc = { highestVersion := some v, highestVersionPart := some hi,
                     lowestVersionPart := some lo } ∧
    (∃ p, (v, p) ∈ sel) ∧ (∀ vp ∈ sel, vp.1 ≤ v) ∧
    0 ≤ hi ∧ (hi = 0 ∨ (v, hi) ∈ sel) ∧ (∀ p, (v, p) ∈ sel → p ≤ hi) ∧
    lo ≤ 0 ∧ (lo = 0 ∨ (v, lo) ∈ sel) ∧ (∀ p, (v, p) ∈ sel → lo ≤ p)

/-- Whether a stored file name matches the request: it parses as a part file, of the requested
version when the request sets one. -/
def matchesRequest (want : Option Int) (f : FileName) : Bool :=
  match extractCloseFailoverVersion f with
  | .ok (version, _) => decide (want = none ∨ want = some version)
  | .error _ => false

/-- The sample store behind a bucket whose existence check fails. -/
def unreachableClient : Client :=
  { sampleClient with ExistRoot := some "bucket is not reachable" }

/-- A store that holds parts 1 and 2 of version 1 and no part 0. -/
def gapClient : Client where
  Query := .ok (partFiles [(1, 1), (1, 2)])
  Get := fun name =>
    match name with
    | .part 1 1 => .ok (some [6])
    | .part 1 2 => .ok (some [1])
    | _ => .error "object does not exist"
  ExistRoot := none

end gcloud

namespace matching

/-! ### Ack level, read level and backlog count of a subqueue -/

/-- The ack level of a subqueue is not above its read level, and the subqueue counts no backlog
when the two are equal. -/
def dbSubqueue.caughtUpEmpty (s : dbSubqueue) : Prop :=
  s.AckLevel ≤ s.maxReadLevel ∧ (s.AckLevel = s.maxReadLevel → s.ApproximateBacklogCount = 0)

/-- Every subqueue satisfies `caughtUpEmpty`. -/
def taskQueueDB.caughtUpEmpty (db : taskQueueDB) : Prop :=
  ∀ s ∈ db.subqueues, s.caughtUpEmpty

/-- The arguments of a call respect the order of task ids: a creation writes only task ids above
the read level of their subqueue (ids are handed out in increasing order), an ack-level update
does not move the ack level above the read level (only tasks that were read are acknowledged).
Holds of no other call. -/
def BacklogOp.inOrder (db : taskQueueDB) : BacklogOp → Prop
  | .CreateTasks reqs _ _ =>
    ∀ req ∈ reqs, ∀ s, db.subqueues[req.subqueue]? = some s → s.maxReadLevel < req.id
  | .updateAckLevelAndBacklogStats subqueue newAckLevel _ _ _ =>
    ∀ s, db.subqueues[subqueue]? = some s → newAckLevel ≤ s.maxReadLevel
  | _ => False

/-- A sequence of creations and ack-level updates whose arguments respect the order of task
ids. -/
def taskQueueDB.inOrderAll (db : taskQueueDB) : List BacklogOp → Prop
  | [] => True
  | op :: rest => op.inOrder db ∧ ∀ db1, db.apply op = some db1 → db1.inOrderAll rest

end matching

namespace matching

/-! ### The other operations that write the metadata -/

/-- `taskQueueDB.OldUpdateState`; `now` is the reading of the clock after the write (the gauges
it emits are left out). -/
def taskQueueDB.OldUpdateState (db : taskQueueDB) (ackLevel : Int) (now : Time) :
    Prog (taskQueueDB × Option StoreError) :=
  match db.subqueues[subqueueZero]? with
  | none => .panic
  | some s0 =>
    let maxReadLevel := s0.maxReadLevel
    let s1 : dbSubqueue :=
      if ackLevel = maxReadLevel then { s0 with ApproximateBacklogCount := 0, oldestTime := 0 }
      else s0
    let prevAckLevel := s1.AckLevel
    let db1 : taskQueueDB :=
      { db with subqueues := db.subqueues.set subqueueZero { s1 with AckLevel := ackLevel } }
    (db1.updateTaskQueueLocked false now).bind fun res =>
      match res.2 with
      | some e =>
        .ret ({ res.1 with subqueues := (res.1.subqueues.set subqueueZero
                  { s1 with AckLevel := prevAckLevel }) }, some e)
      | none => .ret (res.1, none)

/-- `taskQueueDB.SyncState`.  `stickyTaskQueueTTL` is the package constant of that name (24
hours in `db.go`), kept as an argument so that the unit of `Time` stays free; `now` is the
reading of the clock at the check, `written` the reading after the write. -/
def taskQueueDB.SyncState (db : taskQueueDB) (stickyTaskQueueTTL : Nat) (now written : Time) :
    Prog (taskQueueDB × Option StoreError) :=
  let needWrite : Bool := decide (db.lastChange > db.lastWrite) ||
    decide ((now : Int) - (db.lastWrite : Int) > ((stickyTaskQueueTTL / 2 : Nat) : Int))
  if !needWrite then .ret (db, none)
  else db.updateTaskQueueLocked false written

/-- `taskQueueDB.AllocateSubqueue`. -/
def taskQueueDB.AllocateSubqueue (db : taskQueueDB) (key : Option SubqueueKey) (now : Time) :
    Prog (taskQueueDB × Except StoreError (List SubqueueInfo)) :=
  let newSubqueue := db.newSubqueueLocked key
  let db1 : taskQueueDB := { db with subqueues := db.subqueues ++ [newSubqueue] }
  (db1.updateTaskQueueLocked false now).bind fun res =>
    match res.2 with
    | some e => .ret ({ res.1 with subqueues := res.1.subqueues.dropLast }, .error e)
    | none => .ret (res.1, .ok res.1.cloneSubqueues)

/-- A call of one of the operations of the database, with its arguments, the readings of the
clock and the answers of the store to the calls it makes. -/
inductive DBOp where
  | CreateTasks (reqs : List writeTaskRequest) (now : Time)
      (result : Except StoreError CreateTasksResponse)
  | updateAckLevelAndBacklogStats (subqueue : Nat) (newAckLevel : Int) (countDelta : Int)
      (oldestTime : Time) (now : Time)
  | OldUpdateState (ackLevel : Int) (now : Time) (write : Option StoreError)
  | AllocateSubqueue (key : Option SubqueueKey) (now : Time) (write : Option StoreError)
  | RenewLease (now : Time) (get : Except StoreError GetTaskQueueResponse)
      (write : Option StoreError)
  | SyncState (stickyTaskQueueTTL : Nat) (now written : Time) (write : Option StoreError)

/-- The answer scripted for `GetTaskQueue` in operations that never call it. -/
def noGet : Except StoreError GetTaskQueueResponse := .error (.Other "GetTaskQueue is not called")

/-- The database after a call; `none` is a panic. -/
def taskQueueDB.perform (db : taskQueueDB) : DBOp → Option taskQueueDB
  | .CreateTasks reqs now result => (db.CreateTasks reqs now result).map (·.1)
  | .updateAckLevelAndBacklogStats subqueue newAckLevel countDelta oldestTime now =>
    db.updateAckLevelAndBacklogStats subqueue newAckLevel countDelta oldestTime now
  | .OldUpdateState ackLevel now write =>
    ((db.OldUpdateState ackLevel now).answer noGet write).map (·.1)
  | .AllocateSubqueue key now write =>
    ((db.AllocateSubqueue key now).answer noGet write).map (·.1)
  | .RenewLease now get write => ((db.RenewLease now).answer get write).map (·.1)
  | .SyncState stickyTaskQueueTTL now written write =>
    ((db.SyncState stickyTaskQueueTTL now written).answer noGet write).map (·.1)

/-- The database after a sequence of calls; `none` when one of them panics. -/
def taskQueueDB.performAll (db : taskQueueDB) : List DBOp → Option taskQueueDB
  | [] => some db
  | op :: rest =>
    match db.perform op with
    | none => none
    | some db1 => db1.performAll rest

/-- The arguments of a call respect the order of task ids: a creation writes only task ids above
the read level of their subqueue, an ack-level update (of either kind) does not move the ack
level above the read level.  The other calls have no such argument. -/
def DBOp.inOrder (db : taskQueueDB) : DBOp → Prop
  | .CreateTasks reqs _ _ =>
    ∀ req ∈ reqs, ∀ s, db.subqueues[req.subqueue]? = some s → s.maxReadLevel < req.id
  | .updateAckLevelAndBacklogStats subqueue newAckLevel _ _ _ =>
    ∀ s, db.subqueues[subqueue]? = some s → newAckLevel ≤ s.maxReadLevel
  | .OldUpdateState ackLevel _ _ =>
    ∀ s, db.subqueues[subqueueZero]? = some s → ackLevel ≤ s.maxReadLevel
  | _ => True

/-- A sequence of calls whose arguments respect the order of task ids. -/
def taskQueueDB.inOrderOps (db : taskQueueDB) : List DBOp → Prop
  | [] => True
  | op :: rest => op.inOrder db ∧ ∀ db1, db.perform op = some db1 → db1.inOrderOps rest

/-- A lease is held and no subqueue has its ack level above its read level. -/
def taskQueueDB.ackBelowRead (db : taskQueueDB) : Prop :=
  0 < db.rangeID ∧ ∀ s ∈ db.subqueues, s.AckLevel ≤ s.maxReadLevel

end matching

namespace gcloud

/-! ### The URIs of `TestValidateVisibilityURI`, by their parsed components -/

/-- `wrongscheme:///a/b/c`: scheme `wrongscheme`, no host, path `/a/b/c`. -/
def uriWrongScheme : URI := { Scheme := "wrongscheme", Path := "/a/b/c", Hostname := "" }

/-- `gs://`: no host, no path. -/
def uriBare : URI := { Scheme := "gs", Path := "", Hostname := "" }

/-- `gs://my-bucket-cad`: a host and no path. -/
def uriNoPath : URI := { Scheme := "gs", Path := "", Hostname := "my-bucket-cad" }

/-- `gs:/my-bucket-cad/temporal_archival/visibility`: a path and no host. -/
def uriNoHost : URI :=
  { Scheme := "gs", Path := "/my-bucket-cad/temporal_archival/visibility", Hostname := "" }

/-- `gs://my-bucket-cad/temporal_archival/visibility`: host `my-bucket-cad` and path
`/temporal_archival/visibility`. -/
def uriVisibility : URI :=
  { Scheme := "gs", Path := "/temporal_archival/visibility", Hostname := "my-bucket-cad" }

end gcloud

namespace cassandra

/-! ### Row types of the tasks table, `common/persistence/cassandra/matching_task_store.go` -/

/-- `rowTypeTask`, the first constant of the `iota` block. -/
def rowTypeTask : Int := 0

/-- `rowTypeTaskQueue`, the second constant of the `iota` block. -/
def rowTypeTaskQueue : Int := 1

/-- `rowTypeTaskInSubqueue`: `subqueue<<2 | rowTypeTask` on the 64-bit `int`; the shift is the
product with `2^2` reduced to `int64`. -/
def rowTypeTaskInSubqueue (subqueue : Int) : Int :=
  Int.lor (wrap64 (subqueue * 2 ^ 2)) rowTypeTask

end cassandra

namespace matching

/-! ### A takeover that loses the race -/

/-- The database after a `RenewLease` (at time 7) of the unloaded database against a store that
holds `sampleStored` and rejects the conditional update (another owner took the lease in
between). -/
def lostTakeoverDB : taskQueueDB :=
  match (unloadedDB.RenewLease 7).answer (.ok sampleStored)
      (some (.ConditionFailed "range id mismatch")) with
  | some res => res.1
  | none => unloadedDB

end matching

namespace matching

/-- The id of the last task of a batch that goes to subqueue `sq`, if there is one. -/
def lastIdFor (reqs : List writeTaskRequest) (sq : Nat) : Option Int :=
  ((reqs.filter fun req => decide (req.subqueue = sq)).getLast?).map fun req => req.id

end matching

namespace matching

/-- A batch of two tasks for subqueue 0, with ids 1 and 2. -/
def sampleTasks : List writeTaskRequest :=
  [{ subqueue := 0, id := 1, pass := 0, fairLevel := ⟨0, 0⟩ },
   { subqueue := 0, id := 2, pass := 0, fairLevel := ⟨0, 0⟩ }]

end matching

namespace matching

/-! ### Reloading a queue with one backlogged task -/

/-- The metadata an owner persisted before unloading a queue with one backlogged task: range
id 1, one subqueue of the default priority with ack level 0 and a backlog count of 1. -/
def storedOneTask : GetTaskQueueResponse :=
  { RangeID := 1
    TaskQueueInfo :=
      { AckLevel := 0, ApproximateBacklogCount := 1
        Subqueues := [{ Key := some { Priority := 2 }, AckLevel := 0, FairAckLevel := none,
                        FairMaxReadLevel := none, ApproximateBacklogCount := 1 }] } }

/-- The outcome of `RenewLease` (at time 7) of the unloaded database against a store that holds
`storedOneTask` and accepts the update. -/
def reloaded : Option (taskQueueDB × Except StoreError taskQueueState) :=
  (unloadedDB.RenewLease 7).answer (.ok storedOneTask) none

/-- The database after that reload. -/
def reloadedDB : taskQueueDB :=
  match reloaded with
  | some res => res.1
  | none => unloadedDB

/-- The state that reload returned. -/
def reloadedState : taskQueueState :=
  match reloaded with
  | some (_, .ok st) => st
  | _ => { rangeID := 0, ackLevel := 0, subqueues := [] }

end matching

namespace matching

/-- `taskQueueDB.setKnownFairBacklogCount`; `none` is the index-out-of-range panic. -/
def taskQueueDB.setKnownFairBacklogCount (db : taskQueueDB) (subqueue : Nat) (count : Int)
    (now : Time) : Option taskQueueDB :=
  match db.subqueues[subqueue]? with
  | none => none
  | some s =>
    if s.ApproximateBacklogCount ≠ count then
      let s1 : dbSubqueue := { s with ApproximateBacklogCount := count }
      let s2 : dbSubqueue := if count = 0 then { s1 with oldestTime := 0 } else s1
      some { db with lastChange := now, subqueues := db.subqueues.set subqueue s2 }
    else some db

/-- A batch of one task for subqueue 0, with id 1. -/
def oneTask : List writeTaskRequest :=
  [{ subqueue := 0, id := 1, pass := 0, fairLevel := ⟨0, 1⟩ }]

end matching

namespace gcloud

/-- The batches the loop of `Get` has appended when it arrives at part `p`, started from token
`t`: the decoded batches of the parts `t.CurrentPart`, ..., `p - 1`, without the first
`t.BatchIdxOffset` of them. -/
def readBefore (d : Deps) (c : Client) (t : getHistoryToken) (p : Int) : List History :=
  (decodedParts d c t.CloseFailoverVersion (p - t.CurrentPart).toNat
    t.CurrentPart).drop t.BatchIdxOffset.toNat

/-- The loop of `Get`, started from token `t` with `count` events already counted, arrives at
part `p`: `p` is between the current and the highest part; every part before `p` is fetched
with content and decodes; when there is such a part, the offset of `t` lies inside the first
one; and the batches of the parts before `p` did not reach the page size (there is none, or
their events together with `count` stay below `PageSize`). -/
def arrivesAt (d : Deps) (c : Client) (PageSize : Int) (count : Int) (t : getHistoryToken)
    (p : Int) : Prop :=
  t.CurrentPart ≤ p ∧ p ≤ t.HighestPart ∧
  (∀ q, t.CurrentPart ≤ q → q < p → ∃ blob bs,
    c.Get (constructHistoryFilenameMultipart t.CloseFailoverVersion q) = .ok (some blob) ∧
    d.DecodeHistories blob = .ok bs) ∧
  (t.CurrentPart < p → 0 ≤ t.BatchIdxOffset ∧
    t.BatchIdxOffset ≤ (decodedPart d c t.CloseFailoverVersion t.CurrentPart).length) ∧
  (readBefore d c t p = [] ∨ count + eventCount (readBefore d c t p) < PageSize)

/-- How the read of part `p` of version `v` fails with the service error `e`: the fetch
fails (`Unavailable` with its error), the part has no content (`Internal`), or the content does
not decode (`Internal` with the decoder's error). -/
def partFails (d : Deps) (c : Client) (v p : Int) (e : ServiceError) : Prop :=
  (∃ m, e = .Unavailable m ∧ c.Get (constructHistoryFilenameMultipart v p) = .error m) ∨
  (e = .Internal "Fail retrieving history file" ∧
    c.Get (constructHistoryFilenameMultipart v p) = .ok none) ∨
  (∃ blob m, e = .Internal m ∧
    c.Get (constructHistoryFilenameMultipart v p) = .ok (some blob) ∧
    d.DecodeHistories blob = .error m)

/-- A store that lists parts 0 and 1 of version 1: part 0 decodes to one batch of 6 events, the
fetch of part 1 fails. -/
def stalledClient : Client where
  Query := .ok [.part 1 0, .part 1 1]
  Get := fun name =>
    match name with
    | .part 1 0 => .ok (some [6])
    | _ => .error "timeout"
  ExistRoot := none

end gcloud

namespace matching

/-- The freshly created queue after `updateBacklogStats` with the delta `math.MaxInt64` (at time
8): the backlog count of subqueue 0 is `math.MaxInt64`. -/
def brimDB : taskQueueDB :=
  match freshDB.updateBacklogStats 9223372036854775807 0 8 with
  | some db => db
  | none => freshDB

end matching

/-! ## Theorems

Everything above is the embedding (definitions only); the statements and proofs follow. -/

namespace gcloud

/-! ### Read path: one call of `Get` -/

/-- What the inner loop does: it appends the first `k` batches; either it runs through all of
them, or it stops inside the part with the offset on the next batch, or it stops on the last
batch and moves to the next part. -/
theorem rangeBatches_spec (PageSize : Int) (bs : List History) (st : getState) :
    ∃ k, k ≤ bs.length ∧
      (rangeBatches PageSize bs st).1.HistoryBatches = st.HistoryBatches ++ bs.take k ∧
      (rangeBatches PageSize bs st).1.token.CloseFailoverVersion
        = st.token.CloseFailoverVersion ∧
      (rangeBatches PageSize bs st).1.token.HighestPart = st.token.HighestPart ∧
      (((rangeBatches PageSize bs st).2 = false ∧ k = bs.length ∧
          (rangeBatches PageSize bs st).1.token.CurrentPart = st.token.CurrentPart ∧
          (rangeBatches PageSize bs st).1.token.BatchIdxOffset = st.token.BatchIdxOffset + k) ∨
       ((rangeBatches PageSize bs st).2 = true ∧ 1 ≤ k ∧ k < bs.length ∧
          (rangeBatches PageSize bs st).1.token.CurrentPart = st.token.CurrentPart ∧
          (rangeBatches PageSize bs st).1.token.BatchIdxOffset = st.token.BatchIdxOffset + k) ∨
       ((rangeBatches PageSize bs st).2 = true ∧ 1 ≤ k ∧ k = bs.length ∧
          (rangeBatches PageSize bs st).1.token.CurrentPart = st.token.CurrentPart + 1 ∧
          (rangeBatches PageSize bs st).1.token.BatchIdxOffset = 0)) := by
  induction bs generalizing st with
  | nil => exact ⟨0, by simp [rangeBatches]⟩
  | cons b rest ih =>
    unfold rangeBatches
    simp only []
    split
    · split
      · rename_i hrest
        have hr : rest = [] := by simpa using hrest
        subst hr
        exact ⟨1, by simp⟩
      · rename_i hrest
        have hr : rest ≠ [] := by simpa using hrest
        have hlen : 0 < rest.length := List.length_pos.mpr hr
        exact ⟨1, by simp, by simp, rfl, rfl, Or.inr (Or.inl ⟨rfl, le_refl _, by simpa using hlen,
          rfl, by simp⟩)⟩
    · obtain ⟨k, hk, hb, hv, hh, hcase⟩ := ih
        { HistoryBatches := st.HistoryBatches ++ [b]
          token := { st.token with BatchIdxOffset := st.token.BatchIdxOffset + 1 }
          numOfEvents := st.numOfEvents + b.Events.length }
      refine ⟨k + 1, by simpa using hk, by simpa using hb, by simpa using hv, by simpa using hh, ?_⟩
      rcases hcase with ⟨h1, h2, h3, h4⟩ | ⟨h1, h2, h3, h4, h5⟩ | ⟨h1, h2, h3, h4, h5⟩
      · refine Or.inl ⟨h1, by simp [h2], by simpa using h3, ?_⟩
        rw [h4]; push_cast; ring
      · refine Or.inr (Or.inl ⟨h1, by omega, by simpa using h3, by simpa using h4, ?_⟩)
        rw [h5]; push_cast; ring
      · exact Or.inr (Or.inr ⟨h1, by omega, by simp [h3], by simpa using h4, h5⟩)

end gcloud

namespace gcloud

theorem decodedParts_succ (d : Deps) (c : Client) (v H p : Int) (h : p ≤ H) :
    decodedParts d c v (H + 1 - p).toNat p
      = decodedPart d c v p ++ decodedParts d c v (H + 1 - (p + 1)).toNat (p + 1) := by
  have : (H + 1 - p).toNat = (H + 1 - (p + 1)).toNat + 1 := by omega
  rw [this, decodedParts]

theorem partsWeight_succ (d : Deps) (c : Client) (v H p : Int) (h : p ≤ H) :
    partsWeight d c v (H + 1 - p).toNat p
      = (decodedPart d c v p).length + 1 + partsWeight d c v (H + 1 - (p + 1)).toNat (p + 1) := by
  have : (H + 1 - p).toNat = (H + 1 - (p + 1)).toNat + 1 := by omega
  rw [this, partsWeight]

/-- One call's worth of the outer loop: it ends normally, keeps the token inside the stored
history, delivers a prefix of the remaining batches and moves the token forward. -/
theorem readParts_spec (d : Deps) (c : Client) (PageSize v H lo : Int)
    (hgood : ∀ p, lo ≤ p → p ≤ H → ∃ blob bs,
      c.Get (constructHistoryFilenameMultipart v p) = .ok (some blob) ∧
      d.DecodeHistories blob = .ok bs) :
    ∀ (fuel : Nat) (st : getState), st.token.CloseFailoverVersion = v →
      st.token.HighestPart = H → tokenOK d c lo st.token →
      fuel = (H + 1 - st.token.CurrentPart).toNat →
      ∃ st', readParts d c PageSize fuel st = .ok st' ∧
        st'.token.CloseFailoverVersion = v ∧ st'.token.HighestPart = H ∧
        tokenOK d c lo st'.token ∧
        st'.HistoryBatches ++ remaining d c st'.token
          = st.HistoryBatches ++ remaining d c st.token ∧
        tokenMeasure d c st'.token ≤ tokenMeasure d c st.token ∧
        (st.token.CurrentPart ≤ H → tokenMeasure d c st'.token < tokenMeasure d c st.token) := by
  intro fuel
  induction fuel with
  | zero =>
    intro st hv hH hok hf
    refine ⟨st, rfl, hv, hH, hok, rfl, le_refl _, ?_⟩
    intro hle; omega
  | succ fuel ih =>
    intro st hv hH hok hf
    have hle : st.token.CurrentPart ≤ H := by omega
    obtain ⟨hlo, hoff0, hofflen⟩ := hok
    obtain ⟨blob, bs, hget, hdec⟩ := hgood _ hlo hle
    have hpart : decodedPart d c v st.token.CurrentPart = bs := by
      simp [decodedPart, hget, hdec]
    rw [hv, hH, hpart] at hofflen
    have hofflen := hofflen hle
    obtain ⟨o, ho⟩ := Int.eq_ofNat_of_zero_le hoff0
    have hol : o ≤ bs.length := by rw [ho] at hofflen; exact_mod_cast hofflen
    have hrem : remaining d c st.token
        = bs.drop o ++ decodedParts d c v (H + 1 - (st.token.CurrentPart + 1)).toNat
            (st.token.CurrentPart + 1) := by
      unfold remaining
      rw [hv, hH, decodedParts_succ d c v H _ hle, hpart, ho]
      simp [List.drop_append_of_le_length hol]
    have hmeas : tokenMeasure d c st.token
        = bs.length + 1 + partsWeight d c v (H + 1 - (st.token.CurrentPart + 1)).toNat
            (st.token.CurrentPart + 1) - o := by
      unfold tokenMeasure
      rw [hv, hH, partsWeight_succ d c v H _ hle, hpart, ho]
      simp
    have hs := rangeBatches_spec PageSize (bs.drop o) st
    unfold readParts
    rw [if_pos (by rw [hH]; exact hle), hv, hget]
    simp only [hdec]
    rw [if_neg (by rw [ho]; push_neg; exact ⟨by positivity, by exact_mod_cast hol⟩)]
    have hto : st.token.BatchIdxOffset.toNat = o := by rw [ho]; simp
    rw [hto]
    generalize hr : rangeBatches PageSize (bs.drop o) st = r at hs
    obtain ⟨st1, b⟩ := r
    obtain ⟨k, hk, hb, hv1, hH1, hcase⟩ := hs
    simp only [List.length_drop] at hk hcase
    simp only at hb hv1 hH1 hcase
    rcases hcase with ⟨h1, h2, h3, h4⟩ | ⟨h1, h2, h3, h4, h5⟩ | ⟨h1, h2, h3, h4, h5⟩
    · -- the part was read to its end without reaching the page size
      subst h1
      simp only
      have htake : (bs.drop o).take k = bs.drop o := by
        rw [h2]; exact List.take_of_length_le (by simp)
      obtain ⟨st', hrun, hv', hH', hok', hcat, hm, _⟩ := ih
        { st1 with token := { st1.token with BatchIdxOffset := 0,
                                             CurrentPart := st1.token.CurrentPart + 1 } }
        (by simpa using hv1.trans hv) (by simpa using hH1.trans hH)
        ⟨by simp [h3]; omega, by simp, by simp⟩
        (by simp [h3]; omega)
      refine ⟨st', hrun, hv', hH', hok', ?_, ?_, ?_⟩
      · rw [hcat, hrem, hb, htake]
        simp [remaining, hv1, hH1, hv, hH, h3, List.append_assoc]
      · have : tokenMeasure d c st'.token ≤ partsWeight d c v
            (H + 1 - (st.token.CurrentPart + 1)).toNat (st.token.CurrentPart + 1) := by
          refine le_trans hm ?_
          simp [tokenMeasure, hv1, hH1, hv, hH, h3]
        rw [hmeas]; omega
      · intro _
        have : tokenMeasure d c st'.token ≤ partsWeight d c v
            (H + 1 - (st.token.CurrentPart + 1)).toNat (st.token.CurrentPart + 1) := by
          refine le_trans hm ?_
          simp [tokenMeasure, hv1, hH1, hv, hH, h3]
        rw [hmeas]; omega
    · -- the page size was reached inside the part
      subst h1
      simp only
      have hoff1 : st1.token.BatchIdxOffset.toNat = o + k := by rw [h5, ho]; omega
      have hrem1 : remaining d c st1.token
          = (bs.drop o).drop k ++ decodedParts d c v
              (H + 1 - (st.token.CurrentPart + 1)).toNat (st.token.CurrentPart + 1) := by
        unfold remaining
        rw [hv1, hH1, hv, hH, h4, decodedParts_succ d c v H _ hle, hpart, hoff1,
          List.drop_drop]
        rw [List.drop_append_of_le_length (by omega), Nat.add_comm]
      have hmeas1 : tokenMeasure d c st1.token
          = bs.length + 1 + partsWeight d c v (H + 1 - (st.token.CurrentPart + 1)).toNat
              (st.token.CurrentPart + 1) - (o + k) := by
        unfold tokenMeasure
        rw [hv1, hH1, hv, hH, h4, partsWeight_succ d c v H _ hle, hpart, hoff1]
      refine ⟨st1, rfl, hv1.trans hv, hH1.trans hH, ⟨by rw [h4]; exact hlo, by rw [h5]; omega, ?_⟩,
        ?_, ?_, ?_⟩
      · intro _
        rw [hv1, hv, h4, hpart, h5, ho]
        have : o + k ≤ bs.length := by omega
        exact_mod_cast this
      · rw [hb, hrem, hrem1, List.append_assoc, ← List.append_assoc ((bs.drop o).take k),
          List.take_append_drop]
      · rw [hmeas, hmeas1]; omega
      · intro _; rw [hmeas, hmeas1]; omega
    · -- the page size was reached on the last batch of the part
      subst h1
      simp only
      have htake : (bs.drop o).take k = bs.drop o := by
        rw [h3]; exact List.take_of_length_le (by simp)
      have hrem1 : remaining d c st1.token = decodedParts d c v
          (H + 1 - (st.token.CurrentPart + 1)).toNat (st.token.CurrentPart + 1) := by
        simp [remaining, hv1, hH1, hv, hH, h4, h5]
      have hmeas1 : tokenMeasure d c st1.token = partsWeight d c v
          (H + 1 - (st.token.CurrentPart + 1)).toNat (st.token.CurrentPart + 1) := by
        simp [tokenMeasure, hv1, hH1, hv, hH, h4, h5]
      refine ⟨st1, rfl, hv1.trans hv, hH1.trans hH, ⟨by rw [h4]; omega, by rw [h5], ?_⟩,
        ?_, ?_, ?_⟩
      · intro _; rw [h5]; positivity
      · rw [hb, hrem, hrem1, htake, List.append_assoc]
      · rw [hmeas, hmeas1]; omega
      · intro _; rw [hmeas, hmeas1]; omega

end gcloud

namespace gcloud

theorem remaining_of_lt (d : Deps) (c : Client) (t : getHistoryToken)
    (h : ¬ t.CurrentPart ≤ t.HighestPart) : remaining d c t = [] := by
  have : (t.HighestPart + 1 - t.CurrentPart).toNat = 0 := by omega
  simp [remaining, this, decodedParts]

theorem initialToken_offset (d : Deps) (c : Client) (request : GetHistoryRequest)
    (t : getHistoryToken) (hnone : request.NextPageToken = none)
    (h : initialToken d c request = .ok t) : t.BatchIdxOffset = 0 := by
  unfold initialToken at h
  rw [hnone] at h
  simp only at h
  split at h
  · cases h
  · split at h
    · cases h; rfl
    · cases h
    · cases h

/-- One call of `Get` from a token inside the stored history: it succeeds, delivers a prefix of
the remaining batches, and either ends the history (no token) or returns a token that
deserializes to a position strictly closer to the end. -/
theorem Get_spec (d : Deps) (c : Client) (u : URI) (request : GetHistoryRequest)
    (v H lo : Int) (t : getHistoryToken)
    (huri : ValidateURI c.ExistRoot u = false)
    (hreq : d.ValidateGetRequest request.CloseFailoverVersion request.PageSize = none)
    (hround : ∀ t, ∃ b, d.serializeToken t = .ok b ∧ d.deserializeGetHistoryToken b = .ok t)
    (hgood : ∀ p, lo ≤ p → p ≤ H → ∃ blob bs,
      c.Get (constructHistoryFilenameMultipart v p) = .ok (some blob) ∧
      d.DecodeHistories blob = .ok bs)
    (h0 : initialToken d c request = .ok t)
    (hv : t.CloseFailoverVersion = v) (hH : t.HighestPart = H) (hok : tokenOK d c lo t) :
    ∃ resp t', Get d c u request = .ok resp ∧
      resp.HistoryBatches ++ remaining d c t' = remaining d c t ∧
      t'.CloseFailoverVersion = v ∧ t'.HighestPart = H ∧ tokenOK d c lo t' ∧
      ((¬ t'.CurrentPart ≤ H ∧ resp.NextPageToken = none) ∨
       (∃ b, resp.NextPageToken = some b ∧ d.deserializeGetHistoryToken b = .ok t' ∧
          tokenMeasure d c t' < tokenMeasure d c t)) := by
  obtain ⟨st', hrun, hv', hH', hok', hcat, _, hlt⟩ :=
    readParts_spec d c request.PageSize v H lo hgood (H + 1 - t.CurrentPart).toNat
      { HistoryBatches := [], token := t, numOfEvents := 0 } hv hH hok rfl
  simp only [List.nil_append] at hcat
  unfold Get
  rw [huri, hreq, h0]
  simp only [Bool.false_eq_true, if_false, Option.isSome_none, hH, hrun]
  by_cases hend : st'.token.CurrentPart ≤ st'.token.HighestPart
  · rw [if_pos hend]
    obtain ⟨b, hser, hdes⟩ := hround st'.token
    rw [hser]
    refine ⟨_, st'.token, rfl, hcat, hv', hH', hok', Or.inr ⟨b, rfl, hdes, ?_⟩⟩
    by_cases hcur : t.CurrentPart ≤ H
    · exact hlt hcur
    · exfalso
      have hz : (H + 1 - t.CurrentPart).toNat = 0 := by omega
      rw [hz] at hrun
      simp only [readParts] at hrun
      cases hrun
      rw [hH] at hend
      exact hcur hend
  · rw [if_neg hend]
    exact ⟨_, st'.token, rfl, hcat, hv', hH', hok', Or.inl ⟨by rw [← hH']; exact hend, rfl⟩⟩

/-- Following the continuation tokens from a position inside the stored history reaches a
response without token after finitely many calls, and the responses deliver exactly the
remaining batches. -/
theorem followTokens_spec (d : Deps) (c : Client) (u : URI) (request : GetHistoryRequest)
    (v H lo : Int)
    (huri : ValidateURI c.ExistRoot u = false)
    (hreq : d.ValidateGetRequest request.CloseFailoverVersion request.PageSize = none)
    (hround : ∀ t, ∃ b, d.serializeToken t = .ok b ∧ d.deserializeGetHistoryToken b = .ok t)
    (hgood : ∀ p, lo ≤ p → p ≤ H → ∃ blob bs,
      c.Get (constructHistoryFilenameMultipart v p) = .ok (some blob) ∧
      d.DecodeHistories blob = .ok bs) :
    ∀ (N : Nat) (t : getHistoryToken) (tok : Option Blob), tokenMeasure d c t ≤ N →
      initialToken d c { request with NextPageToken := tok } = .ok t →
      t.CloseFailoverVersion = v → t.HighestPart = H → tokenOK d c lo t →
      ∃ n resps, followTokens d c u request n tok = some resps ∧
        (∃ last, resps.getLast? = some last ∧ last.NextPageToken = none) ∧
        resps.flatMap (fun r => r.HistoryBatches) = remaining d c t := by
  intro N
  induction N with
  | zero =>
    intro t tok hm h0 hv hH hok
    obtain ⟨resp, t', hget, hcat, _, hH', _, hcase⟩ :=
      Get_spec d c u { request with NextPageToken := tok } v H lo t huri hreq hround hgood
        h0 hv hH hok
    rcases hcase with ⟨hend, hnone⟩ | ⟨b, _, _, hlt⟩
    · refine ⟨1, [resp], ?_, ⟨resp, rfl, hnone⟩, ?_⟩
      · simp [followTokens, hget, hnone]
      · rw [remaining_of_lt d c t' (by rw [hH']; exact hend)] at hcat
        simpa using hcat
    · omega
  | succ N ih =>
    intro t tok hm h0 hv hH hok
    obtain ⟨resp, t', hget, hcat, hv', hH', hok', hcase⟩ :=
      Get_spec d c u { request with NextPageToken := tok } v H lo t huri hreq hround hgood
        h0 hv hH hok
    rcases hcase with ⟨hend, hnone⟩ | ⟨b, hsome, hdes, hlt⟩
    · refine ⟨1, [resp], ?_, ⟨resp, rfl, hnone⟩, ?_⟩
      · simp [followTokens, hget, hnone]
      · rw [remaining_of_lt d c t' (by rw [hH']; exact hend)] at hcat
        simpa using hcat
    · obtain ⟨n, resps, hfollow, ⟨last, hlast, hlastnone⟩, hall⟩ :=
        ih t' (some b) (by omega) (by simp [initialToken, hdes]) hv' hH' hok'
      refine ⟨n + 1, resp :: resps, ?_, ⟨last, ?_, hlastnone⟩, ?_⟩
      · simp [followTokens, hget, hsome, hfollow]
      · cases resps with
        | nil => simp at hlast
        | cons r rs => simpa [List.getLast?_cons_cons] using hlast
      · simp only [List.flatMap_cons, hall, hcat]

/-- C1.  Read pagination is complete and without overlap.  Take a store on which the request
and the URI validate, the token helpers round-trip, and every part of the selected version from
the initial token's `CurrentPart` to its `HighestPart` fetches and decodes (the store is the same
value at every call).  Then, for every `PageSize` (in particular every `PageSize >= 1`), calling
`Get` with no token and then with each returned `NextPageToken` ends after finitely many calls
with a response without token, and the `HistoryBatches` of the responses, concatenated, are the
decoded batches of those parts in part order. -/
theorem C1_get_pagination_complete (d : Deps) (c : Client) (u : URI)
    (request : GetHistoryRequest) (t0 : getHistoryToken)
    (hnone : request.NextPageToken = none)
    (huri : ValidateURI c.ExistRoot u = false)
    (hreq : d.ValidateGetRequest request.CloseFailoverVersion request.PageSize = none)
    (hround : ∀ t, ∃ b, d.serializeToken t = .ok b ∧ d.deserializeGetHistoryToken b = .ok t)
    (h0 : initialToken d c request = .ok t0)
    (hparts : ∀ p, t0.CurrentPart ≤ p → p ≤ t0.HighestPart → ∃ blob bs,
      c.Get (constructHistoryFilenameMultipart t0.CloseFailoverVersion p) = .ok (some blob) ∧
      d.DecodeHistories blob = .ok bs) :
    ∃ n resps, followTokens d c u request n none = some resps ∧
      (∃ last, resps.getLast? = some last ∧ last.NextPageToken = none) ∧
      resps.flatMap (fun r => r.HistoryBatches)
        = decodedParts d c t0.CloseFailoverVersion
            (t0.HighestPart + 1 - t0.CurrentPart).toNat t0.CurrentPart := by
  have hoff : t0.BatchIdxOffset = 0 := initialToken_offset d c request t0 hnone h0
  have hreq0 : ({ request with NextPageToken := none } : GetHistoryRequest) = request := by
    cases request; simp_all
  obtain ⟨n, resps, hfollow, hlast, hall⟩ :=
    followTokens_spec d c u request t0.CloseFailoverVersion t0.HighestPart t0.CurrentPart
      huri hreq hround hparts (tokenMeasure d c t0) t0 none (le_refl _)
      (by rw [hreq0]; exact h0) rfl rfl
      ⟨le_refl _, by rw [hoff], by intro _; rw [hoff]; positivity⟩
  refine ⟨n, resps, hfollow, hlast, ?_⟩
  rw [hall]
  simp [remaining, hoff]

end gcloud

namespace gcloud

theorem decodeInt_encodeInt (x : Int) :
    decodeInt (if x < 0 then 1 else 0) x.natAbs = x := by
  unfold decodeInt
  split <;> omega

theorem sampleDeps_roundtrip (t : getHistoryToken) :
    ∃ b, sampleDeps.serializeToken t = .ok b ∧
      sampleDeps.deserializeGetHistoryToken b = .ok t := by
  refine ⟨_, rfl, ?_⟩
  cases t
  simp [sampleDeps, encodeInt, decodeInt_encodeInt]

/-- Witness of C1 on the store with three parts of 6, 6 and 1 events and page size 10. -/
theorem C1_get_pagination_complete_witness :
    ∃ n resps, followTokens sampleDeps sampleClient sampleURI sampleRequest n none = some resps ∧
      (∃ last, resps.getLast? = some last ∧ last.NextPageToken = none) ∧
      resps.flatMap (fun r => r.HistoryBatches)
        = decodedParts sampleDeps sampleClient 1 3 0 :=
  C1_get_pagination_complete sampleDeps sampleClient sampleURI sampleRequest
    { CloseFailoverVersion := 1, HighestPart := 2, CurrentPart := 0, BatchIdxOffset := 0 }
    rfl (by decide) (by decide) sampleDeps_roundtrip rfl
    (by
      intro p h1 h2
      have hp : p = 0 ∨ p = 1 ∨ p = 2 := by
        simp only at h1 h2; omega
      rcases hp with rfl | rfl | rfl <;> exact ⟨_, _, rfl, rfl⟩)

end gcloud

namespace gcloud

/-! ### Write path -/

/-- C7.  Mutation detection.  For a page with at least one batch whose last batch has at least
one event, with `v` and `id` the version and event id of the last event: `historyMutated` returns
`true` exactly when `v > CloseFailoverVersion`, or the page is the last page and
(`v != CloseFailoverVersion` or `id + 1 != NextEventID`). -/
theorem C7_historyMutated_iff (request : ArchiveHistoryRequest) (historyBatches : List History)
    (isLast : Bool) (lastBatch : History) (lastEvent : HistoryEvent)
    (hb : historyBatches.getLast? = some lastBatch)
    (he : lastBatch.Events.getLast? = some lastEvent) :
    ∃ b, historyMutated request historyBatches isLast = some b ∧
      (b = true ↔
        (lastEvent.Version > request.CloseFailoverVersion ∨
          (isLast = true ∧ (lastEvent.Version ≠ request.CloseFailoverVersion ∨
            lastEvent.EventId + 1 ≠ request.NextEventID)))) := by
  unfold historyMutated
  rw [hb]; simp only [he]
  by_cases hv : lastEvent.Version > request.CloseFailoverVersion
  · exact ⟨true, by simp [hv], by simp [hv]⟩
  · cases isLast with
    | false => exact ⟨false, by simp [hv], by simp [hv]⟩
    | true =>
      refine ⟨_, by simp only [hv, if_false, Bool.not_true, Bool.false_eq_true]; rfl, ?_⟩
      simp [hv]

/-- Witness of C7: expected close failover version 5 and next event id 11, last event of version
5 and id 9: not mutated when the page is not the last one, mutated when it is. -/
theorem C7_historyMutated_iff_witness :
    historyMutated sampleArchiveRequest (samplePage false).Body false = some false ∧
    historyMutated sampleArchiveRequest (samplePage true).Body true = some true ∧
    ∃ b, historyMutated sampleArchiveRequest (samplePage true).Body true = some b ∧
      (b = true ↔
        ((HistoryEvent.mk 9 5).Version > sampleArchiveRequest.CloseFailoverVersion ∨
          (true = true ∧ ((HistoryEvent.mk 9 5).Version ≠ sampleArchiveRequest.CloseFailoverVersion ∨
            (HistoryEvent.mk 9 5).EventId + 1 ≠ sampleArchiveRequest.NextEventID)))) :=
  ⟨by decide, by decide,
    C7_historyMutated_iff sampleArchiveRequest (samplePage true).Body true
      { Events := [{ EventId := 8, Version := 5 }, { EventId := 9, Version := 5 }] }
      { EventId := 9, Version := 5 } rfl rfl⟩

end gcloud

namespace gcloud

/-- C8 (what the code does).  When the first page the iterator returns fails the mutation check,
`Archive` returns `archiver.ErrHistoryMutated` itself; as its text is not the text of
`errUploadNonRetryable`, the deferred classification counts it as a transient error, does not
count a non-retryable error, and does not replace it by the error of a configured
`NonRetryableError` translator. -/
theorem C8_mutation_error_counted_transient (d : Deps) (h : historyArchiver) (u : URI)
    (request : ArchiveHistoryRequest) (featureCatalog : ArchiveFeatureCatalog)
    (blob : HistoryBlob) (rest : List (Except IterError HistoryBlob))
    (huri : ValidateURI h.gcloudStorage.ExistRoot u = false)
    (hreq : d.ValidateHistoryArchiveRequest request.CloseFailoverVersion request.NextEventID
      = none)
    (hpages : (archiveStart h featureCatalog).1.source.pages.drop
      (archiveStart h featureCatalog).1.pos = .ok blob :: rest)
    (hmut : historyMutated request blob.Body blob.IsLast = some true)
    (hmsg : d.ErrHistoryMutated ≠ errUploadNonRetryable) :
    (Archive d h u request featureCatalog).err = some d.ErrHistoryMutated ∧
    (Archive d h u request featureCatalog).metrics.transientErrorCount = 1 ∧
    (Archive d h u request featureCatalog).metrics.nonRetryableErrorCount = 0 := by
  have hbody : archiveBody d h u request featureCatalog
      = ({ storage := h.gcloudStorage
           progress := (archiveStart h featureCatalog).2
           pm := featureCatalog.ProgressManager
           calls := []
           metrics := { transientErrorCount := 0, nonRetryableErrorCount := 0, successCount := 0,
                        duplicateArchivalsCount := 0 }
           totalUploadSize := 0 }, .ret (some d.ErrHistoryMutated)) := by
    unfold archiveBody
    simp only [huri, hreq, hpages, archivePages, archivePage, hmut, Bool.false_eq_true, if_false,
      Option.isSome_none]
  unfold Archive
  rw [hbody]
  simp [hmsg]

/-- Witness of C8: the request expects close failover version 5 and next event id 11, the single
page is marked last and ends with the event of version 5 and id 9, and a translator returning
"do not retry" is configured. -/
theorem C8_mutation_error_counted_transient_witness :
    (Archive sampleDeps (sampleArchiver [.ok (samplePage true)]) sampleURI sampleArchiveRequest
        { ProgressManager := none, NonRetryableError := some "do not retry" }).err
      = some "history was mutated" ∧
    (Archive sampleDeps (sampleArchiver [.ok (samplePage true)]) sampleURI sampleArchiveRequest
        { ProgressManager := none, NonRetryableError := some "do not retry" }).metrics.transientErrorCount
      = 1 ∧
    (Archive sampleDeps (sampleArchiver [.ok (samplePage true)]) sampleURI sampleArchiveRequest
        { ProgressManager := none, NonRetryableError := some "do not retry" }).metrics.nonRetryableErrorCount
      = 0 :=
  C8_mutation_error_counted_transient sampleDeps (sampleArchiver [.ok (samplePage true)])
    sampleURI sampleArchiveRequest { ProgressManager := none, NonRetryableError := some "do not retry" }
    (samplePage true) [] (by decide) rfl rfl (by decide) (by decide)

/-- The sibling paths: when the request does not validate, `Archive` returns
`errUploadNonRetryable`, which is counted as non-retryable and replaced by the error of the
translator when one is configured. -/
theorem Archive_invalid_request_nonretryable (d : Deps) (h : historyArchiver) (u : URI)
    (request : ArchiveHistoryRequest) (featureCatalog : ArchiveFeatureCatalog)
    (translated : GoError)
    (huri : ValidateURI h.gcloudStorage.ExistRoot u = false)
    (hreq : (d.ValidateHistoryArchiveRequest request.CloseFailoverVersion
      request.NextEventID).isSome = true)
    (htr : featureCatalog.NonRetryableError = some translated) :
    (Archive d h u request featureCatalog).err = some translated ∧
    (Archive d h u request featureCatalog).metrics.transientErrorCount = 0 ∧
    (Archive d h u request featureCatalog).metrics.nonRetryableErrorCount = 1 := by
  unfold Archive archiveBody
  simp [huri, hreq, htr]

/-- C9 (what the code does).  Two pages that pass the mutation check, an empty destination and
no progress manager: `Archive` returns nil after a single upload.  The part number is read from
the progress cursor, which only `saveHistoryIteratorState` with a progress manager advances; so
both pages are handled under part number 0, the second page finds part 0 in place and is not
uploaded.  With a progress manager the same run uploads both pages, under parts 0 and 1. -/
theorem C9_without_progress_manager_one_upload :
    (Archive sampleDeps (sampleArchiver [.ok (samplePage false), .ok sampleLastPage]) sampleURI
        sampleArchiveRequest { ProgressManager := none, NonRetryableError := none }).err = none ∧
    (Archive sampleDeps (sampleArchiver [.ok (samplePage false), .ok sampleLastPage]) sampleURI
        sampleArchiveRequest { ProgressManager := none, NonRetryableError := none }).panicked
      = false ∧
    (Archive sampleDeps (sampleArchiver [.ok (samplePage false), .ok sampleLastPage]) sampleURI
        sampleArchiveRequest { ProgressManager := none, NonRetryableError := none }).calls
      = [.Exist (.part 5 0), .Upload (.part 5 0) [2], .Exist (.part 5 0)] ∧
    (Archive sampleDeps (sampleArchiver [.ok (samplePage false), .ok sampleLastPage]) sampleURI
        sampleArchiveRequest { ProgressManager := none, NonRetryableError := none }).storage.files
      = [(.part 5 0, [2])] ∧
    (Archive sampleDeps (sampleArchiver [.ok (samplePage false), .ok sampleLastPage]) sampleURI
        sampleArchiveRequest
        { ProgressManager := some freshProgressManager, NonRetryableError := none }).calls
      = [.Exist (.part 5 0), .Upload (.part 5 0) [2], .Exist (.part 5 1),
         .Upload (.part 5 1) [1]] := by
  refine ⟨by decide, by decide, by decide, by decide, by decide⟩

end gcloud

namespace gcloud

/-- The three ways one iteration of the loop of `Archive` can go: it leaves before any storage
call; the upload fails; or the page is handled (found in place or uploaded) and the progress is
saved. -/
theorem archivePage_spec (d : Deps) (source : HistorySource) (request : ArchiveHistoryRequest)
    (next : Except IterError HistoryBlob) (pos : Nat) (st : archiveState) :
    ((archivePage d source request next pos st).1.storage = st.storage ∧
      (archivePage d source request next pos st).1.calls = st.calls ∧
      (archivePage d source request next pos st).1.progress = st.progress ∧
      (archivePage d source request next pos st).1.pm = st.pm ∧
      ∃ e, (archivePage d source request next pos st).2 = some e ∧
        (e = .ret none → ∃ msg, next = .error (.NotFound msg)) ∧ e ≠ .done) ∨
    (∃ blob enc err, next = .ok blob ∧
      d.EncodeHistories blob.Body = .ok enc ∧
      (archivePage d source request next pos st).1.storage = st.storage ∧
      (archivePage d source request next pos st).1.calls = st.calls ++
        [.Exist (constructHistoryFilenameMultipart request.CloseFailoverVersion
            st.progress.CurrentPageNumber),
         .Upload (constructHistoryFilenameMultipart request.CloseFailoverVersion
            st.progress.CurrentPageNumber) enc] ∧
      (archivePage d source request next pos st).1.progress = st.progress ∧
      (archivePage d source request next pos st).1.pm = st.pm ∧
      (archivePage d source request next pos st).2 = some (.ret (some err))) ∨
    (∃ blob enc, next = .ok blob ∧
      historyMutated request blob.Body blob.IsLast = some false ∧
      d.EncodeHistories blob.Body = .ok enc ∧
      ((st.storage.Exist (constructHistoryFilenameMultipart request.CloseFailoverVersion
            st.progress.CurrentPageNumber) = true ∧
          (archivePage d source request next pos st).1.storage = st.storage ∧
          (archivePage d source request next pos st).1.calls = st.calls ++
            [.Exist (constructHistoryFilenameMultipart request.CloseFailoverVersion
              st.progress.CurrentPageNumber)]) ∨
        (st.storage.Exist (constructHistoryFilenameMultipart request.CloseFailoverVersion
            st.progress.CurrentPageNumber) = false ∧
          st.storage.Upload (constructHistoryFilenameMultipart request.CloseFailoverVersion
            st.progress.CurrentPageNumber) enc
            = .ok (archivePage d source request next pos st).1.storage ∧
          (archivePage d source request next pos st).1.calls = st.calls ++
            [.Exist (constructHistoryFilenameMultipart request.CloseFailoverVersion
              st.progress.CurrentPageNumber),
             .Upload (constructHistoryFilenameMultipart request.CloseFailoverVersion
              st.progress.CurrentPageNumber) enc])) ∧
      ∃ e, saveHistoryIteratorState st.pm (source.encodeState (pos + 1))
          st.progress.CurrentPageNumber st.progress
          = (e, (archivePage d source request next pos st).1.progress,
              (archivePage d source request next pos st).1.pm) ∧
        (archivePage d source request next pos st).2 = e.map (fun x => .ret (some x))) := by
  cases next with
  | error e =>
    left
    cases e <;> simp [archivePage]
  | ok blob =>
    cases hmut : historyMutated request blob.Body blob.IsLast with
    | none => left; simp [archivePage, hmut]
    | some b =>
      cases b with
      | true => left; simp [archivePage, hmut]
      | false =>
        cases henc : d.EncodeHistories blob.Body with
        | error e => left; simp [archivePage, hmut, henc]
        | ok enc =>
          cases hex : st.storage.Exist (constructHistoryFilenameMultipart
              request.CloseFailoverVersion st.progress.CurrentPageNumber) with
          | true =>
            right; right
            refine ⟨blob, enc, rfl, hmut, henc, Or.inl ⟨rfl, ?_, ?_⟩, ?_⟩
            · simp only [archivePage, hmut, henc, hex, if_true]
              split <;> rfl
            · simp only [archivePage, hmut, henc, hex, if_true]
              split <;> rfl
            · simp only [archivePage, hmut, henc, hex, if_true]
              split
              · rename_i e p pm hs
                exact ⟨some e, by rw [← hs], rfl⟩
              · rename_i p pm hs
                exact ⟨none, by rw [← hs], rfl⟩
          | false =>
            cases hup : st.storage.Upload (constructHistoryFilenameMultipart
                request.CloseFailoverVersion st.progress.CurrentPageNumber) enc with
            | error err =>
              right; left
              refine ⟨blob, enc, err, rfl, henc, ?_⟩
              simp [archivePage, hmut, henc, hex, hup]
            | ok sto =>
              right; right
              refine ⟨blob, enc, rfl, hmut, henc, Or.inr ⟨rfl, ?_, ?_⟩, ?_⟩
              · simp only [archivePage, hmut, henc, hex, hup, Bool.false_eq_true, if_false]
                split <;> rfl
              · simp only [archivePage, hmut, henc, hex, hup, Bool.false_eq_true, if_false]
                split <;> simp
              · simp only [archivePage, hmut, henc, hex, hup, Bool.false_eq_true, if_false]
                split
                · rename_i e p pm hs
                  exact ⟨some e, by rw [← hs], rfl⟩
                · rename_i p pm hs
                  exact ⟨none, by rw [← hs], rfl⟩

end gcloud

namespace gcloud

theorem uploadsOf_append (a b : List StoreCall) :
    uploadsOf (a ++ b) = uploadsOf a ++ uploadsOf b := by
  induction a with
  | nil => rfl
  | cons c rest ih => cases c <;> simp [uploadsOf, ih]

theorem existsOf_append (a b : List StoreCall) :
    existsOf (a ++ b) = existsOf a ++ existsOf b := by
  induction a with
  | nil => rfl
  | cons c rest ih => cases c <;> simp [existsOf, ih]

/-- A successful upload stores the object and keeps every other object. -/
theorem Upload_spec (s s' : Storage) (f : FileName) (enc : Blob)
    (h : s.Upload f enc = .ok s') :
    s'.Exist f = true ∧ (∀ name, s.Exist name = true → s'.Exist name = true) ∧
      s'.uploadErr = s.uploadErr ∧ s'.ExistRoot = s.ExistRoot := by
  unfold Storage.Upload at h
  split at h
  · cases h
  · cases h
    refine ⟨by simp [Storage.Exist], ?_, rfl, rfl⟩
    intro name hname
    simp only [Storage.Exist, List.any_eq_true, decide_eq_true_eq] at hname ⊢
    obtain ⟨x, hx, hxn⟩ := hname
    by_cases hf : x.1 = f
    · exact ⟨(f, enc), by simp, by rw [← hxn, hf]⟩
    · exact ⟨x, by simp [hx, hf], hxn⟩

/-- One iteration never removes an object, and leaves the handled part in place when the loop
goes on. -/
theorem archivePage_storage (d : Deps) (source : HistorySource) (request : ArchiveHistoryRequest)
    (next : Except IterError HistoryBlob) (pos : Nat) (st : archiveState) :
    (∀ name, st.storage.Exist name = true →
      (archivePage d source request next pos st).1.storage.Exist name = true) ∧
    (archivePage d source request next pos st).1.storage.uploadErr = st.storage.uploadErr ∧
    (archivePage d source request next pos st).1.storage.ExistRoot = st.storage.ExistRoot ∧
    ((archivePage d source request next pos st).2 = none →
      (archivePage d source request next pos st).1.storage.Exist
        (constructHistoryFilenameMultipart request.CloseFailoverVersion
          st.progress.CurrentPageNumber) = true) := by
  rcases archivePage_spec d source request next pos st with
    ⟨hs, _, _, _, e, he, _⟩ | ⟨_, _, _, _, _, hs, _, _, _, he⟩ |
    ⟨_, _, _, _, _, hcase, _⟩
  · rw [hs, he]; simp
  · rw [hs, he]; simp
  · rcases hcase with ⟨hex, hs, _⟩ | ⟨_, hup, _⟩
    · rw [hs]; exact ⟨fun _ h => h, rfl, rfl, fun _ => hex⟩
    · obtain ⟨h1, h2, h3, h4⟩ := Upload_spec _ _ _ _ hup
      exact ⟨h2, h3, h4, fun _ => h1⟩

/-- The loop never removes an object. -/
theorem archivePages_storage (d : Deps) (source : HistorySource) (request : ArchiveHistoryRequest)
    (rest : List (Except IterError HistoryBlob)) :
    ∀ (pos : Nat) (st : archiveState),
      (∀ name, st.storage.Exist name = true →
        (archivePages d source request rest pos st).1.storage.Exist name = true) ∧
      (archivePages d source request rest pos st).1.storage.uploadErr = st.storage.uploadErr ∧
      (archivePages d source request rest pos st).1.storage.ExistRoot = st.storage.ExistRoot := by
  induction rest with
  | nil => intro pos st; simp [archivePages]
  | cons next rest ih =>
    intro pos st
    obtain ⟨h1, h2, h3, _⟩ := archivePage_storage d source request next pos st
    unfold archivePages
    generalize archivePage d source request next pos st = r at h1 h2 h3
    obtain ⟨st1, e⟩ := r
    cases e with
    | some exit => exact ⟨h1, h2, h3⟩
    | none =>
      obtain ⟨g1, g2, g3⟩ := ih (pos + 1) st1
      exact ⟨fun name hn => g1 name (h1 name hn), g2.trans h2, g3.trans h3⟩

/-- Replaying one iteration that went through (or met the not-found signal) on a storage that
already holds the handled part: the same outcome, the same progress, no upload, the storage
untouched. -/
theorem archivePage_replay (d : Deps) (source : HistorySource) (request : ArchiveHistoryRequest)
    (next : Except IterError HistoryBlob) (pos : Nat) (st st2 : archiveState)
    (hexit : (archivePage d source request next pos st).2 = none ∨
      (archivePage d source request next pos st).2 = some (.ret none))
    (hprog : st2.progress = st.progress) (hpm : st2.pm = st.pm)
    (hex : (archivePage d source request next pos st).2 = none →
      st2.storage.Exist (constructHistoryFilenameMultipart request.CloseFailoverVersion
        st.progress.CurrentPageNumber) = true) :
    (archivePage d source request next pos st2).2 = (archivePage d source request next pos st).2 ∧
    (archivePage d source request next pos st2).1.progress
      = (archivePage d source request next pos st).1.progress ∧
    (archivePage d source request next pos st2).1.pm
      = (archivePage d source request next pos st).1.pm ∧
    (archivePage d source request next pos st2).1.storage = st2.storage ∧
    uploadsOf (archivePage d source request next pos st2).1.calls = uploadsOf st2.calls := by
  rcases archivePage_spec d source request next pos st with
    ⟨_, _, _, _, e, he, hnf, _⟩ | ⟨_, _, _, _, _, _, _, _, _, he⟩ |
    ⟨blob, enc, hnext, hmut, henc, _, e, hsave, he⟩
  · rw [he] at hexit
    rcases hexit with h | h
    · cases h
    · obtain ⟨msg, hmsg⟩ := hnf (by simpa using h)
      subst hmsg
      simp [archivePage, hprog, hpm]
  · rw [he] at hexit
    rcases hexit with h | h <;> simp at h
  · have hnone : e = none := by
      rw [he] at hexit
      cases e with
      | none => rfl
      | some x => rcases hexit with h | h <;> simp at h
    subst hnone
    have hex2 := hex (by rw [he]; rfl)
    subst hnext
    rw [← hprog, ← hpm] at hsave
    rw [← hprog] at hex2
    rw [he]
    generalize (archivePage d source request (.ok blob) pos st).1.progress = P at hsave ⊢
    generalize (archivePage d source request (.ok blob) pos st).1.pm = M at hsave ⊢
    have hrun : archivePage d source request (.ok blob) pos st2
        = ({ st2 with calls := st2.calls ++
              [.Exist (constructHistoryFilenameMultipart request.CloseFailoverVersion
                st2.progress.CurrentPageNumber)]
                      progress := P
                      pm := M }, none) := by
      simp only [archivePage, hmut, henc, hex2, if_true]
      rw [hsave]
    rw [hrun]
    simp [uploadsOf_append, uploadsOf]

/-- Replaying a loop that returned nil on a storage that holds every object the first run left:
the same outcome, no upload, the storage untouched. -/
theorem archivePages_replay (d : Deps) (source : HistorySource) (request : ArchiveHistoryRequest)
    (rest : List (Except IterError HistoryBlob)) :
    ∀ (pos : Nat) (st st2 : archiveState),
      ((archivePages d source request rest pos st).2 = .done ∨
        (archivePages d source request rest pos st).2 = .ret none) →
      st2.progress = st.progress → st2.pm = st.pm →
      (∀ name, (archivePages d source request rest pos st).1.storage.Exist name = true →
        st2.storage.Exist name = true) →
      (archivePages d source request rest pos st2).2
        = (archivePages d source request rest pos st).2 ∧
      (archivePages d source request rest pos st2).1.storage = st2.storage ∧
      uploadsOf (archivePages d source request rest pos st2).1.calls = uploadsOf st2.calls := by
  induction rest with
  | nil => intro pos st st2 _ _ _ _; simp [archivePages]
  | cons next rest ih =>
    intro pos st st2 hexit hprog hpm hsub
    have hstep := archivePage_storage d source request next pos st
    have hrep := archivePage_replay d source request next pos st st2
    have hspec := archivePage_spec d source request next pos st
    unfold archivePages at hexit hsub ⊢
    generalize hr : archivePage d source request next pos st = r at hexit hsub hstep hrep hspec
    obtain ⟨st1, e⟩ := r
    cases e with
    | some exit =>
      simp only at hexit hsub
      have hdone : exit ≠ .done := by
        rcases hspec with ⟨_, _, _, _, e, he, _, hd⟩ | ⟨_, _, _, _, _, _, _, _, _, he⟩ |
          ⟨_, _, _, _, _, _, e, _, he⟩
        · simp only [Option.some.injEq] at he; rw [he]; exact hd
        · simp only [Option.some.injEq] at he; rw [he]; simp
        · cases e with
          | none => simp at he
          | some x => simp only [Option.map_some', Option.some.injEq] at he; rw [he]; simp
      have hexit' : exit = .ret none := by
        rcases hexit with h | h
        · exact absurd h hdone
        · exact h
      obtain ⟨g1, _, _, g4, g5⟩ := hrep (Or.inr (by simp [hexit'])) hprog hpm (by simp)
      generalize archivePage d source request next pos st2 = r2 at g1 g4 g5
      obtain ⟨st3, e2⟩ := r2
      simp only at g1 g4 g5
      subst g1
      exact ⟨rfl, g4, g5⟩
    | none =>
      simp only at hexit hsub
      obtain ⟨_, _, _, hin⟩ := hstep
      have hin := hin rfl
      have hmono := (archivePages_storage d source request rest (pos + 1) st1).1
      obtain ⟨g1, g2, g3, g4, g5⟩ := hrep (Or.inl rfl) hprog hpm
        (fun _ => hsub _ (hmono _ hin))
      generalize archivePage d source request next pos st2 = r2 at g1 g2 g3 g4 g5
      obtain ⟨st3, e2⟩ := r2
      simp only at g1 g2 g3 g4 g5
      subst g1
      simp only
      obtain ⟨k1, k2, k3⟩ := ih (pos + 1) st1 st3 hexit g2 g3
        (fun name hn => by rw [g4]; exact hsub name hn)
      exact ⟨k1, k2.trans g4, k3.trans g5⟩

end gcloud

namespace gcloud

/-- The state `Archive` enters its loop with. -/
theorem archiveBody_of_valid (d : Deps) (h : historyArchiver) (u : URI)
    (request : ArchiveHistoryRequest) (featureCatalog : ArchiveFeatureCatalog)
    (huri : ValidateURI h.gcloudStorage.ExistRoot u = false)
    (hreq : (d.ValidateHistoryArchiveRequest request.CloseFailoverVersion
      request.NextEventID).isSome = false) :
    archiveBody d h u request featureCatalog
      = match archivePages d (archiveStart h featureCatalog).1.source request
          ((archiveStart h featureCatalog).1.source.pages.drop (archiveStart h featureCatalog).1.pos)
          (archiveStart h featureCatalog).1.pos
          { storage := h.gcloudStorage
            progress := (archiveStart h featureCatalog).2
            pm := featureCatalog.ProgressManager
            calls := []
            metrics := { transientErrorCount := 0, nonRetryableErrorCount := 0,
                         successCount := 0, duplicateArchivalsCount := 0 }
            totalUploadSize := 0 } with
        | (st, .done) =>
          ({ st with metrics := { st.metrics with successCount := st.metrics.successCount + 1 } },
            .ret none)
        | r => r := by
  unfold archiveBody
  simp only [huri, hreq, Bool.false_eq_true, if_false]

/-- A run of `Archive` that returns nil passed both validations and left its loop either at the
end of the pages or on the not-found signal. -/
theorem Archive_nil_inv (d : Deps) (h : historyArchiver) (u : URI)
    (request : ArchiveHistoryRequest) (featureCatalog : ArchiveFeatureCatalog)
    (herr : (Archive d h u request featureCatalog).err = none)
    (hpanic : (Archive d h u request featureCatalog).panicked = false) :
    ValidateURI h.gcloudStorage.ExistRoot u = false ∧
    (d.ValidateHistoryArchiveRequest request.CloseFailoverVersion
      request.NextEventID).isSome = false ∧
    ∃ st exit, archivePages d (archiveStart h featureCatalog).1.source request
          ((archiveStart h featureCatalog).1.source.pages.drop (archiveStart h featureCatalog).1.pos)
          (archiveStart h featureCatalog).1.pos
          { storage := h.gcloudStorage
            progress := (archiveStart h featureCatalog).2
            pm := featureCatalog.ProgressManager
            calls := []
            metrics := { transientErrorCount := 0, nonRetryableErrorCount := 0,
                         successCount := 0, duplicateArchivalsCount := 0 }
            totalUploadSize := 0 } = (st, exit) ∧
      (exit = .done ∨ exit = .ret none) ∧
      (Archive d h u request featureCatalog).storage = st.storage ∧
      (Archive d h u request featureCatalog).calls = st.calls := by
  by_cases huri : ValidateURI h.gcloudStorage.ExistRoot u = false
  swap
  · exfalso
    have huri' : ValidateURI h.gcloudStorage.ExistRoot u = true := by simpa using huri
    unfold Archive archiveBody at herr
    simp only [huri', if_true] at herr
    cases hn : featureCatalog.NonRetryableError <;> simp [hn] at herr
  by_cases hreq : (d.ValidateHistoryArchiveRequest request.CloseFailoverVersion
      request.NextEventID).isSome = false
  swap
  · exfalso
    have hreq' : (d.ValidateHistoryArchiveRequest request.CloseFailoverVersion
      request.NextEventID).isSome = true := by
      cases hq : (d.ValidateHistoryArchiveRequest request.CloseFailoverVersion
        request.NextEventID).isSome
      · exact absurd hq hreq
      · rfl
    unfold Archive archiveBody at herr
    simp only [huri, hreq', Bool.false_eq_true, if_false, if_true] at herr
    cases hn : featureCatalog.NonRetryableError <;> simp [hn] at herr
  refine ⟨huri, hreq, ?_⟩
  unfold Archive at herr hpanic ⊢
  rw [archiveBody_of_valid d h u request featureCatalog huri hreq] at herr hpanic ⊢
  generalize archivePages d (archiveStart h featureCatalog).1.source request
          ((archiveStart h featureCatalog).1.source.pages.drop (archiveStart h featureCatalog).1.pos)
          (archiveStart h featureCatalog).1.pos
          { storage := h.gcloudStorage
            progress := (archiveStart h featureCatalog).2
            pm := featureCatalog.ProgressManager
            calls := []
            metrics := { transientErrorCount := 0, nonRetryableErrorCount := 0,
                         successCount := 0, duplicateArchivalsCount := 0 }
            totalUploadSize := 0 } = r at herr hpanic ⊢
  obtain ⟨st, exit⟩ := r
  refine ⟨st, exit, rfl, ?_⟩
  cases exit with
  | done => exact ⟨Or.inl rfl, rfl, rfl⟩
  | panic => simp at hpanic
  | ret e =>
    cases e with
    | none => exact ⟨Or.inr rfl, rfl, rfl⟩
    | some err =>
      exfalso
      simp only at herr
      split at herr
      · simp at herr
      · cases hn : featureCatalog.NonRetryableError <;> simp [hn] at herr

/-- C5.  `Archive` is idempotent on the destination.  For every request, source, destination and
options: if a run of `Archive` returns nil, then a second run of the same call (the same request,
source pages, starting iterator and options, in particular a fresh iterator and a progress manager
without progress on record) against the storage the first run left makes no `Upload` call, leaves
the storage as it is, and returns nil. -/
theorem C5_archive_idempotent (d : Deps) (h : historyArchiver) (u : URI)
    (request : ArchiveHistoryRequest) (featureCatalog : ArchiveFeatureCatalog)
    (herr : (Archive d h u request featureCatalog).err = none)
    (hpanic : (Archive d h u request featureCatalog).panicked = false) :
    uploadsOf (Archive d { h with gcloudStorage := (Archive d h u request featureCatalog).storage }
      u request featureCatalog).calls = [] ∧
    (Archive d { h with gcloudStorage := (Archive d h u request featureCatalog).storage }
      u request featureCatalog).storage = (Archive d h u request featureCatalog).storage ∧
    (Archive d { h with gcloudStorage := (Archive d h u request featureCatalog).storage }
      u request featureCatalog).err = none ∧
    (Archive d { h with gcloudStorage := (Archive d h u request featureCatalog).storage }
      u request featureCatalog).panicked = false := by
  obtain ⟨huri, hreq, st, exit, hrun, hexit, hsto, _⟩ :=
    Archive_nil_inv d h u request featureCatalog herr hpanic
  rw [hsto]
  have hroot : st.storage.ExistRoot = h.gcloudStorage.ExistRoot := by
    have := (archivePages_storage d (archiveStart h featureCatalog).1.source request
      ((archiveStart h featureCatalog).1.source.pages.drop (archiveStart h featureCatalog).1.pos)
      (archiveStart h featureCatalog).1.pos
      { storage := h.gcloudStorage
        progress := (archiveStart h featureCatalog).2
        pm := featureCatalog.ProgressManager
        calls := []
        metrics := { transientErrorCount := 0, nonRetryableErrorCount := 0,
                     successCount := 0, duplicateArchivalsCount := 0 }
        totalUploadSize := 0 }).2.2
    rw [hrun] at this
    exact this
  have hstart : archiveStart { h with gcloudStorage := st.storage } featureCatalog
      = archiveStart h featureCatalog := rfl
  have hrep := archivePages_replay d (archiveStart h featureCatalog).1.source request
      ((archiveStart h featureCatalog).1.source.pages.drop (archiveStart h featureCatalog).1.pos)
      (archiveStart h featureCatalog).1.pos
      { storage := h.gcloudStorage
        progress := (archiveStart h featureCatalog).2
        pm := featureCatalog.ProgressManager
        calls := []
        metrics := { transientErrorCount := 0, nonRetryableErrorCount := 0,
                     successCount := 0, duplicateArchivalsCount := 0 }
        totalUploadSize := 0 }
      { storage := st.storage
        progress := (archiveStart h featureCatalog).2
        pm := featureCatalog.ProgressManager
        calls := []
        metrics := { transientErrorCount := 0, nonRetryableErrorCount := 0,
                     successCount := 0, duplicateArchivalsCount := 0 }
        totalUploadSize := 0 }
      (by rw [hrun]; exact hexit) rfl rfl (by rw [hrun]; exact fun _ hn => hn)
  rw [hrun] at hrep
  obtain ⟨k1, k2, k3⟩ := hrep
  simp only at k1 k2 k3
  unfold Archive
  rw [archiveBody_of_valid d _ u request featureCatalog (by simpa [hroot] using huri) hreq, hstart]
  simp only
  generalize archivePages d (archiveStart h featureCatalog).1.source request
      ((archiveStart h featureCatalog).1.source.pages.drop (archiveStart h featureCatalog).1.pos)
      (archiveStart h featureCatalog).1.pos
      { storage := st.storage
        progress := (archiveStart h featureCatalog).2
        pm := featureCatalog.ProgressManager
        calls := []
        metrics := { transientErrorCount := 0, nonRetryableErrorCount := 0,
                     successCount := 0, duplicateArchivalsCount := 0 }
        totalUploadSize := 0 } = r2 at k1 k2 k3
  obtain ⟨st2, exit2⟩ := r2
  simp only at k1 k2 k3
  subst k1
  rcases hexit with he | he <;> subst he <;> simp [k2, k3, uploadsOf]

end gcloud

namespace gcloud

/-- Witness of C5: two pages, a fresh progress manager, an empty destination. -/
theorem C5_archive_idempotent_witness :
    (Archive sampleDeps (sampleArchiver [.ok (samplePage false), .ok sampleLastPage]) sampleURI
      sampleArchiveRequest
      { ProgressManager := some freshProgressManager, NonRetryableError := none }).err = none ∧
    uploadsOf (Archive sampleDeps
      { sampleArchiver [.ok (samplePage false), .ok sampleLastPage] with
        gcloudStorage := (Archive sampleDeps
          (sampleArchiver [.ok (samplePage false), .ok sampleLastPage]) sampleURI
          sampleArchiveRequest
          { ProgressManager := some freshProgressManager, NonRetryableError := none }).storage }
      sampleURI sampleArchiveRequest
      { ProgressManager := some freshProgressManager, NonRetryableError := none }).calls = [] :=
  ⟨by decide,
    (C5_archive_idempotent sampleDeps
      (sampleArchiver [.ok (samplePage false), .ok sampleLastPage]) sampleURI
      sampleArchiveRequest
      { ProgressManager := some freshProgressManager, NonRetryableError := none }
      (by decide) (by decide)).1⟩

/-- With a progress manager, a save that reports no error has recorded the next part number
and the iterator state. -/
theorem saveHistoryIteratorState_some (m : ProgressManager) (state : Except GoError Blob)
    (K : Int) (p p' : progress) (pm' : Option ProgressManager)
    (h : saveHistoryIteratorState (some m) state K p = (none, p', pm')) :
    ∃ s, state = .ok s ∧ p' = { CurrentPageNumber := K + 1, IteratorState := some s } ∧
      ∃ m', pm' = some m' ∧ m'.saved = some p' := by
  unfold saveHistoryIteratorState at h
  cases state with
  | error e => simp at h
  | ok s =>
    simp only at h
    split at h
    · simp at h
    · simp only [Prod.mk.injEq, true_and] at h
      obtain ⟨h1, h2⟩ := h
      exact ⟨s, rfl, h1.symm, _, h2.symm, by rw [h1]⟩

/-- With a progress manager, the loop hands out consecutive part numbers: from a cursor at
part `K` it checks parts `K, K+1, ...` for existence, one per page, and every upload stores the
encoding of the page with the same index under the part of that index. -/
theorem archivePages_resumed (d : Deps) (source : HistorySource)
    (request : ArchiveHistoryRequest) (rest : List (Except IterError HistoryBlob)) :
    ∀ (pos : Nat) (st : archiveState), st.pm.isSome = true →
      ∃ cnt, cnt ≤ rest.length ∧
        existsOf (archivePages d source request rest pos st).1.calls
          = existsOf st.calls ++ (List.range cnt).map (fun (i : Nat) =>
              FileName.part request.CloseFailoverVersion
                (st.progress.CurrentPageNumber + (i : Int))) ∧
        ∀ name data, (name, data) ∈ uploadsOf (archivePages d source request rest pos st).1.calls →
          (name, data) ∈ uploadsOf st.calls ∨
          ∃ i : Nat, i < cnt ∧ name = FileName.part request.CloseFailoverVersion
              (st.progress.CurrentPageNumber + (i : Int)) ∧
            ∃ blob, rest[i]? = some (.ok blob) ∧ d.EncodeHistories blob.Body = .ok data := by
  induction rest with
  | nil =>
    intro pos st _
    exact ⟨0, le_refl _, by simp [archivePages], fun name data hm => Or.inl hm⟩
  | cons next rest ih =>
    intro pos st hpm
    obtain ⟨m, hm⟩ := Option.isSome_iff_exists.mp hpm
    have hspec := archivePage_spec d source request next pos st
    unfold archivePages
    generalize archivePage d source request next pos st = r at hspec
    obtain ⟨st1, e⟩ := r
    simp only at hspec
    rcases hspec with ⟨_, hc, _, _, x, hx, _, _⟩ | ⟨blob, enc, _, hnext, henc, _, hc, _, _, hx⟩ |
      ⟨blob, enc, hnext, _, henc, hcase, x, hsave, hx⟩
    · subst hx
      exact ⟨0, Nat.zero_le _, by simp [hc], fun name data hmem => Or.inl (by rw [← hc]; exact hmem)⟩
    · subst hx
      subst hnext
      refine ⟨1, by simp, ?_, ?_⟩
      · have hr1 : List.range 1 = [0] := rfl
        simp [hc, existsOf_append, existsOf, constructHistoryFilenameMultipart, hr1]
      · intro name data hmem
        simp only [hc, uploadsOf_append, uploadsOf, List.mem_append, List.mem_singleton,
          Prod.mk.injEq] at hmem
        rcases hmem with hmem | ⟨h1, h2⟩
        · exact Or.inl hmem
        · exact Or.inr ⟨0, by simp, by simp [h1, constructHistoryFilenameMultipart],
            blob, by simp, by rw [h2]; exact henc⟩
    · subst hnext
      have hcalls : existsOf st1.calls = existsOf st.calls ++
          [FileName.part request.CloseFailoverVersion st.progress.CurrentPageNumber] ∧
          ∀ name data, (name, data) ∈ uploadsOf st1.calls → (name, data) ∈ uploadsOf st.calls ∨
            (name = FileName.part request.CloseFailoverVersion st.progress.CurrentPageNumber ∧
              data = enc) := by
        rcases hcase with ⟨_, _, hc⟩ | ⟨_, _, hc⟩
        · rw [hc]
          refine ⟨by simp [existsOf_append, existsOf, constructHistoryFilenameMultipart], ?_⟩
          intro name data hmem
          simp only [uploadsOf_append, uploadsOf, List.append_nil] at hmem
          exact Or.inl hmem
        · rw [hc]
          refine ⟨by simp [existsOf_append, existsOf, constructHistoryFilenameMultipart], ?_⟩
          intro name data hmem
          simp only [uploadsOf_append, uploadsOf, List.mem_append, List.mem_singleton,
            Prod.mk.injEq] at hmem
          rcases hmem with hmem | ⟨h1, h2⟩
          · exact Or.inl hmem
          · exact Or.inr ⟨by simp [h1, constructHistoryFilenameMultipart], h2⟩
      obtain ⟨hex1, hup1⟩ := hcalls
      have hfirst : ∀ name data, (name, data) ∈ uploadsOf st1.calls →
          (name, data) ∈ uploadsOf st.calls ∨
          ∃ i : Nat, i < 1 ∧ name = FileName.part request.CloseFailoverVersion
              (st.progress.CurrentPageNumber + (i : Int)) ∧
            ∃ b, (Except.ok blob :: rest)[i]? = some (.ok b) ∧
              d.EncodeHistories b.Body = .ok data := by
        intro name data hmem
        rcases hup1 name data hmem with h1 | ⟨h1, h2⟩
        · exact Or.inl h1
        · exact Or.inr ⟨0, by simp, by simp [h1], blob, by simp, by rw [h2]; exact henc⟩
      cases x with
      | some err =>
        simp only [Option.map_some'] at hx
        subst hx
        have hr1 : List.range 1 = [0] := rfl
        refine ⟨1, by simp, by simp [hex1, hr1], ?_⟩
        intro name data hmem
        exact hfirst name data hmem
      | none =>
        simp only [Option.map_none'] at hx
        subst hx
        simp only
        rw [hm] at hsave
        obtain ⟨s, _, hp, m', hm', _⟩ := saveHistoryIteratorState_some _ _ _ _ _ _ hsave
        obtain ⟨cnt, hcnt, hex, hup⟩ := ih (pos + 1) st1 (by rw [hm']; rfl)
        have hK : st1.progress.CurrentPageNumber = st.progress.CurrentPageNumber + 1 := by
          rw [hp]
        refine ⟨cnt + 1, by simpa using hcnt, ?_, ?_⟩
        · rw [hex, hex1, hK, List.range_succ_eq_map, List.append_assoc]
          simp only [List.map_cons, List.map_map, List.singleton_append, Nat.cast_zero, add_zero]
          congr 2
          apply List.map_congr_left
          intro i _
          simp only [Function.comp_apply, Nat.cast_succ]
          congr 1
          ring
        · intro name data hmem
          rcases hup name data hmem with h1 | ⟨i, hi, hname, b, hb, hbenc⟩
          · rcases hfirst name data h1 with h2 | ⟨i, hi, hname, b, hb, hbenc⟩
            · exact Or.inl h2
            · exact Or.inr ⟨i, by omega, hname, b, hb, hbenc⟩
          · refine Or.inr ⟨i + 1, by omega, ?_, b, by simpa using hb, hbenc⟩
            rw [hname, hK]
            congr 1
            push_cast
            ring

end gcloud

namespace gcloud

/-- The storage calls of `Archive` are those of its loop (none when a validation fails). -/
theorem Archive_calls (d : Deps) (h : historyArchiver) (u : URI)
    (request : ArchiveHistoryRequest) (featureCatalog : ArchiveFeatureCatalog) :
    (Archive d h u request featureCatalog).calls = [] ∨
    (Archive d h u request featureCatalog).calls
      = (archivePages d (archiveStart h featureCatalog).1.source request
          ((archiveStart h featureCatalog).1.source.pages.drop (archiveStart h featureCatalog).1.pos)
          (archiveStart h featureCatalog).1.pos
          { storage := h.gcloudStorage
            progress := (archiveStart h featureCatalog).2
            pm := featureCatalog.ProgressManager
            calls := []
            metrics := { transientErrorCount := 0, nonRetryableErrorCount := 0,
                         successCount := 0, duplicateArchivalsCount := 0 }
            totalUploadSize := 0 }).1.calls := by
  by_cases huri : ValidateURI h.gcloudStorage.ExistRoot u = false
  swap
  · left
    have huri' : ValidateURI h.gcloudStorage.ExistRoot u = true := by simpa using huri
    unfold Archive archiveBody
    simp [huri']
  by_cases hreq : (d.ValidateHistoryArchiveRequest request.CloseFailoverVersion
      request.NextEventID).isSome = false
  swap
  · left
    have hreq' : (d.ValidateHistoryArchiveRequest request.CloseFailoverVersion
      request.NextEventID).isSome = true := by
      cases hq : (d.ValidateHistoryArchiveRequest request.CloseFailoverVersion
        request.NextEventID).isSome
      · exact absurd hq hreq
      · rfl
    unfold Archive archiveBody
    simp [huri, hreq']
  right
  unfold Archive
  rw [archiveBody_of_valid d h u request featureCatalog huri hreq]
  generalize archivePages d (archiveStart h featureCatalog).1.source request
          ((archiveStart h featureCatalog).1.source.pages.drop (archiveStart h featureCatalog).1.pos)
          (archiveStart h featureCatalog).1.pos
          { storage := h.gcloudStorage
            progress := (archiveStart h featureCatalog).2
            pm := featureCatalog.ProgressManager
            calls := []
            metrics := { transientErrorCount := 0, nonRetryableErrorCount := 0,
                         successCount := 0, duplicateArchivalsCount := 0 }
            totalUploadSize := 0 } = r
  obtain ⟨st, exit⟩ := r
  cases exit with
  | done => rfl
  | panic => rfl
  | ret e =>
    cases e with
    | none => rfl
    | some err =>
      simp only
      split <;> rfl

/-- C6.  `Archive` is resumable.  (1) With a progress manager configured, every iteration of the
loop that runs to its end on the page stored under part number `K` leaves the recorded progress
`{CurrentPageNumber = K+1, IteratorState = the state of the iterator}`.  (2) A later run (no
iterator set by test code) whose progress manager holds the progress `{K+1, state}` and loads it
starts from the iterator rebuilt from `state` (at the page index `n` the state decodes to) with
the cursor at `K+1`; (3) it checks the parts `K+1, K+2, ...` for existence, one per page it
handles, and every upload it makes stores the encoding of source page `n+i` under part `K+1+i`:
no part numbered `<= K` is uploaded or checked. -/
theorem C6_archive_resumable (d : Deps) (h : historyArchiver) (u : URI)
    (request : ArchiveHistoryRequest) (featureCatalog : ArchiveFeatureCatalog)
    (m : ProgressManager) (K : Int) (state : Blob) (n : Nat)
    (hit : h.historyIterator = none)
    (hpm : featureCatalog.ProgressManager = some m)
    (hsaved : m.saved = some { CurrentPageNumber := K + 1, IteratorState := some state })
    (hload : m.loadErr = none)
    (hdec : h.executionManager.decodeState state = .ok n) :
    (∀ (source : HistorySource) (next : Except IterError HistoryBlob) (pos : Nat)
        (st : archiveState), st.pm.isSome = true → st.progress.CurrentPageNumber = K →
        (archivePage d source request next pos st).2 = none →
        ∃ s, source.encodeState (pos + 1) = .ok s ∧
          (archivePage d source request next pos st).1.progress
            = { CurrentPageNumber := K + 1, IteratorState := some s } ∧
          ∃ m', (archivePage d source request next pos st).1.pm = some m' ∧
            m'.saved = some { CurrentPageNumber := K + 1, IteratorState := some s }) ∧
    archiveStart h featureCatalog
      = ({ source := h.executionManager, pos := n },
         { CurrentPageNumber := K + 1, IteratorState := some state }) ∧
    ∃ cnt, existsOf (Archive d h u request featureCatalog).calls
        = (List.range cnt).map (fun (i : Nat) =>
            FileName.part request.CloseFailoverVersion (K + 1 + (i : Int))) ∧
      ∀ name data, (name, data) ∈ uploadsOf (Archive d h u request featureCatalog).calls →
        ∃ i : Nat, i < cnt ∧ name = FileName.part request.CloseFailoverVersion (K + 1 + (i : Int)) ∧
          ∃ blob, h.executionManager.pages[n + i]? = some (.ok blob) ∧
            d.EncodeHistories blob.Body = .ok data := by
  have hstart : archiveStart h featureCatalog
      = ({ source := h.executionManager, pos := n },
         { CurrentPageNumber := K + 1, IteratorState := some state }) := by
    simp [archiveStart, hit, loadHistoryIterator, hpm, hsaved, hload,
      NewHistoryIteratorFromState, hdec]
  refine ⟨?_, hstart, ?_⟩
  · intro source next pos st hsome hK hcont
    obtain ⟨m0, hm0⟩ := Option.isSome_iff_exists.mp hsome
    rcases archivePage_spec d source request next pos st with
      ⟨_, _, _, _, e, he, _⟩ | ⟨_, _, _, _, _, _, _, _, _, he⟩ | ⟨_, _, _, _, _, _, e, hsave, he⟩
    · rw [he] at hcont; cases hcont
    · rw [he] at hcont; cases hcont
    · cases e with
      | some x => rw [he] at hcont; simp at hcont
      | none =>
        rw [hm0, hK] at hsave
        obtain ⟨s, hs, hp, m', hm', hsv⟩ := saveHistoryIteratorState_some _ _ _ _ _ _ hsave
        exact ⟨s, hs, hp, m', hm', by rw [hsv, hp]⟩
  · rcases Archive_calls d h u request featureCatalog with hc | hc
    · exact ⟨0, by simp [hc, existsOf], by simp [hc, uploadsOf]⟩
    · rw [hc, hstart]
      simp only
      obtain ⟨cnt, _, hex, hup⟩ := archivePages_resumed d h.executionManager request
        (h.executionManager.pages.drop n) n
        { storage := h.gcloudStorage
          progress := { CurrentPageNumber := K + 1, IteratorState := some state }
          pm := featureCatalog.ProgressManager
          calls := []
          metrics := { transientErrorCount := 0, nonRetryableErrorCount := 0,
                       successCount := 0, duplicateArchivalsCount := 0 }
          totalUploadSize := 0 } (by simp [hpm])
      refine ⟨cnt, by simpa [existsOf] using hex, ?_⟩
      intro name data hmem
      rcases hup name data hmem with h1 | ⟨i, hi, hname, blob, hb, henc⟩
      · simp [uploadsOf] at h1
      · exact ⟨i, hi, hname, blob, by simpa [List.getElem?_drop] using hb, henc⟩

/-- Witness of C6: three pages; the progress on record was saved after the page stored under
part 0; the resumed run handles the two later pages under parts 1 and 2. -/
theorem C6_archive_resumable_witness :
    (Archive sampleDeps
        (sampleArchiver [.ok (samplePage false), .ok (samplePage false), .ok sampleLastPage])
        sampleURI sampleArchiveRequest
        { ProgressManager := some { freshProgressManager with
            saved := some { CurrentPageNumber := 0 + 1, IteratorState := some [1] } },
          NonRetryableError := none }).calls
      = [.Exist (.part 5 1), .Upload (.part 5 1) [2], .Exist (.part 5 2),
         .Upload (.part 5 2) [1]] ∧
    archiveStart
        (sampleArchiver [.ok (samplePage false), .ok (samplePage false), .ok sampleLastPage])
        { ProgressManager := some { freshProgressManager with
            saved := some { CurrentPageNumber := 0 + 1, IteratorState := some [1] } },
          NonRetryableError := none }
      = ({ source := sampleSource
            [.ok (samplePage false), .ok (samplePage false), .ok sampleLastPage], pos := 1 },
         { CurrentPageNumber := 0 + 1, IteratorState := some [1] }) :=
  ⟨by decide,
    (C6_archive_resumable sampleDeps
      (sampleArchiver [.ok (samplePage false), .ok (samplePage false), .ok sampleLastPage])
      sampleURI sampleArchiveRequest
      { ProgressManager := some { freshProgressManager with
          saved := some { CurrentPageNumber := 0 + 1, IteratorState := some [1] } },
        NonRetryableError := none }
      { freshProgressManager with
          saved := some { CurrentPageNumber := 0 + 1, IteratorState := some [1] } }
      0 [1] 1 rfl rfl rfl rfl rfl).2.1⟩

end gcloud

namespace matching

/-! ### Lease -/

theorem ensureDefaultSubqueuesLocked_ne_nil (db : taskQueueDB) (infos : List SubqueueInfo)
    (a c : Int) : db.ensureDefaultSubqueuesLocked infos a c ≠ [] := by
  unfold taskQueueDB.ensureDefaultSubqueuesLocked
  simp only
  split
  · split
    · simp
    · simp
  · rename_i h
    intro hnil
    rw [hnil] at h
    simp at h

theorem cachedQueueInfo_isSome (db : taskQueueDB) (h : db.subqueues ≠ []) :
    ∃ s0 info, db.subqueues[subqueueZero]? = some s0 ∧ db.cachedQueueInfo = some info := by
  cases hs : db.subqueues with
  | nil => exact absurd hs h
  | cons s rest =>
    exact ⟨s, { AckLevel := s.AckLevel, ApproximateBacklogCount := s.ApproximateBacklogCount,
                Subqueues := (s :: rest).map dbSubqueue.SubqueueInfo },
      by simp [subqueueZero], by simp [taskQueueDB.cachedQueueInfo, hs, subqueueZero]⟩

/-- C10.  The range id written and held by `RenewLease`.  (1) With a lease held, `rangeID = r`
different from 0: the single store call is `UpdateTaskQueue` with `PrevRangeID = r` and
`RangeID = r+1`; when the store accepts it the database holds `r+1`.  (2) Without a lease the
first call is `GetTaskQueue`; when it finds metadata with range id `r`, the only write is
`UpdateTaskQueue` with `PrevRangeID = r` and `RangeID = r+1` and on acceptance the database
holds `r+1`; when it reports `NotFound`, the only write is `CreateTaskQueue` with `RangeID = 1`
and on acceptance the database holds 1.  In every case the returned state carries the new range
id of the database. -/
theorem C10_RenewLease_rangeID (db : taskQueueDB) (now : Time) :
    (db.rangeID ≠ 0 → db.subqueues ≠ [] →
      ∃ info k, db.RenewLease now
          = .UpdateTaskQueue { RangeID := db.rangeID + 1, TaskQueueInfo := info,
                               PrevRangeID := db.rangeID } k ∧
        ∃ db' st, k none = .ret (db', .ok st) ∧ db'.rangeID = db.rangeID + 1 ∧
          st.rangeID = db'.rangeID) ∧
    (db.rangeID = 0 →
      ∃ k1, db.RenewLease now = .GetTaskQueue k1 ∧
        (∀ response : GetTaskQueueResponse, ∃ info k2,
          k1 (.ok response)
            = .UpdateTaskQueue { RangeID := response.RangeID + 1, TaskQueueInfo := info,
                                 PrevRangeID := response.RangeID } k2 ∧
          ∃ db' st, k2 none = .ret (db', .ok st) ∧ db'.rangeID = response.RangeID + 1 ∧
            st.rangeID = db'.rangeID) ∧
        (∀ msg : String, ∃ info k3,
          k1 (.error (.NotFound msg))
            = .CreateTaskQueue { RangeID := 1, TaskQueueInfo := info } k3 ∧
          ∃ db' st, k3 none = .ret (db', .ok st) ∧ db'.rangeID = 1 ∧
            st.rangeID = db'.rangeID)) := by
  constructor
  · intro hr hne
    obtain ⟨s0, info, hs0, hinfo⟩ := cachedQueueInfo_isSome db hne
    refine ⟨info, ?_⟩
    apply Exists.intro
    constructor
    · simp only [taskQueueDB.RenewLease, if_neg hr, taskQueueDB.updateTaskQueueLocked, hinfo,
        Prog.bind, if_true]
      rfl
    · simp only [Prog.bind, hs0]
      exact ⟨_, _, rfl, rfl, rfl⟩
  · intro hr
    apply Exists.intro
    refine ⟨?g1, ?g2, ?g3⟩
    case g1 =>
      simp only [taskQueueDB.RenewLease, if_pos hr, taskQueueDB.takeOverTaskQueueLocked,
        Prog.bind]
      rfl
    case g2 =>
      intro response
      obtain ⟨s0, info, hs0, hinfo⟩ := cachedQueueInfo_isSome
        { db with rangeID := response.RangeID,
                  subqueues := ({ db with rangeID := response.RangeID } :
                    taskQueueDB).ensureDefaultSubqueuesLocked response.TaskQueueInfo.Subqueues
                      response.TaskQueueInfo.AckLevel
                      response.TaskQueueInfo.ApproximateBacklogCount }
        (ensureDefaultSubqueuesLocked_ne_nil _ _ _ _)
      refine ⟨info, ?_⟩
      apply Exists.intro
      constructor
      · simp only [taskQueueDB.updateTaskQueueLocked, hinfo, Prog.bind, if_true]
        rfl
      · simp only [subqueueZero] at hs0
        simp only [Prog.bind, List.getElem?_map, subqueueZero, hs0, Option.map_some']
        exact ⟨_, _, rfl, rfl, rfl⟩
    case g3 =>
      intro msg
      obtain ⟨s0, info, hs0, hinfo⟩ := cachedQueueInfo_isSome
        { db with rangeID := initialRangeID,
                  subqueues := ({ db with rangeID := initialRangeID } :
                    taskQueueDB).ensureDefaultSubqueuesLocked [] 0 0 }
        (ensureDefaultSubqueuesLocked_ne_nil { db with rangeID := initialRangeID } [] 0 0)
      refine ⟨info, ?_⟩
      apply Exists.intro
      constructor
      · dsimp only
        rw [hinfo]
        simp only [Prog.bind]
        rfl
      · simp only [subqueueZero] at hs0
        simp only [Prog.bind, subqueueZero, hs0]
        exact ⟨_, _, rfl, rfl, rfl⟩

end matching

namespace matching

/-- Witness of C10: renewing the lease of the freshly created partition (range id 1). -/
theorem C10_RenewLease_rangeID_witness :
    ∃ info k, freshDB.RenewLease 9
        = .UpdateTaskQueue { RangeID := freshDB.rangeID + 1, TaskQueueInfo := info,
                             PrevRangeID := freshDB.rangeID } k ∧
      ∃ db' st, k none = .ret (db', .ok st) ∧ db'.rangeID = freshDB.rangeID + 1 ∧
        st.rangeID = db'.rangeID :=
  (C10_RenewLease_rangeID freshDB 9).1 (by decide) (by decide)

theorem raisesLease_bind {α β : Type} (p : Prog α) (f : α → Prog β)
    (hp : p.raisesLease) (hf : ∀ a, (f a).raisesLease) : (p.bind f).raisesLease := by
  induction p with
  | ret a => exact hf a
  | panic => trivial
  | GetTaskQueue k ih => exact fun r => ih r (hp r)
  | CreateTaskQueue req k ih => exact fun r => ih r (hp r)
  | UpdateTaskQueue req k ih => exact ⟨hp.1, fun r => ih r (hp.2 r)⟩

theorem updateTaskQueueLocked_raisesLease (db : taskQueueDB) (now : Time) :
    (db.updateTaskQueueLocked true now).raisesLease := by
  unfold taskQueueDB.updateTaskQueueLocked
  cases db.cachedQueueInfo with
  | none => trivial
  | some info =>
    refine ⟨by simp, fun r => ?_⟩
    cases r <;> trivial

theorem takeOverTaskQueueLocked_raisesLease (db : taskQueueDB) (now : Time) :
    (db.takeOverTaskQueueLocked now).raisesLease := by
  unfold taskQueueDB.takeOverTaskQueueLocked
  intro r
  cases r with
  | ok response =>
    refine raisesLease_bind _ _ (updateTaskQueueLocked_raisesLease _ _) ?_
    intro res
    cases res.2 <;> trivial
  | error e =>
    cases e with
    | NotFound msg =>
      simp only
      split
      · trivial
      · intro r; cases r <;> trivial
    | ConditionFailed msg => trivial
    | Other msg => trivial

/-- Every store computation of `RenewLease` only raises the lease: its conditional updates ask
for the range id next to the one they are conditioned on. -/
theorem RenewLease_raisesLease (db : taskQueueDB) (now : Time) :
    (db.RenewLease now).raisesLease := by
  unfold taskQueueDB.RenewLease
  refine raisesLease_bind _ _ ?_ ?_
  · split
    · exact takeOverTaskQueueLocked_raisesLease db now
    · exact updateTaskQueueLocked_raisesLease db now
  · intro res
    cases res.2 with
    | some e => trivial
    | none =>
      simp only
      split <;> trivial

/-- One store step of a lease-raising computation keeps the installed range ids strictly
increasing and below the stored one. -/
theorem Prog_step_inv {α : Type} (p : Prog α) (reg : Register) (fault : Fault)
    (installed : List Int) (hp : p.raisesLease) (hsorted : installed.Pairwise (· < ·))
    (hreg : belowRegister reg installed) :
    (p.step reg fault).1.raisesLease ∧
    (installed ++ (p.step reg fault).2.2.toList).Pairwise (· < ·) ∧
    belowRegister (p.step reg fault).2.1 (installed ++ (p.step reg fault).2.2.toList) := by
  cases p with
  | ret a => exact ⟨trivial, by simpa [Prog.step] using hsorted, by simpa [Prog.step] using hreg⟩
  | panic => exact ⟨trivial, by simpa [Prog.step] using hsorted, by simpa [Prog.step] using hreg⟩
  | GetTaskQueue k =>
    cases fault <;> cases reg <;> simp only [Prog.step] <;>
      exact ⟨hp _, by simpa using hsorted, by simpa using hreg⟩
  | CreateTaskQueue req k =>
    cases fault <;> cases reg <;> simp only [Prog.step] <;>
      first
        | exact ⟨hp _, by simpa using hsorted, by simpa using hreg⟩
        | (simp only [belowRegister] at hreg
           subst hreg
           exact ⟨hp _, by simp, by simp [belowRegister]⟩)
  | UpdateTaskQueue req k =>
    obtain ⟨hlt, hk⟩ := hp
    cases fault <;> cases reg <;> simp only [Prog.step] <;>
      first
        | exact ⟨hk _, by simpa using hsorted, by simpa using hreg⟩
        | (rename_i val
           obtain ⟨rangeID, info⟩ := val
           simp only [belowRegister] at hreg
           simp only
           split
           · rename_i heq
             refine ⟨hk _, ?_, ?_⟩
             · simp only [Option.toList, List.pairwise_append, List.pairwise_singleton,
                 List.mem_singleton, true_and]
               exact ⟨hsorted, fun a ha b hb => by have := hreg a ha; omega⟩
             · simp only [belowRegister, Option.toList, List.mem_append, List.mem_singleton]
               rintro x (hx | hx)
               · have := hreg x hx; omega
               · omega
           · exact ⟨hk _, by simpa using hsorted, by simpa [belowRegister] using hreg⟩)

theorem Partition_step_inv (sys : Partition) (ev : Event) (h : sys.inv) : (sys.step ev).inv := by
  obtain ⟨howners, hsorted, hreg⟩ := h
  unfold Partition.step
  split
  · exact ⟨howners, hsorted, hreg⟩
  · rename_i db hget
    refine ⟨?_, hsorted, hreg⟩
    intro p hp
    rcases List.mem_or_eq_of_mem_set hp with h1 | h1
    · exact howners p h1
    · cases h1
      exact RenewLease_raisesLease db ev.now
  · refine ⟨?_, hsorted, hreg⟩
    intro p hp
    rcases List.mem_or_eq_of_mem_set hp with h1 | h1
    · exact howners p h1
    · cases h1
  · rename_i p hne hget
    have hp : p.raisesLease := howners p (List.getElem?_mem hget)
    obtain ⟨h1, h2, h3⟩ := Prog_step_inv p sys.register ev.fault sys.installed hp hsorted hreg
    generalize p.step sys.register ev.fault = r at h1 h2 h3
    obtain ⟨p1, reg, inst⟩ := r
    refine ⟨?_, h2, h3⟩
    intro q hq
    rcases List.mem_or_eq_of_mem_set hq with h4 | h4
    · exact howners q h4
    · cases h4
      exact h1

theorem Partition_run_inv (events : List Event) :
    ∀ sys : Partition, sys.inv → (sys.run events).inv := by
  induction events with
  | nil => intro sys h; exact h
  | cons ev rest ih =>
    intro sys h
    exact ih (sys.step ev) (Partition_step_inv sys ev h)

/-- C2.  Lease monotonicity.  The persisted lease is a compare-and-swap register:
`CreateTaskQueue` is accepted only when no metadata exists, `UpdateTaskQueue` only when the
stored range id equals `PrevRangeID`.  From any initial content of the register and any number of
`taskQueueDB` instances in any state, after any interleaving of the steps of their `RenewLease`
calls (with store calls that may be lost, or applied with their answer lost), the range ids
installed by the accepted writes are strictly increasing. -/
theorem C2_lease_monotonic (register : Register) (dbs : List taskQueueDB)
    (events : List Event) :
    (Partition.run { register := register, owners := dbs.map Owner.idle, installed := [] }
      events).installed.Pairwise (· < ·) := by
  refine (Partition_run_inv events _ ⟨?_, List.Pairwise.nil, ?_⟩).2.1
  · intro p hp
    simp at hp
  · cases register with
    | none => rfl
    | some v => intro x hx; simp at hx

end matching

/-! ### `int64` wrap-around -/

theorem wrap64_of_isInt64 (x : Int) (h : isInt64 x) : wrap64 x = x := by
  unfold isInt64 minInt64 maxInt64 at h
  unfold wrap64
  norm_num at h ⊢
  omega

theorem wrap64_isInt64 (x : Int) : isInt64 (wrap64 x) := by
  unfold isInt64 minInt64 maxInt64 wrap64
  norm_num
  omega

theorem wrap64_wrap64_sub (a b : Int) : wrap64 (wrap64 a - b) = wrap64 (a - b) := by
  unfold wrap64
  norm_num
  omega

namespace matching

/-! ### Backlog counters -/

theorem getElem?_modifySubqueuesFrom (f : Nat → dbSubqueue → dbSubqueue)
    (l : List dbSubqueue) : ∀ (start i : Nat),
    (modifySubqueuesFrom f start l)[i]? = (l[i]?).map (f (start + i)) := by
  induction l with
  | nil => intro start i; simp [modifySubqueuesFrom]
  | cons s rest ih =>
    intro start i
    cases i with
    | zero => simp [modifySubqueuesFrom]
    | succ j =>
      have hidx : start + 1 + j = start + (j + 1) := by omega
      simp only [modifySubqueuesFrom, List.getElem?_cons_succ, ih, hidx]

theorem length_modifySubqueuesFrom (f : Nat → dbSubqueue → dbSubqueue)
    (l : List dbSubqueue) : ∀ start : Nat, (modifySubqueuesFrom f start l).length = l.length := by
  induction l with
  | nil => intro start; rfl
  | cons s rest ih => intro start; simp [modifySubqueuesFrom, ih]

theorem getElem?_rangeOverMap {β : Type} (m : IntMap β) (body : β → dbSubqueue → dbSubqueue)
    (l : List dbSubqueue) (i : Nat) :
    (rangeOverMap m body l)[i]? = (l[i]?).map (fun s => (m i).elim s (fun v => body v s)) := by
  unfold rangeOverMap
  rw [getElem?_modifySubqueuesFrom]
  simp

theorem length_rangeOverMap {β : Type} (m : IntMap β) (body : β → dbSubqueue → dbSubqueue)
    (l : List dbSubqueue) : (rangeOverMap m body l).length = l.length := by
  unfold rangeOverMap
  exact length_modifySubqueuesFrom _ _ _

end matching

namespace matching

theorem tasksFor_cons (req : writeTaskRequest) (rest : List writeTaskRequest) (sq : Nat) :
    tasksFor (req :: rest) sq = (if req.subqueue = sq then 1 else 0) + tasksFor rest sq := by
  unfold tasksFor
  by_cases h : req.subqueue = sq
  · simp [List.filter_cons, h]; omega
  · simp [List.filter_cons, h]

/-- The `updates` map holds, for every subqueue, as many tasks as the batch sends to it. -/
theorem collectUpdates_spec (db : taskQueueDB) :
    ∀ (reqs : List writeTaskRequest) (u : IntMap subqueueCreateTasksResponse),
      (∀ req ∈ reqs, req.subqueue < db.subqueues.length) →
      ∃ u', collectUpdates db reqs u = some u' ∧
        ∀ sq, updateLen u' sq = updateLen u sq + tasksFor reqs sq := by
  intro reqs
  induction reqs with
  | nil => intro u _; exact ⟨u, rfl, fun sq => by simp [tasksFor]⟩
  | cons req rest ih =>
    intro u hidx
    have hlt : req.subqueue < db.subqueues.length := hidx req (List.mem_cons_self _ _)
    obtain ⟨s, hs⟩ : ∃ s, db.subqueues[req.subqueue]? = some s :=
      ⟨db.subqueues[req.subqueue], List.getElem?_eq_getElem hlt⟩
    simp only [collectUpdates, hs]
    obtain ⟨u', hu', hlen⟩ := ih _ (fun r hr => hidx r (List.mem_cons_of_mem _ hr))
    refine ⟨u', hu', ?_⟩
    intro sq
    rw [hlen sq, tasksFor_cons]
    by_cases h : req.subqueue = sq
    · subst h
      simp only [updateLen, IntMap.set, if_true]
      cases u req.subqueue <;> simp
      omega
    · have h' : ¬ sq = req.subqueue := fun e => h e.symm
      simp [updateLen, IntMap.set, h, h']

theorem getElem?_rangeOverMap₂ {β : Type} (m : IntMap β) (b1 b2 : β → dbSubqueue → dbSubqueue)
    (l : List dbSubqueue) (i : Nat) :
    (rangeOverMap m b2 (rangeOverMap m b1 l))[i]?
      = (l[i]?).map (fun s => (m i).elim s (fun v => b2 v (b1 v s))) := by
  rw [getElem?_rangeOverMap, getElem?_rangeOverMap]
  cases l[i]? <;> cases m i <;> rfl

theorem getElem?_rangeOverMap₃ {β : Type} (m : IntMap β)
    (b1 b2 b3 : β → dbSubqueue → dbSubqueue) (l : List dbSubqueue) (i : Nat) :
    (rangeOverMap m b3 (rangeOverMap m b2 (rangeOverMap m b1 l)))[i]?
      = (l[i]?).map (fun s => (m i).elim s (fun v => b3 v (b2 v (b1 v s)))) := by
  rw [getElem?_rangeOverMap, getElem?_rangeOverMap, getElem?_rangeOverMap]
  cases l[i]? <;> cases m i <;> rfl

/-- The backlog count of a subqueue after the optimistic increment of `CreateTasks` (and the
update of `maxReadLevel`). -/
theorem CreateTasks_count_kept (reqs : List writeTaskRequest)
    (u : IntMap subqueueCreateTasksResponse)
    (hlen : ∀ sq, updateLen u sq = tasksFor reqs sq) (sq : Nat) (s : dbSubqueue)
    (hs : isInt64 s.ApproximateBacklogCount) :
    ((u sq).elim s (fun v =>
        (s.addBacklog v.tasks.length).setMaxReadLevel v.maxReadLevelAfter)).ApproximateBacklogCount
      = wrap64 (s.ApproximateBacklogCount + (tasksFor reqs sq : Int)) := by
  have h := hlen sq
  simp only [updateLen] at h
  cases hq : u sq with
  | none =>
    rw [hq] at h
    simp only at h
    rw [← h]
    simp [wrap64_of_isInt64 _ hs]
  | some v =>
    rw [hq] at h
    simp only at h
    simp [dbSubqueue.addBacklog, dbSubqueue.setMaxReadLevel, h]

/-- The backlog count of a subqueue after the optimistic increment of `CreateTasks` and its
roll-back. -/
theorem CreateTasks_count_restored (u : IntMap subqueueCreateTasksResponse) (sq : Nat)
    (s : dbSubqueue) (hs : isInt64 s.ApproximateBacklogCount) :
    ((u sq).elim s (fun v =>
        ((s.addBacklog v.tasks.length).setMaxReadLevel v.maxReadLevelAfter).subBacklog
          v.tasks.length)).ApproximateBacklogCount = s.ApproximateBacklogCount := by
  cases hq : u sq with
  | none => rfl
  | some v =>
    simp only [Option.elim, dbSubqueue.addBacklog, dbSubqueue.subBacklog,
      dbSubqueue.setMaxReadLevel]
    rw [wrap64_wrap64_sub]
    have : s.ApproximateBacklogCount + (v.tasks.length : Int) - (v.tasks.length : Int)
        = s.ApproximateBacklogCount := by ring
    rw [this, wrap64_of_isInt64 _ hs]

/-- C3 (amended).  Backlog counter of `CreateTasks`.  For a non-empty batch whose subqueues exist, with
`n` the number of tasks of the batch that go to a subqueue: when the store call succeeds or fails
with an error other than `ConditionFailedError`, the subqueue's `ApproximateBacklogCount` is its
prior value plus `n` (Go's `int64` sum, which is the plain sum when that does not exceed
`math.MaxInt64`); when the store call fails with `ConditionFailedError`, it is exactly its prior
value.  A subqueue that receives no task (`n = 0`) keeps its count in either case. -/
theorem C3_CreateTasks_backlog (db : taskQueueDB) (reqs : List writeTaskRequest) (now : Time)
    (result : Except StoreError CreateTasksResponse)
    (hne : reqs ≠ [])
    (hidx : ∀ req ∈ reqs, req.subqueue < db.subqueues.length)
    (hint : ∀ s ∈ db.subqueues, isInt64 s.ApproximateBacklogCount) :
    ∃ db' resp err, db.CreateTasks reqs now result = some (db', resp, err) ∧
      db'.subqueues.length = db.subqueues.length ∧
      ∀ sq s, db.subqueues[sq]? = some s →
        ∃ s', db'.subqueues[sq]? = some s' ∧
          ((∀ msg, result ≠ .error (.ConditionFailed msg)) →
            s'.ApproximateBacklogCount
                = wrap64 (s.ApproximateBacklogCount + (tasksFor reqs sq : Int)) ∧
            (s.ApproximateBacklogCount + (tasksFor reqs sq : Int) ≤ maxInt64 →
              s'.ApproximateBacklogCount
                = s.ApproximateBacklogCount + (tasksFor reqs sq : Int))) ∧
          ((∃ msg, result = .error (.ConditionFailed msg)) →
            s'.ApproximateBacklogCount = s.ApproximateBacklogCount) := by
  obtain ⟨u, hu, hlen⟩ := collectUpdates_spec db reqs (fun _ => none) hidx
  have hlen' : ∀ sq, updateLen u sq = tasksFor reqs sq := by
    intro sq; rw [hlen sq]; simp [updateLen]
  have hempty : reqs.isEmpty = false := by
    cases reqs with
    | nil => exact absurd rfl hne
    | cons r rs => rfl
  have hplain : ∀ (c : Int) (n : Nat), isInt64 c → c + n ≤ maxInt64 → wrap64 (c + n) = c + n := by
    intro c n hc hle
    apply wrap64_of_isInt64
    unfold isInt64 at hc ⊢
    exact ⟨by omega, hle⟩
  have hkept : ∀ (db' : taskQueueDB),
      (∀ sq, db'.subqueues[sq]? = (db.subqueues[sq]?).map (fun s => (u sq).elim s (fun v =>
        (s.addBacklog v.tasks.length).setMaxReadLevel v.maxReadLevelAfter))) →
      (∀ msg, result ≠ .error (.ConditionFailed msg)) →
      ∀ sq s, db.subqueues[sq]? = some s →
        ∃ s', db'.subqueues[sq]? = some s' ∧
          ((∀ msg, result ≠ .error (.ConditionFailed msg)) →
            s'.ApproximateBacklogCount
                = wrap64 (s.ApproximateBacklogCount + (tasksFor reqs sq : Int)) ∧
            (s.ApproximateBacklogCount + (tasksFor reqs sq : Int) ≤ maxInt64 →
              s'.ApproximateBacklogCount
                = s.ApproximateBacklogCount + (tasksFor reqs sq : Int))) ∧
          ((∃ msg, result = .error (.ConditionFailed msg)) →
            s'.ApproximateBacklogCount = s.ApproximateBacklogCount) := by
    intro db' hget hnc sq s hs
    have hsi : isInt64 s.ApproximateBacklogCount := hint s (List.getElem?_mem hs)
    have hc := CreateTasks_count_kept reqs u hlen' sq s hsi
    refine ⟨_, by rw [hget sq, hs]; rfl, fun _ => ⟨hc, fun hle => ?_⟩, ?_⟩
    · rw [← hplain _ _ hsi hle]; exact hc
    · rintro ⟨msg, hmsg⟩; exact absurd hmsg (hnc msg)
  have hget2 : ∀ sq, (rangeOverMap u (fun update s =>
        s.setMaxReadLevel update.maxReadLevelAfter)
      (rangeOverMap u (fun update s => s.addBacklog update.tasks.length) db.subqueues))[sq]?
      = (db.subqueues[sq]?).map (fun s => (u sq).elim s (fun v =>
        (s.addBacklog v.tasks.length).setMaxReadLevel v.maxReadLevelAfter)) :=
    fun sq => getElem?_rangeOverMap₂ _ _ _ _ _
  unfold taskQueueDB.CreateTasks
  rw [hempty]
  simp only [Bool.false_eq_true, if_false, hu]
  cases result with
  | ok resp =>
    refine ⟨_, _, _, rfl, ?_, ?_⟩
    · split <;> simp [length_rangeOverMap]
    · refine hkept _ ?_ (fun msg h => by cases h)
      intro sq
      split <;> exact hget2 sq
  | error e =>
    cases e with
    | ConditionFailed msg =>
      refine ⟨_, _, _, rfl, by simp [length_rangeOverMap], ?_⟩
      intro sq s hs
      have hsi : isInt64 s.ApproximateBacklogCount := hint s (List.getElem?_mem hs)
      refine ⟨_, by rw [getElem?_rangeOverMap₃, hs]; rfl, ?_, ?_⟩
      · intro h; exact absurd rfl (h msg)
      · intro _
        exact CreateTasks_count_restored u sq s hsi
    | NotFound msg =>
      exact ⟨_, _, _, rfl, by simp [length_rangeOverMap],
        hkept _ hget2 (fun m h => by cases h)⟩
    | Other msg =>
      exact ⟨_, _, _, rfl, by simp [length_rangeOverMap],
        hkept _ hget2 (fun m h => by cases h)⟩

end matching

namespace matching

/-- Witness of C3: one task added to the freshly created queue gives a backlog count of 1. -/
theorem C3_CreateTasks_backlog_witness :
    (freshDB.CreateTasks [{ subqueue := 0, id := 1, pass := 0, fairLevel := ⟨0, 0⟩ }] 9
        (.ok { UpdatedMetadata := false })).map
      (fun r => r.1.subqueues.map (fun s => s.ApproximateBacklogCount)) = some [1] ∧
    ∃ db' resp err,
      freshDB.CreateTasks [{ subqueue := 0, id := 1, pass := 0, fairLevel := ⟨0, 0⟩ }] 9
        (.ok { UpdatedMetadata := false }) = some (db', resp, err) ∧
      db'.subqueues.length = freshDB.subqueues.length ∧
      ∀ sq s, freshDB.subqueues[sq]? = some s →
        ∃ s', db'.subqueues[sq]? = some s' ∧
          ((∀ msg, (Except.ok { UpdatedMetadata := false } : Except StoreError CreateTasksResponse)
              ≠ .error (.ConditionFailed msg)) →
            s'.ApproximateBacklogCount
                = wrap64 (s.ApproximateBacklogCount + (tasksFor
                    [{ subqueue := 0, id := 1, pass := 0, fairLevel := ⟨0, 0⟩ }] sq : Int)) ∧
            (s.ApproximateBacklogCount + (tasksFor
                [{ subqueue := 0, id := 1, pass := 0, fairLevel := ⟨0, 0⟩ }] sq : Int) ≤ maxInt64 →
              s'.ApproximateBacklogCount
                = s.ApproximateBacklogCount + (tasksFor
                    [{ subqueue := 0, id := 1, pass := 0, fairLevel := ⟨0, 0⟩ }] sq : Int))) ∧
          ((∃ msg, (Except.ok { UpdatedMetadata := false } :
              Except StoreError CreateTasksResponse) = .error (.ConditionFailed msg)) →
            s'.ApproximateBacklogCount = s.ApproximateBacklogCount) :=
  ⟨by decide,
    C3_CreateTasks_backlog freshDB [{ subqueue := 0, id := 1, pass := 0, fairLevel := ⟨0, 0⟩ }] 9
      (.ok { UpdatedMetadata := false }) (by decide) (by decide) (by decide)⟩

end matching

namespace matching

/-- C3 (counterexample to the claim as stated).  On a queue whose subqueue 0 has the backlog
count `math.MaxInt64`, a `CreateTasks` of one task leaves the count `math.MinInt64`, not the
prior value plus 1, both when the store call succeeds and when it fails with an error other
than `ConditionFailedError`. -/
theorem C3_backlog_sum_wraps :
    brimDB.subqueues.map (fun s => s.ApproximateBacklogCount) = [9223372036854775807] ∧
    (brimDB.CreateTasks oneTask 9 (.ok { UpdatedMetadata := false })).map
      (fun r => r.1.subqueues.map (fun s => s.ApproximateBacklogCount))
      = some [-9223372036854775808] ∧
    (brimDB.CreateTasks oneTask 9 (.error (.Other "timeout"))).map
      (fun r => r.1.subqueues.map (fun s => s.ApproximateBacklogCount))
      = some [-9223372036854775808] := by
  refine ⟨?_, ?_, ?_⟩
  · decide
  · decide
  · decide

end matching

namespace matching

theorem collectUpdates_len (db : taskQueueDB) :
    ∀ (reqs : List writeTaskRequest) (u u' : IntMap subqueueCreateTasksResponse),
      collectUpdates db reqs u = some u' →
      ∀ sq, updateLen u' sq = updateLen u sq + tasksFor reqs sq := by
  intro reqs
  induction reqs with
  | nil =>
    intro u u' h sq
    simp only [collectUpdates, Option.some.injEq] at h
    subst h
    simp [tasksFor]
  | cons req rest ih =>
    intro u u' h sq
    unfold collectUpdates at h
    cases hs : db.subqueues[req.subqueue]? with
    | none => rw [hs] at h; cases h
    | some s =>
      rw [hs] at h
      simp only at h
      rw [ih _ _ h sq, tasksFor_cons]
      by_cases hq : req.subqueue = sq
      · subst hq
        simp only [updateLen, IntMap.set, if_true]
        cases u req.subqueue <;> simp
        omega
      · have h' : ¬ sq = req.subqueue := fun e => hq e.symm
        simp [updateLen, IntMap.set, hq, h']

theorem collectFairTasks_len :
    ∀ (reqs : List writeTaskRequest) (t : IntMap (List AllocatedTaskInfo)) (l : IntMap fairLevel)
      (sq : Nat), fairLen (collectFairTasks reqs (t, l)).1 sq = fairLen t sq + tasksFor reqs sq := by
  intro reqs
  induction reqs with
  | nil => intro t l sq; simp [collectFairTasks, tasksFor]
  | cons req rest ih =>
    intro t l sq
    simp only [collectFairTasks]
    rw [ih, tasksFor_cons]
    by_cases hq : req.subqueue = sq
    · subst hq
      simp only [fairLen, IntMap.set, if_true]
      cases t req.subqueue <;> simp
      omega
    · have h' : ¬ sq = req.subqueue := fun e => hq e.symm
      simp [fairLen, IntMap.set, hq, h']

theorem nonneg_set (l : List dbSubqueue) (i : Nat) (s : dbSubqueue)
    (hl : ∀ x ∈ l, 0 ≤ x.ApproximateBacklogCount) (hs : 0 ≤ s.ApproximateBacklogCount) :
    ∀ x ∈ l.set i s, 0 ≤ x.ApproximateBacklogCount := by
  intro x hx
  rcases List.mem_or_eq_of_mem_set hx with h | h
  · exact hl x h
  · rw [h]; exact hs

/-- The clamp of `updateBacklogStatsLocked`: whatever the delta, the count it leaves is `>= 0`. -/
theorem updateBacklogStatsLocked_nonneg (db db' : taskQueueDB) (subqueue : Nat)
    (countDelta : Int) (oldestTime : Time) (h0 : db.backlogNonneg)
    (h : db.updateBacklogStatsLocked subqueue countDelta oldestTime = some db') :
    db'.backlogNonneg := by
  unfold taskQueueDB.updateBacklogStatsLocked at h
  cases hs : db.subqueues[subqueue]? with
  | none => rw [hs] at h; cases h
  | some s =>
    rw [hs] at h
    simp only [Option.some.injEq] at h
    subst h
    refine nonneg_set _ _ _ h0 ?_
    simp only
    split
    · exact le_refl _
    · omega

theorem updateAckLevelAndBacklogStats_nonneg (db db' : taskQueueDB) (subqueue : Nat)
    (newAckLevel countDelta : Int) (oldestTime now : Time) (h0 : db.backlogNonneg)
    (h : db.updateAckLevelAndBacklogStats subqueue newAckLevel countDelta oldestTime now
      = some db') : db'.backlogNonneg := by
  unfold taskQueueDB.updateAckLevelAndBacklogStats at h
  cases hs : db.subqueues[subqueue]? with
  | none => rw [hs] at h; cases h
  | some dbQueue =>
    rw [hs] at h
    simp only at h
    have hq : 0 ≤ dbQueue.ApproximateBacklogCount := h0 dbQueue (List.getElem?_mem hs)
    have h1 : ∀ x ∈ db.subqueues.set subqueue { dbQueue with AckLevel := newAckLevel },
        0 ≤ x.ApproximateBacklogCount := nonneg_set _ _ _ h0 hq
    by_cases hack : dbQueue.AckLevel = newAckLevel
    · simp only [hack, ne_eq, not_true_eq_false, if_false] at h
      split at h
      · split at h
        · simp only [Option.some.injEq] at h
          subst h
          exact nonneg_set _ _ _ h0 (le_refl _)
        · simp only [Option.some.injEq] at h
          subst h
          exact h0
      · split at h
        · refine updateBacklogStatsLocked_nonneg _ _ _ _ _ ?_ h
          exact h0
        · simp only [Option.some.injEq] at h
          subst h
          exact h0
    · simp only [hack, ne_eq, not_false_eq_true, if_true] at h
      split at h
      · split at h
        · simp only [Option.some.injEq] at h
          subst h
          exact nonneg_set _ _ _ h1 (le_refl _)
        · simp only [Option.some.injEq] at h
          subst h
          exact h1
      · split at h
        · refine updateBacklogStatsLocked_nonneg _ _ _ _ _ ?_ h
          exact h1
        · simp only [Option.some.injEq] at h
          subst h
          exact h1

theorem updateFairAckLevel_nonneg (db db' : taskQueueDB) (subqueue : Nat)
    (newAckLevel : fairLevel) (countDelta knownCount : Int) (oldestTime now : Time)
    (h0 : db.backlogNonneg)
    (h : db.updateFairAckLevel subqueue newAckLevel countDelta knownCount oldestTime now
      = some db') : db'.backlogNonneg := by
  unfold taskQueueDB.updateFairAckLevel at h
  cases hs : db.subqueues[subqueue]? with
  | none => rw [hs] at h; cases h
  | some dbQueue =>
    rw [hs] at h
    simp only at h
    have hq : 0 ≤ dbQueue.ApproximateBacklogCount := h0 dbQueue (List.getElem?_mem hs)
    have h1 : ∀ x ∈ db.subqueues.set subqueue
        { dbQueue with FairAckLevel := newAckLevel.toProto }, 0 ≤ x.ApproximateBacklogCount :=
      nonneg_set _ _ _ h0 hq
    split at h
    · rename_i hk
      simp only [Option.some.injEq] at h
      subst h
      exact nonneg_set _ _ _ h1 hk
    · split at h
      · refine updateBacklogStatsLocked_nonneg _ _ _ _ _ ?_ h
        exact h1
      · simp only [Option.some.injEq] at h
        subst h
        exact h1

end matching

namespace matching

theorem wrap64_add_fits (c : Int) (n : Nat) (hc : 0 ≤ c) (hle : c + n ≤ maxInt64) :
    wrap64 (c + n) = c + n ∧ isInt64 c := by
  have hci : isInt64 c := by
    unfold isInt64 minInt64 maxInt64 at *
    norm_num at *
    omega
  refine ⟨wrap64_of_isInt64 _ ?_, hci⟩
  unfold isInt64 minInt64 maxInt64 at *
  norm_num at *
  omega

/-- `CreateTasks` keeps the counts `>= 0` when its optimistic increment fits into `int64`. -/
theorem CreateTasks_nonneg (db db' : taskQueueDB) (reqs : List writeTaskRequest) (now : Time)
    (result : Except StoreError CreateTasksResponse)
    (resp : IntMap subqueueCreateTasksResponse) (err : Option StoreError)
    (h0 : db.backlogNonneg)
    (hfits : ∀ sq s, db.subqueues[sq]? = some s →
      s.ApproximateBacklogCount + tasksFor reqs sq ≤ maxInt64)
    (h : db.CreateTasks reqs now result = some (db', resp, err)) : db'.backlogNonneg := by
  unfold taskQueueDB.CreateTasks at h
  split at h
  · simp only [Option.some.injEq, Prod.mk.injEq] at h
    rw [← h.1]; exact h0
  · cases hu : collectUpdates db reqs (fun _ => none) with
    | none => rw [hu] at h; cases h
    | some u =>
      rw [hu] at h
      simp only at h
      have hlen : ∀ sq, updateLen u sq = tasksFor reqs sq := by
        intro sq
        rw [collectUpdates_len db reqs _ u hu sq]
        simp [updateLen]
      have hkept : ∀ x ∈ rangeOverMap u (fun update s =>
            s.setMaxReadLevel update.maxReadLevelAfter)
          (rangeOverMap u (fun update s => s.addBacklog update.tasks.length) db.subqueues),
          0 ≤ x.ApproximateBacklogCount := by
        intro x hx
        obtain ⟨i, hi⟩ := List.mem_iff_getElem?.mp hx
        rw [getElem?_rangeOverMap₂] at hi
        cases hs : db.subqueues[i]? with
        | none => rw [hs] at hi; cases hi
        | some s =>
          rw [hs] at hi
          simp only [Option.map_some', Option.some.injEq] at hi
          have hc : 0 ≤ s.ApproximateBacklogCount := h0 s (List.getElem?_mem hs)
          obtain ⟨hw, hsi⟩ := wrap64_add_fits _ _ hc (hfits i s hs)
          rw [← hi, CreateTasks_count_kept reqs u hlen i s hsi, hw]
          omega
      have hrestored : ∀ x ∈ rangeOverMap u (fun update s => s.subBacklog update.tasks.length)
          (rangeOverMap u (fun update s => s.setMaxReadLevel update.maxReadLevelAfter)
            (rangeOverMap u (fun update s => s.addBacklog update.tasks.length) db.subqueues)),
          0 ≤ x.ApproximateBacklogCount := by
        intro x hx
        obtain ⟨i, hi⟩ := List.mem_iff_getElem?.mp hx
        rw [getElem?_rangeOverMap₃] at hi
        cases hs : db.subqueues[i]? with
        | none => rw [hs] at hi; cases hi
        | some s =>
          rw [hs] at hi
          simp only [Option.map_some', Option.some.injEq] at hi
          have hc : 0 ≤ s.ApproximateBacklogCount := h0 s (List.getElem?_mem hs)
          obtain ⟨_, hsi⟩ := wrap64_add_fits _ _ hc (hfits i s hs)
          rw [← hi, CreateTasks_count_restored u i s hsi]
          exact hc
      cases result with
      | ok r =>
        simp only [Option.some.injEq, Prod.mk.injEq] at h
        rw [← h.1]
        split <;> exact hkept
      | error e =>
        cases e with
        | ConditionFailed msg =>
          simp only [Option.some.injEq, Prod.mk.injEq] at h
          rw [← h.1]; exact hrestored
        | NotFound msg =>
          simp only [Option.some.injEq, Prod.mk.injEq] at h
          rw [← h.1]; exact hkept
        | Other msg =>
          simp only [Option.some.injEq, Prod.mk.injEq] at h
          rw [← h.1]; exact hkept

/-- `CreateFairTasks` keeps the counts `>= 0` when its optimistic increment fits into `int64`. -/
theorem CreateFairTasks_nonneg (db db' : taskQueueDB) (reqs : List writeTaskRequest) (now : Time)
    (result : Except StoreError CreateTasksResponse)
    (resp : IntMap (List AllocatedTaskInfo)) (err : Option StoreError)
    (h0 : db.backlogNonneg)
    (hfits : ∀ sq s, db.subqueues[sq]? = some s →
      s.ApproximateBacklogCount + tasksFor reqs sq ≤ maxInt64)
    (h : db.CreateFairTasks reqs now result = some (db', resp, err)) : db'.backlogNonneg := by
  unfold taskQueueDB.CreateFairTasks at h
  split at h
  · simp only [Option.some.injEq, Prod.mk.injEq] at h
    rw [← h.1]; exact h0
  · have hlen : ∀ sq, fairLen (collectFairTasks reqs (fun _ => none, fun _ => none)).1 sq
        = tasksFor reqs sq := by
      intro sq
      rw [collectFairTasks_len]
      simp [fairLen]
    generalize collectFairTasks reqs (fun _ => none, fun _ => none) = maps at h hlen
    obtain ⟨newTasks, newMaxLevel⟩ := maps
    simp only at h hlen
    split at h
    · cases h
    · have hinc : ∀ i s, db.subqueues[i]? = some s →
          ((newTasks i).elim s (fun tasks => s.addBacklog tasks.length)).ApproximateBacklogCount
            = s.ApproximateBacklogCount + (tasksFor reqs i : Int) := by
        intro i s hs
        have hc : 0 ≤ s.ApproximateBacklogCount := h0 s (List.getElem?_mem hs)
        obtain ⟨hw, hsi⟩ := wrap64_add_fits _ _ hc (hfits i s hs)
        have hl := hlen i
        simp only [fairLen] at hl
        cases hq : newTasks i with
        | none =>
          rw [hq] at hl
          simp only at hl
          simp [← hl]
        | some tasks =>
          rw [hq] at hl
          simp only at hl
          simp only [Option.elim, dbSubqueue.addBacklog, hl, hw]
      have hkept : ∀ x ∈ rangeOverMap newMaxLevel (fun level s =>
            { s with FairMaxReadLevel :=
                ((fairLevelFromProto s.FairMaxReadLevel).max level).toProto })
          (rangeOverMap newTasks (fun tasks s => s.addBacklog tasks.length) db.subqueues),
          0 ≤ x.ApproximateBacklogCount := by
        intro x hx
        obtain ⟨i, hi⟩ := List.mem_iff_getElem?.mp hx
        rw [getElem?_rangeOverMap, getElem?_rangeOverMap] at hi
        cases hs : db.subqueues[i]? with
        | none => rw [hs] at hi; cases hi
        | some s =>
          rw [hs] at hi
          simp only [Option.map_some', Option.some.injEq] at hi
          have hc : 0 ≤ s.ApproximateBacklogCount := h0 s (List.getElem?_mem hs)
          have hi2 := hinc i s hs
          rw [← hi]
          generalize (newTasks i).elim s (fun tasks => s.addBacklog tasks.length) = t at hi2 ⊢
          cases newMaxLevel i <;> simp only [Option.elim] <;> rw [hi2] <;> omega
      have hrestored : ∀ x ∈ rangeOverMap newTasks (fun tasks s => s.subBacklog tasks.length)
          (rangeOverMap newMaxLevel (fun level s =>
            { s with FairMaxReadLevel :=
                ((fairLevelFromProto s.FairMaxReadLevel).max level).toProto })
          (rangeOverMap newTasks (fun tasks s => s.addBacklog tasks.length) db.subqueues)),
          0 ≤ x.ApproximateBacklogCount := by
        intro x hx
        obtain ⟨i, hi⟩ := List.mem_iff_getElem?.mp hx
        rw [getElem?_rangeOverMap, getElem?_rangeOverMap, getElem?_rangeOverMap] at hi
        cases hs : db.subqueues[i]? with
        | none => rw [hs] at hi; cases hi
        | some s =>
          rw [hs] at hi
          simp only [Option.map_some', Option.some.injEq] at hi
          have hc : 0 ≤ s.ApproximateBacklogCount := h0 s (List.getElem?_mem hs)
          obtain ⟨hw, hsi⟩ := wrap64_add_fits _ _ hc (hfits i s hs)
          have hl := hlen i
          simp only [fairLen] at hl
          rw [← hi]
          cases hq : newTasks i with
          | none =>
            cases newMaxLevel i <;> simp only [Option.elim] <;> exact hc
          | some tasks =>
            rw [hq] at hl
            simp only at hl
            have hback : wrap64 (wrap64 (s.ApproximateBacklogCount + (tasks.length : Int))
                - (tasks.length : Int)) = s.ApproximateBacklogCount := by
              rw [wrap64_wrap64_sub]
              have : s.ApproximateBacklogCount + (tasks.length : Int) - (tasks.length : Int)
                  = s.ApproximateBacklogCount := by ring
              rw [this, wrap64_of_isInt64 _ hsi]
            cases newMaxLevel i <;>
              simp only [Option.elim, dbSubqueue.addBacklog, dbSubqueue.subBacklog, hback] <;>
              exact hc
      cases result with
      | ok r =>
        simp only [Option.some.injEq, Prod.mk.injEq] at h
        rw [← h.1]
        split <;> exact hkept
      | error e =>
        cases e with
        | ConditionFailed msg =>
          simp only [Option.some.injEq, Prod.mk.injEq] at h
          rw [← h.1]; exact hrestored
        | NotFound msg =>
          simp only [Option.some.injEq, Prod.mk.injEq] at h
          rw [← h.1]; exact hkept
        | Other msg =>
          simp only [Option.some.injEq, Prod.mk.injEq] at h
          rw [← h.1]; exact hkept

end matching

namespace matching

/-- One call keeps the counts `>= 0` when it does not panic and, for a creation, its optimistic
increment fits into `int64`. -/
theorem apply_nonneg (db db' : taskQueueDB) (op : BacklogOp) (h0 : db.backlogNonneg)
    (hfits : op.fits db) (h : db.apply op = some db') : db'.backlogNonneg := by
  cases op with
  | CreateTasks reqs now result =>
    simp only [taskQueueDB.apply, Option.map_eq_some'] at h
    obtain ⟨⟨d, resp, err⟩, hrun, hd⟩ := h
    simp only at hd
    subst hd
    exact CreateTasks_nonneg db _ reqs now result resp err h0 hfits hrun
  | CreateFairTasks reqs now result =>
    simp only [taskQueueDB.apply, Option.map_eq_some'] at h
    obtain ⟨⟨d, resp, err⟩, hrun, hd⟩ := h
    simp only at hd
    subst hd
    exact CreateFairTasks_nonneg db _ reqs now result resp err h0 hfits hrun
  | updateAckLevelAndBacklogStats subqueue newAckLevel countDelta oldestTime now =>
    exact updateAckLevelAndBacklogStats_nonneg db db' _ _ _ _ _ h0 h
  | updateFairAckLevel subqueue newAckLevel countDelta knownCount oldestTime now =>
    exact updateFairAckLevel_nonneg db db' _ _ _ _ _ _ h0 h
  | updateBacklogStats countDelta oldestTime now =>
    unfold taskQueueDB.apply taskQueueDB.updateBacklogStats at h
    refine updateBacklogStatsLocked_nonneg _ _ _ _ _ ?_ h
    exact h0

/-- C4 (amended).  Backlog counts stay `>= 0` as long as no optimistic increment overflows.
Starting from a state in which every subqueue's `ApproximateBacklogCount` is `>= 0`, after any
sequence of `CreateTasks` and `CreateFairTasks` calls (with any store outcome) and of
`updateAckLevelAndBacklogStats`, `updateFairAckLevel` and `updateBacklogStats` calls with
arbitrary arguments (negative and arbitrarily large deltas included), every subqueue's
`ApproximateBacklogCount` is still `>= 0`, provided that at each creation no subqueue's count plus
the number of tasks it receives exceeds `math.MaxInt64`. -/
theorem C4_backlog_nonneg_when_fits (ops : List BacklogOp) :
    ∀ (db db' : taskQueueDB), db.backlogNonneg → db.fitsAll ops → db.applyAll ops = some db' →
      db'.backlogNonneg := by
  induction ops with
  | nil =>
    intro db db' h0 _ h
    simp only [taskQueueDB.applyAll, Option.some.injEq] at h
    subst h
    exact h0
  | cons op rest ih =>
    intro db db' h0 hfits h
    unfold taskQueueDB.applyAll at h
    cases hop : db.apply op with
    | none => rw [hop] at h; cases h
    | some db1 =>
      rw [hop] at h
      exact ih db1 db' (apply_nonneg db db1 op h0 hfits.1 hop) (hfits.2 db1 hop) h

/-- C4 (counterexample to the claim as stated).  On the freshly created queue (count 0),
`updateBacklogStats` with the delta `math.MaxInt64` leaves the count `MaxInt64`; a `CreateTasks`
of one task that the store accepts then adds 1 in `int64` and leaves the count
`math.MinInt64`, which is negative. -/
theorem C4_backlog_negative_after_overflow :
    freshDB.subqueues.map (fun s => s.ApproximateBacklogCount) = [0] ∧
    (freshDB.applyAll
        [.updateBacklogStats 9223372036854775807 0 8,
         .CreateTasks [{ subqueue := 0, id := 1, pass := 0, fairLevel := ⟨0, 0⟩ }] 9
            (.ok { UpdatedMetadata := false })]).map
      (fun db => db.subqueues.map (fun s => s.ApproximateBacklogCount))
      = some [-9223372036854775808] := by
  constructor
  · decide
  · decide

end matching

namespace matching

/-- Witness of C4 (amended): on the freshly created queue, a delta of -5 (clamped at 0) and a
creation of one task that the store accepts leave the count 1. -/
theorem C4_backlog_nonneg_when_fits_witness :
    (freshDB.applyAll
        [.updateBacklogStats (-5) 0 8,
         .CreateTasks [{ subqueue := 0, id := 2, pass := 0, fairLevel := ⟨0, 0⟩ }] 9
            (.ok { UpdatedMetadata := false })]).map
      (fun db => db.subqueues.map (fun s => s.ApproximateBacklogCount)) = some [1] ∧
    ∀ db', freshDB.applyAll
        [.updateBacklogStats (-5) 0 8,
         .CreateTasks [{ subqueue := 0, id := 2, pass := 0, fairLevel := ⟨0, 0⟩ }] 9
            (.ok { UpdatedMetadata := false })] = some db' → db'.backlogNonneg := by
  refine ⟨by decide, fun db' h => ?_⟩
  refine C4_backlog_nonneg_when_fits _ freshDB db' (by unfold taskQueueDB.backlogNonneg; decide)
    ?_ h
  refine ⟨trivial, fun db1 h1 => ⟨?_, fun db2 _ => trivial⟩⟩
  have hl : db1.subqueues.map (fun s => s.ApproximateBacklogCount) = [0] := by
    have : (freshDB.apply (.updateBacklogStats (-5) 0 8)).map
        (fun db => db.subqueues.map (fun s => s.ApproximateBacklogCount)) = some [0] := by
      decide
    rw [h1] at this
    simpa using this
  intro sq s hs
  have hmem : s.ApproximateBacklogCount ∈
      db1.subqueues.map (fun s => s.ApproximateBacklogCount) :=
    List.mem_map.mpr ⟨s, List.getElem?_mem hs, rfl⟩
  rw [hl] at hmem
  simp only [List.mem_singleton] at hmem
  have hle : tasksFor [{ subqueue := 0, id := 2, pass := 0, fairLevel := ⟨0, 0⟩ }] sq ≤ 1 := by
    unfold tasksFor
    exact le_trans (List.length_filter_le _ _) (by simp)
  rw [hmem]
  unfold maxInt64
  norm_num
  omega

end matching

namespace matching

/-- C11.  The read levels after `RenewLease`.  Take a call of `RenewLease` that the store answers
with `get` (to `GetTaskQueue`) and `write` (to the write) and that returns a state.  (1) When no
lease was held (`rangeID = 0`) and the metadata was found, the database holds the stored range id
plus one and every subqueue's `maxReadLevel` is
`rangeIDToTaskIDBlock(rangeID, RangeSize).start - 1` for that new range id.  (2) When a lease was
held (`rangeID != 0`), the subqueues are the ones before the call, so every `maxReadLevel` is
what it was. -/
theorem C11_RenewLease_maxReadLevel (db db1 : taskQueueDB) (now : Time)
    (get : Except StoreError GetTaskQueueResponse) (write : Option StoreError)
    (st : taskQueueState)
    (hrun : (db.RenewLease now).answer get write = some (db1, .ok st)) :
    (db.rangeID = 0 → ∀ response, get = .ok response →
      db1.rangeID = response.RangeID + 1 ∧
      ∀ s ∈ db1.subqueues, s.maxReadLevel
        = db1.config.rangeIDToTaskIDBlockStart db1.rangeID db1.config.RangeSize - 1) ∧
    (db.rangeID ≠ 0 → db1.subqueues = db.subqueues ∧
      db1.subqueues.map dbSubqueue.maxReadLevel = db.subqueues.map dbSubqueue.maxReadLevel) := by
  constructor
  · intro hr response hget
    subst hget
    obtain ⟨s0, info, hs0, hinfo⟩ := cachedQueueInfo_isSome
      { db with rangeID := response.RangeID,
                subqueues := ({ db with rangeID := response.RangeID } :
                  taskQueueDB).ensureDefaultSubqueuesLocked response.TaskQueueInfo.Subqueues
                    response.TaskQueueInfo.AckLevel
                    response.TaskQueueInfo.ApproximateBacklogCount }
      (ensureDefaultSubqueuesLocked_ne_nil _ _ _ _)
    simp only [taskQueueDB.RenewLease, if_pos hr, taskQueueDB.takeOverTaskQueueLocked,
      Prog.bind, Prog.answer, taskQueueDB.updateTaskQueueLocked, hinfo, if_true] at hrun
    cases write with
    | some e => simp [Prog.bind] at hrun
    | none =>
      simp only [Prog.bind] at hrun
      split at hrun
      · rename_i heq
        simp only [Option.some.injEq] at hrun
        subst hrun
        split at heq
        · cases heq
        · simp only [Prog.ret.injEq, Prod.mk.injEq] at heq
          obtain ⟨hdb, _⟩ := heq
          subst hdb
          refine ⟨rfl, ?_⟩
          intro s hs
          simp only [List.mem_map] at hs
          obtain ⟨s', _, rfl⟩ := hs
          rfl
      · simp at hrun
  · intro hr
    simp only [taskQueueDB.RenewLease, if_neg hr, taskQueueDB.updateTaskQueueLocked] at hrun
    cases hinfo : db.cachedQueueInfo with
    | none => simp [hinfo, Prog.bind, Prog.answer] at hrun
    | some info =>
      simp only [hinfo, Prog.bind, Prog.answer, if_true] at hrun
      cases write with
      | some e => simp [Prog.bind] at hrun
      | none =>
        simp only [Prog.bind] at hrun
        split at hrun
        · rename_i heq
          simp only [Option.some.injEq] at hrun
          subst hrun
          split at heq
          · cases heq
          · simp only [Prog.ret.injEq, Prod.mk.injEq] at heq
            obtain ⟨hdb, _⟩ := heq
            subst hdb
            exact ⟨rfl, rfl⟩
        · simp at hrun

end matching

namespace matching

/-- Witness of C11: the unloaded database takes over a partition stored with range id 4; it then
holds range id 5 and its subqueue has `maxReadLevel` 4000, the id just before block 5. -/
theorem C11_RenewLease_maxReadLevel_witness :
    takenOverDB.rangeID = sampleStored.RangeID + 1 ∧
      ∀ s ∈ takenOverDB.subqueues, s.maxReadLevel
        = takenOverDB.config.rangeIDToTaskIDBlockStart takenOverDB.rangeID
            takenOverDB.config.RangeSize - 1 :=
  (C11_RenewLease_maxReadLevel unloadedDB takenOverDB 7 (.ok sampleStored) none takenOverState
    rfl).1 rfl sampleStored rfl

end matching

namespace gcloud

theorem eventCount_nil : eventCount [] = 0 := rfl

theorem eventCount_cons (b : History) (bs : List History) :
    eventCount (b :: bs) = b.Events.length + eventCount bs := by
  simp [eventCount]

theorem eventCount_append (a b : List History) :
    eventCount (a ++ b) = eventCount a + eventCount b := by
  simp [eventCount]

theorem eventCount_nonneg (bs : List History) : 0 ≤ eventCount bs := by
  induction bs with
  | nil => simp [eventCount]
  | cons b bs ih => rw [eventCount_cons]; positivity

theorem eventCount_dropLast_le (bs : List History) : eventCount bs.dropLast ≤ eventCount bs := by
  rcases List.eq_nil_or_concat bs with h | ⟨l, b, h⟩
  · subst h; simp
  · subst h
    simp only [List.concat_eq_append, List.dropLast_concat, eventCount_append]
    have := eventCount_nonneg [b]
    omega

/-- The inner loop cut at batch `m` of its list: when the running count first reaches the page
size on batch `m`, the loop appends batches `0..m`, leaves by `break outer`, and sets the token
to the next part when `m` is the last batch, to the next batch otherwise. -/
theorem rangeBatches_cut (PageSize : Int) (l : List History) :
    ∀ (st : getState) (m : Nat), m < l.length →
      PageSize ≤ st.numOfEvents + eventCount (l.take (m + 1)) →
      (∀ j, j < m → st.numOfEvents + eventCount (l.take (j + 1)) < PageSize) →
      (rangeBatches PageSize l st).2 = true ∧
      (rangeBatches PageSize l st).1.HistoryBatches = st.HistoryBatches ++ l.take (m + 1) ∧
      (rangeBatches PageSize l st).1.numOfEvents
        = st.numOfEvents + eventCount (l.take (m + 1)) ∧
      (m + 1 = l.length →
        (rangeBatches PageSize l st).1.token.CurrentPart = st.token.CurrentPart + 1 ∧
        (rangeBatches PageSize l st).1.token.BatchIdxOffset = 0) ∧
      (m + 1 ≠ l.length →
        (rangeBatches PageSize l st).1.token.CurrentPart = st.token.CurrentPart ∧
        (rangeBatches PageSize l st).1.token.BatchIdxOffset
          = st.token.BatchIdxOffset + (m + 1 : Nat)) := by
  induction l with
  | nil => intro st m hm; simp at hm
  | cons b rest ih =>
    intro st m hm hreach hbefore
    cases m with
    | zero =>
      have hge : st.numOfEvents + (b.Events.length : Int) ≥ PageSize := by
        simpa [eventCount] using hreach
      unfold rangeBatches
      simp only [if_pos hge]
      by_cases hrest : rest = []
      · subst hrest
        simp [eventCount]
      · have hne : rest.isEmpty = false := by
          cases rest with
          | nil => exact absurd rfl hrest
          | cons _ _ => rfl
        have hlen : 0 < rest.length := List.length_pos.mpr hrest
        rw [hne]
        simp only [Bool.false_eq_true, if_false]
        refine ⟨trivial, by simp, by simp [eventCount], ?_, ?_⟩
        · intro h
          simp only [List.length_cons] at h
          omega
        · intro _; exact ⟨trivial, by simp⟩
    | succ m =>
      have hlt : ¬ st.numOfEvents + (b.Events.length : Int) ≥ PageSize := by
        have := hbefore 0 (Nat.succ_pos m)
        simp [eventCount] at this
        omega
      unfold rangeBatches
      simp only [if_neg hlt]
      obtain ⟨h1, h2, h3, h4, h5⟩ := ih
        { HistoryBatches := st.HistoryBatches ++ [b]
          token := { st.token with BatchIdxOffset := st.token.BatchIdxOffset + 1 }
          numOfEvents := st.numOfEvents + b.Events.length }
        m (by simpa using hm)
        (by
          have := hreach
          simp only [List.take_succ_cons, eventCount_cons] at this
          simp only
          omega)
        (by
          intro j hj
          have := hbefore (j + 1) (by omega)
          simp only [List.take_succ_cons, eventCount_cons] at this
          simp only
          omega)
      refine ⟨h1, ?_, ?_, ?_, ?_⟩
      · rw [h2]; simp
      · rw [h3]; simp only [List.take_succ_cons, eventCount_cons]; ring
      · intro h
        have := h4 (by simpa using h)
        simpa using this
      · intro h
        have := h5 (by simpa using h)
        refine ⟨by simpa using this.1, ?_⟩
        rw [this.2]
        push_cast
        ring

end gcloud

namespace gcloud

theorem take_drop_slice (bs : List History) (o j : Nat) (h : o ≤ j) :
    (bs.drop o).take (j - o + 1) = (bs.take (j + 1)).drop o := by
  rw [List.drop_take]
  congr 1
  omega

/-- C12.  Where the token stands after a page cut.  Take the loop of `Get` at the start of an
iteration on part `p = CurrentPart` (not above `HighestPart`) that fetches and decodes to the
batches `bs` (`n = bs.length`), with the offset inside the part, and let `i` be the index of the
batch on which the running event count first reaches `PageSize` (the count stays below
`PageSize` on every batch from the offset up to `i - 1` and is at least `PageSize` with batch
`i`).  Then the loop ends in this iteration having appended the batches from the offset to `i`,
and the token is at part `p + 1` with offset 0 when `i = n - 1`, at part `p` with offset `i + 1`
otherwise. -/
theorem C12_page_cut_position (d : Deps) (c : Client) (PageSize : Int) (fuel : Nat)
    (st : getState) (blob : Blob) (bs : List History) (i : Nat)
    (hcur : st.token.CurrentPart ≤ st.token.HighestPart)
    (hget : c.Get (constructHistoryFilenameMultipart st.token.CloseFailoverVersion
      st.token.CurrentPart) = .ok (some blob))
    (hdec : d.DecodeHistories blob = .ok bs)
    (hoff : 0 ≤ st.token.BatchIdxOffset) (hoi : st.token.BatchIdxOffset ≤ i)
    (hi : i < bs.length)
    (hreach : PageSize ≤ st.numOfEvents
      + eventCount ((bs.take (i + 1)).drop st.token.BatchIdxOffset.toNat))
    (hbefore : ∀ j : Nat, st.token.BatchIdxOffset ≤ j → j < i →
      st.numOfEvents + eventCount ((bs.take (j + 1)).drop st.token.BatchIdxOffset.toNat)
        < PageSize) :
    ∃ st1, readParts d c PageSize (fuel + 1) st = .ok st1 ∧
      st1.HistoryBatches
        = st.HistoryBatches ++ (bs.take (i + 1)).drop st.token.BatchIdxOffset.toNat ∧
      (i + 1 = bs.length →
        st1.token.CurrentPart = st.token.CurrentPart + 1 ∧ st1.token.BatchIdxOffset = 0) ∧
      (i + 1 ≠ bs.length →
        st1.token.CurrentPart = st.token.CurrentPart ∧ st1.token.BatchIdxOffset = i + 1) := by
  obtain ⟨o, ho⟩ := Int.eq_ofNat_of_zero_le hoff
  have hto : st.token.BatchIdxOffset.toNat = o := by rw [ho]; simp
  have hoi' : o ≤ i := by rw [ho] at hoi; exact_mod_cast hoi
  rw [hto] at hreach hbefore ⊢
  obtain ⟨h1, h2, _, h4, h5⟩ := rangeBatches_cut PageSize (bs.drop o) st (i - o)
    (by simp only [List.length_drop]; omega)
    (by rw [take_drop_slice bs o i hoi']; exact hreach)
    (by
      intro j hj
      have := hbefore (o + j) (by rw [ho]; push_cast; omega) (by omega)
      rw [← take_drop_slice bs o (o + j) (by omega)] at this
      simpa using this)
  rw [take_drop_slice bs o i hoi'] at h2
  have hnopanic : ¬ (st.token.BatchIdxOffset < 0 ∨ (bs.length : Int) < st.token.BatchIdxOffset) := by
    rw [ho]; push_neg
    exact ⟨by positivity, by exact_mod_cast (by omega : o ≤ bs.length)⟩
  unfold readParts
  rw [if_pos hcur, hget]
  simp only [hdec]
  rw [if_neg hnopanic, hto]
  generalize hr : rangeBatches PageSize (bs.drop o) st = r at h1 h2 h4 h5
  obtain ⟨st1, b⟩ := r
  simp only at h1 h2 h4 h5
  subst h1
  refine ⟨st1, rfl, h2, ?_, ?_⟩
  · intro h
    exact h4 (by simp only [List.length_drop]; omega)
  · intro h
    obtain ⟨h5a, h5b⟩ := h5 (by simp only [List.length_drop]; omega)
    refine ⟨h5a, ?_⟩
    rw [h5b, ho]
    push_cast
    omega

end gcloud

namespace gcloud

/-- Witness of C12 on the store with three parts of one batch each, of 6, 6 and 1 events, and
page size 10: in the iteration on part 1 the count reaches 12 on batch 0, the last batch of the
part, and the token moves to part 2 with offset 0.  The calls themselves: the first `Get` (no
token) returns 2 batches and the token of part 2, offset 0; the second `Get`, with that token,
returns 1 batch and no token. -/
theorem C12_page_cut_position_witness :
    (∃ st1, readParts sampleDeps sampleClient 10 2 sampleLoopState = .ok st1 ∧
      st1.token.CurrentPart = 2 ∧ st1.token.BatchIdxOffset = 0) ∧
    Get sampleDeps sampleClient sampleURI sampleRequest
      = .ok { HistoryBatches := [sampleBatch 1 6, sampleBatch 1 6]
              NextPageToken := some [0, 1, 0, 2, 0, 2, 0, 0] } ∧
    sampleDeps.deserializeGetHistoryToken [0, 1, 0, 2, 0, 2, 0, 0]
      = .ok { CloseFailoverVersion := 1, HighestPart := 2, CurrentPart := 2,
              BatchIdxOffset := 0 } ∧
    Get sampleDeps sampleClient sampleURI
        { sampleRequest with NextPageToken := some [0, 1, 0, 2, 0, 2, 0, 0] }
      = .ok { HistoryBatches := [sampleBatch 1 1], NextPageToken := none } := by
  refine ⟨?_, rfl, rfl, rfl⟩
  obtain ⟨st1, h1, _, h3, _⟩ := C12_page_cut_position sampleDeps sampleClient 10 1
    sampleLoopState [6] [sampleBatch 1 6] 0 (by decide) rfl rfl (by decide) (by decide)
    (by decide) (by decide) (by intro j _ hj; omega)
  exact ⟨st1, h1, h3 rfl⟩

end gcloud

namespace gcloud

/-- A successful `Get` passed both validations, found its starting token, ran its loop to a
final state, returned the batches of that state and, when the final token is not past the
highest part, its serialization. -/
theorem Get_ok_inv (d : Deps) (c : Client) (u : URI) (request : GetHistoryRequest)
    (resp : GetHistoryResponse) (h : Get d c u request = .ok resp) :
    ∃ t0 st, initialToken d c request = .ok t0 ∧
      readParts d c request.PageSize (t0.HighestPart + 1 - t0.CurrentPart).toNat
        { HistoryBatches := [], token := t0, numOfEvents := 0 } = .ok st ∧
      resp.HistoryBatches = st.HistoryBatches ∧
      ((¬ st.token.CurrentPart ≤ st.token.HighestPart ∧ resp.NextPageToken = none) ∨
       (st.token.CurrentPart ≤ st.token.HighestPart ∧
          ∃ b, d.serializeToken st.token = .ok b ∧ resp.NextPageToken = some b)) := by
  unfold Get at h
  split at h
  · cases h
  · split at h
    · cases h
    · cases h0 : initialToken d c request with
      | error f => rw [h0] at h; cases h
      | ok t0 =>
        rw [h0] at h
        simp only at h
        cases hrun : readParts d c request.PageSize (t0.HighestPart + 1 - t0.CurrentPart).toNat
            { HistoryBatches := [], token := t0, numOfEvents := 0 } with
        | error f => rw [hrun] at h; cases h
        | ok st =>
          rw [hrun] at h
          simp only at h
          refine ⟨t0, st, rfl, hrun, ?_⟩
          by_cases hend : st.token.CurrentPart ≤ st.token.HighestPart
          · rw [if_pos hend] at h
            cases hser : d.serializeToken st.token with
            | error e => rw [hser] at h; cases h
            | ok b =>
              rw [hser] at h
              cases h
              exact ⟨rfl, Or.inr ⟨hend, b, rfl, rfl⟩⟩
          · rw [if_neg hend] at h
            cases h
            exact ⟨rfl, Or.inl ⟨hend, rfl⟩⟩

/-- When the inner loop leaves by `break outer`, the count has reached the page size. -/
theorem rangeBatches_break (PageSize : Int) (bs : List History) :
    ∀ st : getState, (rangeBatches PageSize bs st).2 = true →
      PageSize ≤ (rangeBatches PageSize bs st).1.numOfEvents := by
  induction bs with
  | nil => intro st h; simp [rangeBatches] at h
  | cons b rest ih =>
    intro st
    unfold rangeBatches
    simp only
    split
    · rename_i hge
      split
      · intro _; exact hge
      · intro _; exact hge
    · exact ih _

/-- Where the loop of `Get` leaves the token.  Either the token is still on the part it started
on, moved forward inside it by the `k` batches appended (at least one when the loop was
entered); or it is on a later part, with an offset that counts the leading batches of that part
appended last. -/
theorem readParts_position (d : Deps) (c : Client) (PageSize : Int) :
    ∀ (fuel : Nat) (st st' : getState), readParts d c PageSize fuel st = .ok st' →
      fuel = (st.token.HighestPart + 1 - st.token.CurrentPart).toNat →
      st'.token.HighestPart = st.token.HighestPart ∧
      st'.token.CloseFailoverVersion = st.token.CloseFailoverVersion ∧
      ((st'.token.CurrentPart = st.token.CurrentPart ∧
          ∃ k : Nat, st'.token.BatchIdxOffset = st.token.BatchIdxOffset + k ∧
            st'.HistoryBatches = st.HistoryBatches
              ++ ((decodedPart d c st.token.CloseFailoverVersion st.token.CurrentPart).drop
                    st.token.BatchIdxOffset.toNat).take k ∧
            (st.token.CurrentPart ≤ st.token.HighestPart →
              1 ≤ k ∧ 0 ≤ st.token.BatchIdxOffset ∧
              st.token.BatchIdxOffset.toNat + k
                < (decodedPart d c st.token.CloseFailoverVersion st.token.CurrentPart).length ∧
              PageSize ≤ st'.numOfEvents) ∧
            (¬ st.token.CurrentPart ≤ st.token.HighestPart → k = 0)) ∨
       (st.token.CurrentPart < st'.token.CurrentPart ∧
          ∃ (k : Nat) (pre : List History), st'.token.BatchIdxOffset = k ∧
            st'.HistoryBatches = pre
              ++ (decodedPart d c st.token.CloseFailoverVersion st'.token.CurrentPart).take k ∧
            (k ≠ 0 →
              k < (decodedPart d c st.token.CloseFailoverVersion st'.token.CurrentPart).length ∧
              PageSize ≤ st'.numOfEvents))) := by
  intro fuel
  induction fuel with
  | zero =>
    intro st st' hrun hf
    simp only [readParts] at hrun
    cases hrun
    refine ⟨rfl, rfl, Or.inl ⟨rfl, 0, by simp, by simp, ?_, fun _ => rfl⟩⟩
    intro hle; omega
  | succ fuel ih =>
    intro st st' hrun hf
    have hle : st.token.CurrentPart ≤ st.token.HighestPart := by omega
    unfold readParts at hrun
    rw [if_pos hle] at hrun
    cases hget : c.Get (constructHistoryFilenameMultipart st.token.CloseFailoverVersion
        st.token.CurrentPart) with
    | error e => rw [hget] at hrun; cases hrun
    | ok ob =>
      cases ob with
      | none => rw [hget] at hrun; cases hrun
      | some blob =>
        rw [hget] at hrun
        simp only at hrun
        cases hdec : d.DecodeHistories blob with
        | error e => rw [hdec] at hrun; cases hrun
        | ok bs =>
          rw [hdec] at hrun
          simp only at hrun
          have hpart : decodedPart d c st.token.CloseFailoverVersion st.token.CurrentPart
              = bs := by
            simp [decodedPart, hget, hdec]
          by_cases hpanic : st.token.BatchIdxOffset < 0 ∨
              (bs.length : Int) < st.token.BatchIdxOffset
          · rw [if_pos hpanic] at hrun; cases hrun
          · rw [if_neg hpanic] at hrun
            push_neg at hpanic
            obtain ⟨hoff0, hofflen⟩ := hpanic
            obtain ⟨o, ho⟩ := Int.eq_ofNat_of_zero_le hoff0
            have hto : st.token.BatchIdxOffset.toNat = o := by rw [ho]; simp
            have hol : o ≤ bs.length := by rw [ho] at hofflen; exact_mod_cast hofflen
            rw [hto] at hrun
            have hs := rangeBatches_spec PageSize (bs.drop o) st
            have hbr := rangeBatches_break PageSize (bs.drop o) st
            generalize hr : rangeBatches PageSize (bs.drop o) st = r at hs hbr hrun
            obtain ⟨st1, b⟩ := r
            obtain ⟨k, hk, hb, hv1, hH1, hcase⟩ := hs
            simp only [List.length_drop] at hk hcase
            simp only at hb hv1 hH1 hcase hbr
            rw [hpart, hto]
            rcases hcase with ⟨h1, h2, h3, h4⟩ | ⟨h1, h2, h3, h4, h5⟩ | ⟨h1, h2, h3, h4, h5⟩
            · -- the part was read to its end: the loop goes on with the next part
              subst h1
              simp only at hrun
              obtain ⟨hH', hv', hcase'⟩ := ih _ st' hrun (by simp [h3, hH1]; omega)
              simp only at hH' hv' hcase'
              refine ⟨hH'.trans hH1, hv'.trans hv1, Or.inr ?_⟩
              rcases hcase' with ⟨hc, k', hoff', hb', hin, hout⟩ | ⟨hc, k', pre, hoff', hb', hlen'⟩
              · refine ⟨by rw [hc, h3]; omega, k', st1.HistoryBatches, by simpa using hoff', ?_, ?_⟩
                · rw [hb', hc, hv1, h3]; simp
                · intro hk0
                  rw [hc, h3]
                  by_cases hnext : st.token.CurrentPart + 1 ≤ st.token.HighestPart
                  · obtain ⟨_, _, hlt, hps⟩ := hin (by rw [h3, hH1]; exact hnext)
                    exact ⟨by simpa [hv1, h3] using hlt, hps⟩
                  · have := hout (by rw [h3, hH1]; exact hnext)
                    exact absurd this hk0
              · refine ⟨by rw [h3] at hc; omega, k', pre, hoff', ?_, ?_⟩
                · rw [hb', hv1]
                · rw [← hv1]; exact hlen'
            · -- the page size was reached inside the part
              subst h1
              simp only at hrun
              cases hrun
              refine ⟨hH1, hv1, Or.inl ⟨h4, k, by rw [h5], hb, ?_, ?_⟩⟩
              · intro _; exact ⟨h2, hoff0, by omega, hbr rfl⟩
              · intro h; exact absurd hle h
            · -- the page size was reached on the last batch of the part
              subst h1
              simp only at hrun
              cases hrun
              refine ⟨hH1, hv1, Or.inr ⟨by rw [h4]; omega, 0, st'.HistoryBatches, by rw [h5]; rfl,
                by simp, by simp⟩⟩

end gcloud

namespace gcloud

/-- The count the inner loop keeps is the number of events appended, and no batch is appended
once the count has reached the page size: entered below the page size, the loop leaves with all
batches but the last below the page size, and with all of them below it when it did not
break. -/
theorem rangeBatches_events (PageSize : Int) (bs : List History) :
    ∀ st : getState, st.numOfEvents = eventCount st.HistoryBatches →
      st.numOfEvents < PageSize →
      (rangeBatches PageSize bs st).1.numOfEvents
        = eventCount (rangeBatches PageSize bs st).1.HistoryBatches ∧
      eventCount (rangeBatches PageSize bs st).1.HistoryBatches.dropLast < PageSize ∧
      ((rangeBatches PageSize bs st).2 = false →
        (rangeBatches PageSize bs st).1.numOfEvents < PageSize) := by
  induction bs with
  | nil =>
    intro st hP hL
    simp only [rangeBatches]
    refine ⟨hP, ?_, fun _ => hL⟩
    have := eventCount_dropLast_le st.HistoryBatches
    omega
  | cons b rest ih =>
    intro st hP hL
    unfold rangeBatches
    simp only
    have hP1 : st.numOfEvents + (b.Events.length : Int)
        = eventCount (st.HistoryBatches ++ [b]) := by
      rw [eventCount_append, hP]; simp [eventCount]
    split
    · split
      · refine ⟨hP1, ?_, by simp⟩
        simp only [List.dropLast_concat]
        omega
      · refine ⟨hP1, ?_, by simp⟩
        simp only [List.dropLast_concat]
        omega
    · rename_i hlt
      exact ih _ hP1 (by simp only; omega)

/-- The loop of `Get` never appends a batch once the count has reached the page size. -/
theorem readParts_events (d : Deps) (c : Client) (PageSize : Int) :
    ∀ (fuel : Nat) (st st' : getState), readParts d c PageSize fuel st = .ok st' →
      st.numOfEvents = eventCount st.HistoryBatches → st.numOfEvents < PageSize →
      st'.numOfEvents = eventCount st'.HistoryBatches ∧
      eventCount st'.HistoryBatches.dropLast < PageSize := by
  intro fuel
  induction fuel with
  | zero =>
    intro st st' hrun hP hL
    simp only [readParts] at hrun
    cases hrun
    refine ⟨hP, ?_⟩
    have := eventCount_dropLast_le st.HistoryBatches
    omega
  | succ fuel ih =>
    intro st st' hrun hP hL
    unfold readParts at hrun
    split at hrun
    · split at hrun
      · cases hrun
      · cases hrun
      · split at hrun
        · cases hrun
        · split at hrun
          · cases hrun
          · obtain ⟨h1, h2, h3⟩ := rangeBatches_events PageSize
              (List.drop st.token.BatchIdxOffset.toNat ‹List History›) st hP hL
            split at hrun
            · rename_i st1 heq
              cases hrun
              rw [heq] at h1 h2
              exact ⟨h1, h2⟩
            · rename_i st1 heq
              rw [heq] at h1 h3
              exact ih _ st' hrun h1 (h3 rfl)
    · cases hrun
      refine ⟨hP, ?_⟩
      have := eventCount_dropLast_le st.HistoryBatches
      omega

/-- C13.  Every successful `Get` moves the token forward.  The call starts from the token `t0`
(the deserialized `NextPageToken`, or the token built from the stored file names) and its loop
ends in a state whose token is the position after the call (serialized into `NextPageToken`
when it is not past `HighestPart`).  `CurrentPart` is not below that of `t0`, and when the call
was entered with `CurrentPart <= HighestPart` the position after the call is strictly greater
than `t0` in the lexicographic order on `(CurrentPart, BatchIdxOffset)`. -/
theorem C13_get_token_progress (d : Deps) (c : Client) (u : URI) (request : GetHistoryRequest)
    (resp : GetHistoryResponse) (t0 : getHistoryToken)
    (hget : Get d c u request = .ok resp) (h0 : initialToken d c request = .ok t0) :
    ∃ st, readParts d c request.PageSize (t0.HighestPart + 1 - t0.CurrentPart).toNat
        { HistoryBatches := [], token := t0, numOfEvents := 0 } = .ok st ∧
      ((¬ st.token.CurrentPart ≤ st.token.HighestPart ∧ resp.NextPageToken = none) ∨
       (st.token.CurrentPart ≤ st.token.HighestPart ∧
          ∃ b, d.serializeToken st.token = .ok b ∧ resp.NextPageToken = some b)) ∧
      st.token.HighestPart = t0.HighestPart ∧
      t0.CurrentPart ≤ st.token.CurrentPart ∧
      (t0.CurrentPart ≤ t0.HighestPart →
        t0.CurrentPart < st.token.CurrentPart ∨
        (st.token.CurrentPart = t0.CurrentPart ∧
          t0.BatchIdxOffset < st.token.BatchIdxOffset)) := by
  obtain ⟨t0', st, h0', hrun, _, htok⟩ := Get_ok_inv d c u request resp hget
  rw [h0] at h0'
  cases h0'
  obtain ⟨hH, _, hcase⟩ := readParts_position d c request.PageSize _ _ st hrun rfl
  simp only at hH hcase
  refine ⟨st, hrun, htok, hH, ?_, ?_⟩
  · rcases hcase with ⟨hc, _⟩ | ⟨hc, _⟩
    · omega
    · omega
  · intro hle
    rcases hcase with ⟨hc, k, hoff, _, hin, _⟩ | ⟨hc, _⟩
    · refine Or.inr ⟨hc, ?_⟩
      have := (hin hle).1
      rw [hoff]
      omega
    · exact Or.inl hc

/-- Witness of C13: the first call on the sample store starts at part 0, offset 0, with
`HighestPart` 2, and the position after it is strictly greater. -/
theorem C13_get_token_progress_witness :
    ∃ st, readParts sampleDeps sampleClient sampleRequest.PageSize
        (sampleToken.HighestPart + 1 - sampleToken.CurrentPart).toNat
        { HistoryBatches := [], token := sampleToken, numOfEvents := 0 } = .ok st ∧
      (sampleToken.CurrentPart < st.token.CurrentPart ∨
        (st.token.CurrentPart = sampleToken.CurrentPart ∧
          sampleToken.BatchIdxOffset < st.token.BatchIdxOffset)) := by
  obtain ⟨st, hrun, _, _, _, hlex⟩ := C13_get_token_progress sampleDeps sampleClient sampleURI
    sampleRequest sampleFirstPage sampleToken rfl rfl
  exact ⟨st, hrun, hlex (by decide)⟩

/-- C16.  The page-size cutoff.  For every successful `Get` with `PageSize >= 1`, the events of
all returned batches except the last one total fewer than `PageSize`: no batch was appended
once the running count had reached `PageSize`. -/
theorem C16_page_size_cutoff (d : Deps) (c : Client) (u : URI) (request : GetHistoryRequest)
    (resp : GetHistoryResponse) (hget : Get d c u request = .ok resp)
    (hps : 1 ≤ request.PageSize) :
    eventCount resp.HistoryBatches.dropLast < request.PageSize := by
  obtain ⟨t0, st, _, hrun, hb, _⟩ := Get_ok_inv d c u request resp hget
  rw [hb]
  exact (readParts_events d c request.PageSize _ _ st hrun rfl (by simp only; omega)).2

/-- Witness of C16: the first page of the sample store (page size 10) holds the batches of 6 and
6 events; all but the last total 6. -/
theorem C16_page_size_cutoff_witness :
    eventCount sampleFirstPage.HistoryBatches.dropLast < sampleRequest.PageSize :=
  C16_page_size_cutoff sampleDeps sampleClient sampleURI sampleRequest sampleFirstPage rfl
    (by decide)

end gcloud

namespace gcloud

/-- C14, as stated, fails.  On the store whose part 0 decodes to one batch of 6 events and whose
part 1 decodes to two batches (6 events and 1 event), a `Get` with page size 10 given the token
of part 0, offset 0, reads part 0 to its end, reaches the page size on the first batch of part 1
and returns the token of part 1 with offset 1: `CurrentPart` has advanced and the offset is not
0. -/
theorem C14_offset_nonzero_after_part_advance :
    sampleDeps.deserializeGetHistoryToken [0, 1, 0, 1, 0, 0, 0, 0]
      = .ok { CloseFailoverVersion := 1, HighestPart := 1, CurrentPart := 0,
              BatchIdxOffset := 0 } ∧
    Get sampleDeps cutClient sampleURI
        { sampleRequest with NextPageToken := some [0, 1, 0, 1, 0, 0, 0, 0] }
      = .ok { HistoryBatches := [sampleBatch 1 6, sampleBatch 1 6]
              NextPageToken := some [0, 1, 0, 1, 0, 1, 0, 1] } ∧
    sampleDeps.deserializeGetHistoryToken [0, 1, 0, 1, 0, 1, 0, 1]
      = .ok { CloseFailoverVersion := 1, HighestPart := 1, CurrentPart := 1,
              BatchIdxOffset := 1 } :=
  ⟨rfl, rfl, rfl⟩

/-- C14, amended.  For every successful `Get` that starts from the token `t0` and whose loop
ends with the token on a later part than `t0`, the offset of that token is the number `k` of
leading batches of the new `CurrentPart` that the call returned (they are the last `k` batches
of the response).  `k` is 0 unless the page size was reached inside the new part: when `k` is
not 0, it is below the number of batches of the part and the running event count is at least
`PageSize`. -/
theorem C14_offset_counts_batches_of_new_part (d : Deps) (c : Client) (u : URI)
    (request : GetHistoryRequest) (resp : GetHistoryResponse) (t0 : getHistoryToken)
    (hget : Get d c u request = .ok resp) (h0 : initialToken d c request = .ok t0) :
    ∃ st, readParts d c request.PageSize (t0.HighestPart + 1 - t0.CurrentPart).toNat
        { HistoryBatches := [], token := t0, numOfEvents := 0 } = .ok st ∧
      ((¬ st.token.CurrentPart ≤ st.token.HighestPart ∧ resp.NextPageToken = none) ∨
       (st.token.CurrentPart ≤ st.token.HighestPart ∧
          ∃ b, d.serializeToken st.token = .ok b ∧ resp.NextPageToken = some b)) ∧
      (t0.CurrentPart < st.token.CurrentPart →
        ∃ (k : Nat) (pre : List History), st.token.BatchIdxOffset = k ∧
          resp.HistoryBatches
            = pre ++ (decodedPart d c t0.CloseFailoverVersion st.token.CurrentPart).take k ∧
          (k ≠ 0 →
            k < (decodedPart d c t0.CloseFailoverVersion st.token.CurrentPart).length ∧
            request.PageSize ≤ st.numOfEvents)) := by
  obtain ⟨t0', st, h0', hrun, hb, htok⟩ := Get_ok_inv d c u request resp hget
  rw [h0] at h0'
  cases h0'
  obtain ⟨_, _, hcase⟩ := readParts_position d c request.PageSize _ _ st hrun rfl
  simp only at hcase
  refine ⟨st, hrun, htok, ?_⟩
  intro hadv
  rcases hcase with ⟨hc, _⟩ | ⟨_, k, pre, hoff, hbat, hk⟩
  · omega
  · exact ⟨k, pre, hoff, by rw [hb, hbat], hk⟩

/-- Witness of C14 (amended) on the same store and call: the token ends on part 1 with offset 1,
and the response ends with the first batch of part 1. -/
theorem C14_offset_counts_batches_of_new_part_witness :
    ∃ st, readParts sampleDeps cutClient sampleRequest.PageSize
        (cutToken.HighestPart + 1 - cutToken.CurrentPart).toNat
        { HistoryBatches := [], token := cutToken, numOfEvents := 0 } = .ok st ∧
      ∃ (k : Nat) (pre : List History), st.token.BatchIdxOffset = k ∧
        cutPage.HistoryBatches
          = pre ++ (decodedPart sampleDeps cutClient cutToken.CloseFailoverVersion
              st.token.CurrentPart).take k ∧
        (k ≠ 0 →
          k < (decodedPart sampleDeps cutClient cutToken.CloseFailoverVersion
              st.token.CurrentPart).length ∧
          sampleRequest.PageSize ≤ st.numOfEvents) := by
  obtain ⟨st, hrun, _, hadv⟩ := C14_offset_counts_batches_of_new_part sampleDeps cutClient
    sampleURI sampleRequest cutPage cutToken rfl rfl
  refine ⟨st, hrun, hadv ?_⟩
  have hst : (Except.ok st : Except Failure getState)
      = .ok { HistoryBatches := [sampleBatch 1 6, sampleBatch 1 6]
              token := { CloseFailoverVersion := 1, HighestPart := 1, CurrentPart := 1,
                         BatchIdxOffset := 1 }
              numOfEvents := 12 } := hrun.symm.trans rfl
  cases hst
  decide

end gcloud

namespace gcloud

/-! ### The starting token of `Get` -/

theorem selected_append (want : Option Int) (a b : List (Int × Int)) :
    selected want (a ++ b) = selected want a ++ selected want b := by
  simp [selected]

/-- One iteration of the loop of `getHighestVersion` on a part file. -/
theorem getHighestVersionStep_describes (want : Option Int) (sel : List (Int × Int))
    (acc : versionParts) (xv xp : Int) (h : describes sel acc) :
    describes (sel ++ selected want [(xv, xp)])
      (getHighestVersionStep want acc (.part xv xp)) := by
  by_cases hw : want = none ∨ want = some xv
  · have hsel : selected want [(xv, xp)] = [(xv, xp)] := by
      simp [selected, hw]
    have hskip : ¬ (want.isSome ∧ some xv ≠ want) := by
      rcases hw with hw | hw
      · simp [hw]
      · simp [hw]
    rw [hsel]
    unfold getHighestVersionStep
    simp only [extractCloseFailoverVersion, if_neg hskip]
    rcases h with ⟨hnil, hacc⟩ | ⟨v, hi, lo, hacc, ⟨p0, hp0⟩, hmax, hhi0, hhi1, hhi2, hlo0, hlo1, hlo2⟩
    · subst hnil hacc
      refine Or.inr ?_
      simp only [Option.isNone_none, true_or, if_true, Option.isNone_some, Bool.false_eq_true,
        Option.mem_def, Option.some.injEq, exists_eq_left', false_or, List.nil_append,
        List.mem_singleton, Prod.mk.injEq]
      by_cases h1 : xp > 0
      · by_cases h2 : xp < 0
        · omega
        · refine ⟨xv, xp, 0, by simp [h1, h2], ⟨xp, rfl, rfl⟩, ?_, by omega, Or.inr ⟨rfl, rfl⟩,
            ?_, le_refl _, Or.inl rfl, ?_⟩
          · rintro ⟨a, b⟩ ⟨rfl, rfl⟩; exact le_refl _
          · rintro p ⟨_, rfl⟩; exact le_refl _
          · rintro p ⟨_, rfl⟩; omega
      · by_cases h2 : xp < 0
        · refine ⟨xv, 0, xp, by simp [h1, h2], ⟨xp, rfl, rfl⟩, ?_, le_refl _, Or.inl rfl,
            ?_, by omega, Or.inr ⟨rfl, rfl⟩, ?_⟩
          · rintro ⟨a, b⟩ ⟨rfl, rfl⟩; exact le_refl _
          · rintro p ⟨_, rfl⟩; omega
          · rintro p ⟨_, rfl⟩; exact le_refl _
        · refine ⟨xv, 0, 0, by simp [h1, h2], ⟨xp, rfl, rfl⟩, ?_, le_refl _, Or.inl rfl,
            ?_, le_refl _, Or.inl rfl, ?_⟩
          · rintro ⟨a, b⟩ ⟨rfl, rfl⟩; exact le_refl _
          · rintro p ⟨_, rfl⟩; omega
          · rintro p ⟨_, rfl⟩; omega
    · subst hacc
      refine Or.inr ?_
      simp only [Option.isNone_some, Bool.false_eq_true, Option.mem_def, Option.some.injEq,
        exists_eq_left', false_or, List.mem_append, List.mem_singleton, Prod.mk.injEq]
      by_cases hgt : xv > v
      · -- a new highest version: both parts restart from 0
        simp only [if_pos hgt, if_true]
        have hfresh : ∀ p, (xv, p) ∈ sel → False := by
          intro p hp
          have := hmax _ hp
          simp only at this
          omega
        by_cases h1 : xp > 0
        · by_cases h2 : xp < 0
          · omega
          · refine ⟨xv, xp, 0, by simp [h1, h2], ⟨xp, Or.inr ⟨rfl, rfl⟩⟩, ?_, by omega,
              Or.inr (Or.inr ⟨rfl, rfl⟩), ?_, le_refl _, Or.inl rfl, ?_⟩
            · rintro ⟨a, b⟩ (hab | ⟨rfl, rfl⟩)
              · have := hmax _ hab; simp only at this ⊢; omega
              · exact le_refl _
            · rintro p (hp | ⟨_, rfl⟩)
              · exact absurd hp (fun h => hfresh p h)
              · exact le_refl _
            · rintro p (hp | ⟨_, rfl⟩)
              · exact absurd hp (fun h => hfresh p h)
              · omega
        · by_cases h2 : xp < 0
          · refine ⟨xv, 0, xp, by simp [h1, h2], ⟨xp, Or.inr ⟨rfl, rfl⟩⟩, ?_, le_refl _,
              Or.inl rfl, ?_, by omega, Or.inr (Or.inr ⟨rfl, rfl⟩), ?_⟩
            · rintro ⟨a, b⟩ (hab | ⟨rfl, rfl⟩)
              · have := hmax _ hab; simp only at this ⊢; omega
              · exact le_refl _
            · rintro p (hp | ⟨_, rfl⟩)
              · exact absurd hp (fun h => hfresh p h)
              · omega
            · rintro p (hp | ⟨_, rfl⟩)
              · exact absurd hp (fun h => hfresh p h)
              · exact le_refl _
          · refine ⟨xv, 0, 0, by simp [h1, h2], ⟨xp, Or.inr ⟨rfl, rfl⟩⟩, ?_, le_refl _,
              Or.inl rfl, ?_, le_refl _, Or.inl rfl, ?_⟩
            · rintro ⟨a, b⟩ (hab | ⟨rfl, rfl⟩)
              · have := hmax _ hab; simp only at this ⊢; omega
              · exact le_refl _
            · rintro p (hp | ⟨_, rfl⟩)
              · exact absurd hp (fun h => hfresh p h)
              · omega
            · rintro p (hp | ⟨_, rfl⟩)
              · exact absurd hp (fun h => hfresh p h)
              · omega
      · simp only [if_neg hgt]
        by_cases heq : v = xv
        · -- another part of the highest version
          subst heq
          simp only [if_true]
          refine ⟨v, if xp > hi then xp else hi, if xp < lo then xp else lo,
            by by_cases a : xp > hi <;> by_cases b : xp < lo <;> simp [a, b],
            ⟨p0, Or.inl hp0⟩, ?_, ?_, ?_, ?_, ?_, ?_, ?_⟩
          · rintro ⟨a, b⟩ (hab | ⟨rfl, rfl⟩)
            · exact hmax _ hab
            · exact le_refl _
          · split <;> omega
          · split
            · exact Or.inr (Or.inr ⟨rfl, rfl⟩)
            · rcases hhi1 with h | h
              · exact Or.inl h
              · exact Or.inr (Or.inl h)
          · rintro p (hp | ⟨_, rfl⟩)
            · have := hhi2 p hp; split <;> omega
            · split <;> omega
          · split <;> omega
          · split
            · exact Or.inr (Or.inr ⟨rfl, rfl⟩)
            · rcases hlo1 with h | h
              · exact Or.inl h
              · exact Or.inr (Or.inl h)
          · rintro p (hp | ⟨_, rfl⟩)
            · have := hlo2 p hp; split <;> omega
            · split <;> omega
        · -- a part of a lower version
          have hne : ¬ (some v = some xv) := by simpa using heq
          simp only [if_neg hne]
          refine ⟨v, hi, lo, rfl, ⟨p0, Or.inl hp0⟩, ?_, hhi0, ?_, ?_, hlo0, ?_, ?_⟩
          · rintro ⟨a, b⟩ (hab | ⟨rfl, rfl⟩)
            · exact hmax _ hab
            · simp only; omega
          · rcases hhi1 with h | h
            · exact Or.inl h
            · exact Or.inr (Or.inl h)
          · rintro p (hp | ⟨h, _⟩)
            · exact hhi2 p hp
            · exact absurd h heq
          · rcases hlo1 with h | h
            · exact Or.inl h
            · exact Or.inr (Or.inl h)
          · rintro p (hp | ⟨h, _⟩)
            · exact hlo2 p hp
            · exact absurd h heq
  · have hsel : selected want [(xv, xp)] = [] := by
      simp [selected, hw]
    have hskip : want.isSome ∧ some xv ≠ want := by
      push_neg at hw
      obtain ⟨h1, h2⟩ := hw
      refine ⟨?_, fun h => h2 h.symm⟩
      cases want with
      | none => exact absurd rfl h1
      | some _ => rfl
    rw [hsel, List.append_nil]
    unfold getHighestVersionStep
    simp only [extractCloseFailoverVersion, if_pos hskip]
    exact h

end gcloud

namespace gcloud

/-- The loop of `getHighestVersion` over part files. -/
theorem foldl_describes (want : Option Int) :
    ∀ (pairs pre : List (Int × Int)) (acc : versionParts),
      describes (selected want pre) acc →
      describes (selected want (pre ++ pairs))
        ((partFiles pairs).foldl (getHighestVersionStep want) acc) := by
  intro pairs
  induction pairs with
  | nil => intro pre acc h; simpa [partFiles] using h
  | cons x rest ih =>
    intro pre acc h
    have hstep := getHighestVersionStep_describes want _ acc x.1 x.2 h
    rw [← selected_append] at hstep
    have := ih (pre ++ [x]) _ hstep
    simpa [partFiles] using this

/-- C15 (what the code does).  Let the store list part files of the (version, part) pairs
`pairs`, and let `sel` be the pairs the request looks at (all of them, or those of the requested
version), not empty.  `Get` without a continuation token starts from a token with offset 0 whose
version is the highest version of `sel` and whose `HighestPart` and `CurrentPart` are the
greatest, and the least, of 0 and the parts of that version: `getHighestVersion` restarts both
from `new(int)`, which is 0.  So `CurrentPart` is 0 whenever no part is negative, whether or not
part 0 is stored, and it is the smallest stored part only when that part is 0 or less. -/
theorem C15_initial_token_current_part (d : Deps) (c : Client) (request : GetHistoryRequest)
    (pairs : List (Int × Int)) (hnone : request.NextPageToken = none)
    (hq : c.Query = .ok (partFiles pairs))
    (hsel : selected request.CloseFailoverVersion pairs ≠ []) :
    ∃ t, initialToken d c request = .ok t ∧ t.BatchIdxOffset = 0 ∧
      (∃ p, (t.CloseFailoverVersion, p) ∈ selected request.CloseFailoverVersion pairs) ∧
      (∀ vp ∈ selected request.CloseFailoverVersion pairs, vp.1 ≤ t.CloseFailoverVersion) ∧
      (0 ≤ t.HighestPart ∧
        (t.HighestPart = 0 ∨
          (t.CloseFailoverVersion, t.HighestPart) ∈ selected request.CloseFailoverVersion pairs) ∧
        ∀ p, (t.CloseFailoverVersion, p) ∈ selected request.CloseFailoverVersion pairs →
          p ≤ t.HighestPart) ∧
      (t.CurrentPart ≤ 0 ∧
        (t.CurrentPart = 0 ∨
          (t.CloseFailoverVersion, t.CurrentPart) ∈ selected request.CloseFailoverVersion pairs) ∧
        ∀ p, (t.CloseFailoverVersion, p) ∈ selected request.CloseFailoverVersion pairs →
          t.CurrentPart ≤ p) ∧
      ((∀ vp ∈ selected request.CloseFailoverVersion pairs, 0 ≤ vp.2) → t.CurrentPart = 0) := by
  have hd := foldl_describes request.CloseFailoverVersion pairs []
    { highestVersion := none, highestVersionPart := none, lowestVersionPart := none }
    (Or.inl ⟨rfl, rfl⟩)
  rw [List.nil_append] at hd
  rcases hd with ⟨hnil, _⟩ | ⟨v, hi, lo, hacc, hv, hmax, hhi0, hhi1, hhi2, hlo0, hlo1, hlo2⟩
  · exact absurd hnil hsel
  · refine ⟨{ CloseFailoverVersion := v, HighestPart := hi, CurrentPart := lo,
              BatchIdxOffset := 0 }, ?_, rfl, hv, hmax, ⟨hhi0, hhi1, hhi2⟩, ⟨hlo0, hlo1, hlo2⟩,
      ?_⟩
    · unfold initialToken
      rw [hnone]
      simp only [getHighestVersion, hq, hacc]
    · intro hpos
      rcases hlo1 with h | h
      · exact h
      · have := hpos _ h
        simp only at this ⊢
        omega

/-- Witness of C15: the store holds parts 1 and 2 of version 1 and no part 0; `Get` starts from
`CurrentPart` 0 (the smallest stored part is 1), and fails on fetching part 0. -/
theorem C15_initial_token_current_part_witness :
    (∃ t, initialToken sampleDeps gapClient sampleRequest = .ok t ∧ t.CurrentPart = 0) ∧
    initialToken sampleDeps gapClient sampleRequest
      = .ok { CloseFailoverVersion := 1, HighestPart := 2, CurrentPart := 0,
              BatchIdxOffset := 0 } ∧
    Get sampleDeps gapClient sampleURI sampleRequest
      = .error (.err (.Unavailable "object does not exist")) := by
  refine ⟨?_, rfl, rfl⟩
  obtain ⟨t, ht, _, _, _, _, _, hzero⟩ := C15_initial_token_current_part sampleDeps gapClient
    sampleRequest [(1, 1), (1, 2)] rfl rfl (by decide)
  exact ⟨t, ht, hzero (by decide)⟩

end gcloud

namespace gcloud

/-! ### The errors of `Get` -/

theorem getHighestVersionStep_none (want : Option Int) (acc : versionParts) (f : FileName) :
    (getHighestVersionStep want acc f).highestVersion = none ↔
      acc.highestVersion = none ∧ matchesRequest want f = false := by
  cases f with
  | other name => simp [getHighestVersionStep, extractCloseFailoverVersion, matchesRequest]
  | part v p =>
    unfold getHighestVersionStep matchesRequest
    simp only [extractCloseFailoverVersion]
    by_cases hw : want = none ∨ want = some v
    · have hskip : ¬ (want.isSome ∧ some v ≠ want) := by
        rcases hw with hw | hw
        · simp [hw]
        · simp [hw]
      rw [if_neg hskip]
      simp only [hw, decide_True, Bool.true_eq_false, and_false, iff_false]
      cases hacc : acc.highestVersion with
      | none => simp
      | some hv =>
        by_cases hgt : v > hv
        · simp [hgt]
        · simp only [Option.isNone_some, Bool.false_eq_true, Option.mem_def, Option.some.injEq,
            exists_eq_left', false_or, if_neg hgt]
          split
          · simp [hacc]
          · simp [hacc]
    · have hskip : want.isSome ∧ some v ≠ want := by
        push_neg at hw
        obtain ⟨h1, h2⟩ := hw
        refine ⟨?_, fun h => h2 h.symm⟩
        cases want with
        | none => exact absurd rfl h1
        | some _ => rfl
      rw [if_pos hskip]
      simp [hw]

theorem foldl_highestVersion_none (want : Option Int) :
    ∀ (files : List FileName) (acc : versionParts),
      (files.foldl (getHighestVersionStep want) acc).highestVersion = none ↔
        acc.highestVersion = none ∧ ∀ f ∈ files, matchesRequest want f = false := by
  intro files
  induction files with
  | nil => intro acc; simp
  | cons f rest ih =>
    intro acc
    rw [List.foldl_cons, ih, getHighestVersionStep_none]
    simp only [List.mem_cons, forall_eq_or_imp]
    tauto

/-- Every failure of the loop of `Get` is a panic, the error of a part fetch as `Unavailable`,
or `Internal` for a part without content or a part that does not decode. -/
theorem readParts_error (d : Deps) (c : Client) (PageSize : Int) :
    ∀ (fuel : Nat) (st : getState) (f : Failure), readParts d c PageSize fuel st = .error f →
      f = .panic ∨
      (∃ p m, f = .err (.Unavailable m) ∧
        c.Get (constructHistoryFilenameMultipart st.token.CloseFailoverVersion p) = .error m) ∨
      (∃ p m, f = .err (.Internal m) ∧
        (c.Get (constructHistoryFilenameMultipart st.token.CloseFailoverVersion p) = .ok none ∨
         ∃ blob, c.Get (constructHistoryFilenameMultipart st.token.CloseFailoverVersion p)
              = .ok (some blob) ∧ d.DecodeHistories blob = .error m)) := by
  intro fuel
  induction fuel with
  | zero => intro st f h; simp [readParts] at h
  | succ fuel ih =>
    intro st f h
    unfold readParts at h
    split at h
    · cases hget : c.Get (constructHistoryFilenameMultipart st.token.CloseFailoverVersion
          st.token.CurrentPart) with
      | error e =>
        rw [hget] at h
        cases h
        exact Or.inr (Or.inl ⟨_, e, rfl, hget⟩)
      | ok ob =>
        cases ob with
        | none =>
          rw [hget] at h
          cases h
          exact Or.inr (Or.inr ⟨_, _, rfl, Or.inl hget⟩)
        | some blob =>
          rw [hget] at h
          simp only at h
          cases hdec : d.DecodeHistories blob with
          | error e =>
            rw [hdec] at h
            cases h
            exact Or.inr (Or.inr ⟨_, e, rfl, Or.inr ⟨blob, hget, hdec⟩⟩)
          | ok bs =>
            rw [hdec] at h
            simp only at h
            split at h
            · cases h; exact Or.inl rfl
            · have hs := rangeBatches_spec PageSize
                (bs.drop st.token.BatchIdxOffset.toNat) st
              obtain ⟨_, _, _, hv1, _, _⟩ := hs
              split at h
              · cases h
              · rename_i st1 heq
                rw [heq] at hv1
                simp only at hv1
                have := ih _ f h
                simpa [hv1] using this
    · cases h

end gcloud

namespace gcloud

/-- The ways `Get` fails, step by step. -/
theorem Get_error_inv (d : Deps) (c : Client) (u : URI) (request : GetHistoryRequest)
    (f : Failure) (h : Get d c u request = .error f) :
    (ValidateURI c.ExistRoot u = true ∧ f = .err (.InvalidArgument "URI is invalid")) ∨
    (ValidateURI c.ExistRoot u = false ∧
      (d.ValidateGetRequest request.CloseFailoverVersion request.PageSize).isSome ∧
      f = .err (.InvalidArgument "get archived history request is invalid")) ∨
    (ValidateURI c.ExistRoot u = false ∧
      d.ValidateGetRequest request.CloseFailoverVersion request.PageSize = none ∧
      (initialToken d c request = .error f ∨
       (∃ t0, initialToken d c request = .ok t0 ∧
          readParts d c request.PageSize (t0.HighestPart + 1 - t0.CurrentPart).toNat
            { HistoryBatches := [], token := t0, numOfEvents := 0 } = .error f) ∨
       (∃ t0 st m, initialToken d c request = .ok t0 ∧
          readParts d c request.PageSize (t0.HighestPart + 1 - t0.CurrentPart).toNat
            { HistoryBatches := [], token := t0, numOfEvents := 0 } = .ok st ∧
          d.serializeToken st.token = .error m ∧ f = .err (.Internal m)))) := by
  unfold Get at h
  by_cases huri : ValidateURI c.ExistRoot u = true
  · rw [if_pos huri] at h
    cases h
    exact Or.inl ⟨huri, rfl⟩
  · rw [if_neg huri] at h
    have huri' : ValidateURI c.ExistRoot u = false := by simpa using huri
    by_cases hreq : (d.ValidateGetRequest request.CloseFailoverVersion request.PageSize).isSome
        = true
    · rw [if_pos hreq] at h
      cases h
      exact Or.inr (Or.inl ⟨huri', hreq, rfl⟩)
    · rw [if_neg hreq] at h
      have hreq' : d.ValidateGetRequest request.CloseFailoverVersion request.PageSize = none := by
        simpa using hreq
      refine Or.inr (Or.inr ⟨huri', hreq', ?_⟩)
      cases h0 : initialToken d c request with
      | error f0 =>
        rw [h0] at h
        cases h
        exact Or.inl rfl
      | ok t0 =>
        rw [h0] at h
        simp only at h
        cases hrun : readParts d c request.PageSize (t0.HighestPart + 1 - t0.CurrentPart).toNat
            { HistoryBatches := [], token := t0, numOfEvents := 0 } with
        | error f1 =>
          rw [hrun] at h
          cases h
          exact Or.inr (Or.inl ⟨t0, rfl, hrun⟩)
        | ok st =>
          rw [hrun] at h
          simp only at h
          split at h
          · cases hser : d.serializeToken st.token with
            | error m =>
              rw [hser] at h
              cases h
              exact Or.inr (Or.inr ⟨t0, st, m, rfl, hrun, hser, rfl⟩)
            | ok b => rw [hser] at h; cases h
          · cases h

/-- The ways the starting token fails: a token that does not deserialize, a failed listing, a
listing without a matching part file (or a panic). -/
theorem initialToken_error_inv (d : Deps) (c : Client) (request : GetHistoryRequest)
    (f : Failure) (h : initialToken d c request = .error f) :
    (∃ bytes e, request.NextPageToken = some bytes ∧
      d.deserializeGetHistoryToken bytes = .error e ∧
      f = .err (.InvalidArgument "next page token is corrupted")) ∨
    (request.NextPageToken = none ∧ ∃ m, c.Query = .error m ∧ f = .err (.Unavailable m)) ∨
    (request.NextPageToken = none ∧
      ∃ files, c.Query = .ok files ∧
        (∀ x ∈ files, matchesRequest request.CloseFailoverVersion x = false) ∧
        f = .err (.NotFound "requested workflow history does not exist")) ∨
    f = .panic := by
  unfold initialToken at h
  cases htok : request.NextPageToken with
  | some bytes =>
    rw [htok] at h
    simp only at h
    cases hdes : d.deserializeGetHistoryToken bytes with
    | error e =>
      rw [hdes] at h
      cases h
      exact Or.inl ⟨bytes, e, rfl, hdes, rfl⟩
    | ok t => rw [hdes] at h; cases h
  | none =>
    rw [htok] at h
    simp only at h
    unfold getHighestVersion at h
    cases hq : c.Query with
    | error m =>
      rw [hq] at h
      cases h
      exact Or.inr (Or.inl ⟨rfl, m, rfl, rfl⟩)
    | ok files =>
      rw [hq] at h
      simp only at h
      split at h
      · cases h
      · rename_i hnone
        cases h
        have := (foldl_highestVersion_none request.CloseFailoverVersion files _).mp hnone
        exact Or.inr (Or.inr (Or.inl ⟨rfl, files, rfl, this.2, rfl⟩))
      · cases h
        exact Or.inr (Or.inr (Or.inr rfl))

/-- Without a token, a listing without a matching part file gives `NotFound`. -/
theorem initialToken_notFound (d : Deps) (c : Client) (request : GetHistoryRequest)
    (files : List FileName) (hnone : request.NextPageToken = none) (hq : c.Query = .ok files)
    (hno : ∀ x ∈ files, matchesRequest request.CloseFailoverVersion x = false) :
    initialToken d c request
      = .error (.err (.NotFound "requested workflow history does not exist")) := by
  have hr := (foldl_highestVersion_none request.CloseFailoverVersion files
    { highestVersion := none, highestVersionPart := none, lowestVersionPart := none }).mpr
    ⟨rfl, hno⟩
  unfold initialToken
  rw [hnone]
  simp only [getHighestVersion, hq]
  split
  · rename_i hsome _ _
    rw [hr] at hsome
    cases hsome
  · rfl
  · rename_i hsome _
    exact absurd hr (by
      intro hnone'
      rename_i x _ _
      simp_all)

end gcloud

namespace gcloud

/-! ### Which part the loop of `Get` fails on -/

/-- The inner loop runs through its list without `break outer` exactly when the list is empty
or the events counted stay below the page size; the count is then raised by the events of the
list. -/
theorem rangeBatches_through (PageSize : Int) (l : List History) :
    ∀ st : getState,
      ((rangeBatches PageSize l st).2 = false ↔
        (l = [] ∨ st.numOfEvents + eventCount l < PageSize)) ∧
      ((rangeBatches PageSize l st).2 = false →
        (rangeBatches PageSize l st).1.numOfEvents = st.numOfEvents + eventCount l) := by
  induction l with
  | nil => intro st; simp [rangeBatches, eventCount]
  | cons b rest ih =>
    intro st
    have hnn := eventCount_nonneg rest
    unfold rangeBatches
    simp only
    rw [eventCount_cons]
    split
    · rename_i hge
      split
      · refine ⟨⟨fun h => (by cases h), fun h => ?_⟩, fun h => (by cases h)⟩
        rcases h with h | h
        · cases h
        · omega
      · refine ⟨⟨fun h => (by cases h), fun h => ?_⟩, fun h => (by cases h)⟩
        rcases h with h | h
        · cases h
        · omega
    · rename_i hlt
      obtain ⟨hiff, hnum⟩ := ih
        { HistoryBatches := st.HistoryBatches ++ [b]
          token := { st.token with BatchIdxOffset := st.token.BatchIdxOffset + 1 }
          numOfEvents := st.numOfEvents + b.Events.length }
      simp only at hiff hnum
      refine ⟨⟨fun h => Or.inr ?_, fun h => hiff.mpr ?_⟩, fun h => ?_⟩
      · rcases hiff.mp h with h1 | h1
        · subst h1
          simp only [eventCount_nil]
          omega
        · omega
      · rcases h with h | h
        · cases h
        · exact Or.inr (by omega)
      · rw [hnum h]; ring

/-- The batches read before part `p`, split at the first part. -/
theorem readBefore_succ (d : Deps) (c : Client) (t : getHistoryToken) (p : Int)
    (hlt : t.CurrentPart < p)
    (hle : t.BatchIdxOffset ≤ (decodedPart d c t.CloseFailoverVersion t.CurrentPart).length) :
    readBefore d c t p
      = (decodedPart d c t.CloseFailoverVersion t.CurrentPart).drop t.BatchIdxOffset.toNat
        ++ readBefore d c ⟨t.CloseFailoverVersion, t.HighestPart, t.CurrentPart + 1, 0⟩ p := by
  unfold readBefore
  have hn : (p - t.CurrentPart).toNat = (p - (t.CurrentPart + 1)).toNat + 1 := by omega
  have ho : t.BatchIdxOffset.toNat
      ≤ (decodedPart d c t.CloseFailoverVersion t.CurrentPart).length := by omega
  rw [hn, decodedParts, List.drop_append_of_le_length ho]
  simp

/-- Nothing is read before the part the loop starts on. -/
theorem readBefore_self (d : Deps) (c : Client) (t : getHistoryToken) :
    readBefore d c t t.CurrentPart = [] := by
  simp [readBefore, decodedParts]

end gcloud

namespace gcloud

/-- The arrival at a part depends on the token only through its version, parts and offset. -/
theorem readBefore_congr (d : Deps) (c : Client) (t t' : getHistoryToken) (p : Int)
    (hv : t'.CloseFailoverVersion = t.CloseFailoverVersion)
    (hc : t'.CurrentPart = t.CurrentPart) (ho : t'.BatchIdxOffset = t.BatchIdxOffset) :
    readBefore d c t' p = readBefore d c t p := by
  simp [readBefore, hv, hc, ho]

/-- A service error of the loop of `Get` comes from a part the loop arrived at: the fetch of
that part failed, or the part had no content, or it did not decode. -/
theorem readParts_fails_at (d : Deps) (c : Client) (PageSize : Int) :
    ∀ (fuel : Nat) (st : getState) (e : ServiceError),
      readParts d c PageSize fuel st = .error (.err e) →
      ∃ p, arrivesAt d c PageSize st.numOfEvents st.token p ∧
        partFails d c st.token.CloseFailoverVersion p e := by
  intro fuel
  induction fuel with
  | zero => intro st e h; simp [readParts] at h
  | succ fuel ih =>
    intro st e h
    unfold readParts at h
    split at h
    · rename_i hle
      have hself : arrivesAt d c PageSize st.numOfEvents st.token st.token.CurrentPart :=
        ⟨le_refl _, hle, fun q h1 h2 => absurd h2 (not_lt.mpr h1),
          fun hlt => absurd hlt (lt_irrefl _), Or.inl (readBefore_self d c st.token)⟩
      cases hget : c.Get (constructHistoryFilenameMultipart st.token.CloseFailoverVersion
          st.token.CurrentPart) with
      | error m =>
        rw [hget] at h
        cases h
        exact ⟨_, hself, Or.inl ⟨m, rfl, hget⟩⟩
      | ok ob =>
        cases ob with
        | none =>
          rw [hget] at h
          cases h
          exact ⟨_, hself, Or.inr (Or.inl ⟨rfl, hget⟩)⟩
        | some blob =>
          rw [hget] at h
          simp only at h
          cases hdec : d.DecodeHistories blob with
          | error m =>
            rw [hdec] at h
            cases h
            exact ⟨_, hself, Or.inr (Or.inr ⟨blob, m, rfl, hget, hdec⟩)⟩
          | ok bs =>
            rw [hdec] at h
            simp only at h
            have hdp : decodedPart d c st.token.CloseFailoverVersion st.token.CurrentPart
                = bs := by
              simp only [decodedPart, hget, hdec]
            split at h
            · cases h
            · rename_i hoff
              have hoff0 : 0 ≤ st.token.BatchIdxOffset := by omega
              have hoff1 : st.token.BatchIdxOffset ≤ (bs.length : Int) := by omega
              have hs := rangeBatches_spec PageSize (bs.drop st.token.BatchIdxOffset.toNat) st
              have ht := rangeBatches_through PageSize
                (bs.drop st.token.BatchIdxOffset.toNat) st
              split at h
              · cases h
              · rename_i st1 heq
                rw [heq] at hs ht
                obtain ⟨k, _, _, hv1, hH1, hcase⟩ := hs
                obtain ⟨hiff, hnum⟩ := ht
                simp only at hv1 hH1 hcase hiff hnum
                have hc1 : st1.token.CurrentPart = st.token.CurrentPart := by
                  rcases hcase with ⟨_, _, h3, _⟩ | ⟨hf, _⟩ | ⟨hf, _⟩
                  · exact h3
                  · cases hf
                  · cases hf
                have hnb := hiff.mp trivial
                have hn1 := hnum trivial
                obtain ⟨p, harr, hfail⟩ := ih _ e h
                obtain ⟨hp1, hp2, hread, _, hnb2⟩ := harr
                simp only at hp1 hp2 hread hnb2 hfail
                have hrb : readBefore d c
                    ⟨st1.token.CloseFailoverVersion, st1.token.HighestPart, st1.token.CurrentPart + 1, 0⟩ p
                    = readBefore d c
                      ⟨st.token.CloseFailoverVersion, st.token.HighestPart, st.token.CurrentPart + 1, 0⟩ p :=
                  readBefore_congr d c _ _ p hv1 (by simp only [hc1]) rfl
                rw [hrb] at hnb2
                refine ⟨p, ⟨by omega, by omega, ?_, ?_, ?_⟩, by rw [← hv1]; exact hfail⟩
                · intro q hq1 hq2
                  by_cases hq : q = st.token.CurrentPart
                  · subst hq
                    exact ⟨blob, bs, hget, hdec⟩
                  · have := hread q (by omega) hq2
                    rwa [hv1] at this
                · intro _
                  exact ⟨hoff0, by rw [hdp]; exact hoff1⟩
                · rw [readBefore_succ d c st.token p (by omega) (by rw [hdp]; exact hoff1), hdp]
                  rcases hnb2 with h2 | h2
                  · rw [h2, List.append_nil]
                    exact hnb
                  · right
                    rw [eventCount_append]
                    omega
    · cases h

/-- When the loop of `Get` arrives at a part whose read fails, the loop returns that failure. -/
theorem readParts_fails_of (d : Deps) (c : Client) (PageSize : Int) :
    ∀ (fuel : Nat) (st : getState) (p : Int) (e : ServiceError),
      fuel = (st.token.HighestPart + 1 - st.token.CurrentPart).toNat →
      arrivesAt d c PageSize st.numOfEvents st.token p →
      partFails d c st.token.CloseFailoverVersion p e →
      readParts d c PageSize fuel st = .error (.err e) := by
  intro fuel
  induction fuel with
  | zero =>
    intro st p e hf harr _
    obtain ⟨h1, h2, _⟩ := harr
    omega
  | succ fuel ih =>
    intro st p e hf harr hfail
    obtain ⟨h1, h2, hread, hoff, hnb⟩ := harr
    unfold readParts
    rw [if_pos (by omega)]
    by_cases hp : p = st.token.CurrentPart
    · subst hp
      rcases hfail with ⟨m, rfl, hget⟩ | ⟨rfl, hget⟩ | ⟨blob, m, rfl, hget, hdec⟩
      · simp only [hget]
      · simp only [hget]
      · simp only [hget, hdec]
    · have hlt : st.token.CurrentPart < p := by omega
      obtain ⟨blob, bs, hget, hdec⟩ := hread _ (le_refl _) hlt
      obtain ⟨ho0, ho1⟩ := hoff hlt
      have hdp : decodedPart d c st.token.CloseFailoverVersion st.token.CurrentPart = bs := by
        simp only [decodedPart, hget, hdec]
      rw [readBefore_succ d c st.token p hlt ho1, hdp] at hnb
      rw [hdp] at ho1
      simp only [hget, hdec]
      rw [if_neg (by omega)]
      have hs := rangeBatches_spec PageSize (bs.drop st.token.BatchIdxOffset.toNat) st
      have ht := rangeBatches_through PageSize (bs.drop st.token.BatchIdxOffset.toNat) st
      have hnn := eventCount_nonneg (readBefore d c
        ⟨st.token.CloseFailoverVersion, st.token.HighestPart, st.token.CurrentPart + 1, 0⟩ p)
      have hflag : (rangeBatches PageSize (bs.drop st.token.BatchIdxOffset.toNat) st).2
          = false := by
        apply ht.1.mpr
        rcases hnb with h | h
        · exact Or.inl (List.append_eq_nil.mp h).1
        · rw [eventCount_append] at h
          exact Or.inr (by omega)
      have hn1 := ht.2 hflag
      generalize hr : rangeBatches PageSize (bs.drop st.token.BatchIdxOffset.toNat) st = r
        at hs hflag hn1
      obtain ⟨st1, b⟩ := r
      simp only at hflag hn1
      subst hflag
      obtain ⟨k, _, _, hv1, hH1, hcase⟩ := hs
      simp only at hv1 hH1 hcase
      have hc1 : st1.token.CurrentPart = st.token.CurrentPart := by
        rcases hcase with ⟨_, _, h3, _⟩ | ⟨hf, _⟩ | ⟨hf, _⟩
        · exact h3
        · cases hf
        · cases hf
      simp only
      have hrb : readBefore d c
          ⟨st1.token.CloseFailoverVersion, st1.token.HighestPart, st1.token.CurrentPart + 1, 0⟩ p
          = readBefore d c
            ⟨st.token.CloseFailoverVersion, st.token.HighestPart, st.token.CurrentPart + 1, 0⟩ p :=
        readBefore_congr d c _ _ p hv1 (by simp only [hc1]) rfl
      refine ih _ p e (by simp only; omega) ⟨by simp only; omega, by simp only; omega, ?_, ?_, ?_⟩
        (by simp only; rw [hv1]; exact hfail)
      · intro q hq1 hq2
        simp only at hq1 ⊢
        rw [hv1]
        exact hread q (by omega) hq2
      · intro _
        exact ⟨le_refl _, Int.ofNat_nonneg _⟩
      · simp only
        rw [hrb]
        rcases hnb with h | h
        · exact Or.inl (List.append_eq_nil.mp h).2
        · rw [eventCount_append] at h
          exact Or.inr (by omega)

end gcloud

namespace gcloud

/-- Past the two validations and with its starting token, a failure of the loop is the failure
of `Get`. -/
theorem Get_run_error (d : Deps) (c : Client) (u : URI) (request : GetHistoryRequest)
    (t0 : getHistoryToken) (f : Failure) (huri : ValidateURI c.ExistRoot u = false)
    (hreq : d.ValidateGetRequest request.CloseFailoverVersion request.PageSize = none)
    (h0 : initialToken d c request = .ok t0)
    (hrun : readParts d c request.PageSize (t0.HighestPart + 1 - t0.CurrentPart).toNat
      { HistoryBatches := [], token := t0, numOfEvents := 0 } = .error f) :
    Get d c u request = .error f := by
  unfold Get
  simp [huri, hreq, h0, hrun]

/-- Past the two validations, when the loop ends on a token not past the highest part that does
not serialize, `Get` returns `Internal` with the error of the serialization. -/
theorem Get_run_serialize_error (d : Deps) (c : Client) (u : URI) (request : GetHistoryRequest)
    (t0 : getHistoryToken) (st : getState) (m : GoError)
    (huri : ValidateURI c.ExistRoot u = false)
    (hreq : d.ValidateGetRequest request.CloseFailoverVersion request.PageSize = none)
    (h0 : initialToken d c request = .ok t0)
    (hrun : readParts d c request.PageSize (t0.HighestPart + 1 - t0.CurrentPart).toNat
      { HistoryBatches := [], token := t0, numOfEvents := 0 } = .ok st)
    (hle : st.token.CurrentPart ≤ st.token.HighestPart)
    (hser : d.serializeToken st.token = .error m) :
    Get d c u request = .error (.err (.Internal m)) := by
  unfold Get
  simp [huri, hreq, h0, hrun, hle, hser]

/-- Past the two validations, when the loop ends on a token past the highest part, `Get`
returns the batches without a token. -/
theorem Get_run_end (d : Deps) (c : Client) (u : URI) (request : GetHistoryRequest)
    (t0 : getHistoryToken) (st : getState) (huri : ValidateURI c.ExistRoot u = false)
    (hreq : d.ValidateGetRequest request.CloseFailoverVersion request.PageSize = none)
    (h0 : initialToken d c request = .ok t0)
    (hrun : readParts d c request.PageSize (t0.HighestPart + 1 - t0.CurrentPart).toNat
      { HistoryBatches := [], token := t0, numOfEvents := 0 } = .ok st)
    (hnot : ¬ st.token.CurrentPart ≤ st.token.HighestPart) :
    Get d c u request = .ok { HistoryBatches := st.HistoryBatches, NextPageToken := none } := by
  unfold Get
  simp only [huri, hreq, h0, hrun, if_neg hnot]
  simp

/-- A service error of `Get` other than `InvalidArgument` is returned past the two
validations. -/
theorem Get_error_checks (d : Deps) (c : Client) (u : URI) (request : GetHistoryRequest)
    (e : ServiceError) (h : Get d c u request = .error (.err e))
    (hne : ∀ m, e ≠ .InvalidArgument m) :
    ValidateURI c.ExistRoot u = false ∧
    d.ValidateGetRequest request.CloseFailoverVersion request.PageSize = none := by
  rcases Get_error_inv d c u request _ h with ⟨_, hf⟩ | ⟨_, _, hf⟩ | ⟨huri, hreq, _⟩
  · cases hf; exact absurd rfl (hne _)
  · cases hf; exact absurd rfl (hne _)
  · exact ⟨huri, hreq⟩

end gcloud

namespace gcloud

/-- C17, as stated, fails.  With a well-formed URI, a valid request and no token, an error of
the store's existence check on the root makes `Get` return `InvalidArgument`: a store failure is
reported as invalid input (and not as `Unavailable`). -/
theorem C17_store_failure_reported_invalid_argument :
    validateURI sampleURI = none ∧
    sampleDeps.ValidateGetRequest sampleRequest.CloseFailoverVersion sampleRequest.PageSize
      = none ∧
    sampleRequest.NextPageToken = none ∧
    unreachableClient.ExistRoot = some "bucket is not reachable" ∧
    Get sampleDeps unreachableClient sampleURI sampleRequest
      = .error (.err (.InvalidArgument "URI is invalid")) :=
  ⟨rfl, rfl, rfl, rfl, rfl⟩

/-- C17, amended.  Every error of `Get` is classified by the step that failed.
(1) `ValidateURI` fails exactly when the URI has the wrong scheme or shape or the store's
existence check on the root returns an error.  (2) `InvalidArgument` is returned exactly when
`ValidateURI` fails, the request does not validate, or the continuation token does not
deserialize.  (3) `NotFound` is returned exactly when these checks pass, no token is given, and
the listing succeeds without a part file that matches the request.  (4) `Unavailable` with the
error `m` is returned exactly when the checks pass and either no token is given and the listing
fails with `m`, or the loop, started from the starting token, arrives at a part whose fetch
fails with `m`; in particular (5) always when the checks pass, no token is given and the listing
fails.  (6) `Internal` is returned exactly when the checks pass, the starting token is found,
and either the loop arrives at a part that has no content or does not decode (with the
decoder's error), or the loop ends on a token not past the highest part that does not
serialize. -/
theorem C17_get_error_classes (d : Deps) (c : Client) (u : URI) (request : GetHistoryRequest) :
    (ValidateURI c.ExistRoot u = true ↔ (validateURI u).isSome ∨ c.ExistRoot.isSome) ∧
    ((∃ m, Get d c u request = .error (.err (.InvalidArgument m))) ↔
      (ValidateURI c.ExistRoot u = true ∨
       (d.ValidateGetRequest request.CloseFailoverVersion request.PageSize).isSome ∨
       ∃ bytes e, request.NextPageToken = some bytes ∧
         d.deserializeGetHistoryToken bytes = .error e)) ∧
    ((∃ m, Get d c u request = .error (.err (.NotFound m))) ↔
      (ValidateURI c.ExistRoot u = false ∧
       d.ValidateGetRequest request.CloseFailoverVersion request.PageSize = none ∧
       request.NextPageToken = none ∧
       ∃ files, c.Query = .ok files ∧
         ∀ x ∈ files, matchesRequest request.CloseFailoverVersion x = false)) ∧
    (∀ m, Get d c u request = .error (.err (.Unavailable m)) ↔
      (ValidateURI c.ExistRoot u = false ∧
       d.ValidateGetRequest request.CloseFailoverVersion request.PageSize = none ∧
       ((request.NextPageToken = none ∧ c.Query = .error m) ∨
        ∃ t0 p, initialToken d c request = .ok t0 ∧
          arrivesAt d c request.PageSize 0 t0 p ∧
          c.Get (constructHistoryFilenameMultipart t0.CloseFailoverVersion p) = .error m))) ∧
    (ValidateURI c.ExistRoot u = false →
      d.ValidateGetRequest request.CloseFailoverVersion request.PageSize = none →
      request.NextPageToken = none → ∀ m, c.Query = .error m →
      Get d c u request = .error (.err (.Unavailable m))) ∧
    (∀ m, Get d c u request = .error (.err (.Internal m)) ↔
      (ValidateURI c.ExistRoot u = false ∧
       d.ValidateGetRequest request.CloseFailoverVersion request.PageSize = none ∧
       ∃ t0, initialToken d c request = .ok t0 ∧
         ((∃ p, arrivesAt d c request.PageSize 0 t0 p ∧
            ((c.Get (constructHistoryFilenameMultipart t0.CloseFailoverVersion p) = .ok none ∧
                m = "Fail retrieving history file") ∨
             ∃ blob,
               c.Get (constructHistoryFilenameMultipart t0.CloseFailoverVersion p)
                 = .ok (some blob) ∧
               d.DecodeHistories blob = .error m)) ∨
          ∃ st, readParts d c request.PageSize (t0.HighestPart + 1 - t0.CurrentPart).toNat
              { HistoryBatches := [], token := t0, numOfEvents := 0 } = .ok st ∧
            st.token.CurrentPart ≤ st.token.HighestPart ∧
            d.serializeToken st.token = .error m))) := by
  refine ⟨?_, ⟨?_, ?_⟩, ⟨?_, ?_⟩, fun m => ⟨?_, ?_⟩, ?_, fun m => ⟨?_, ?_⟩⟩
  · -- (1)
    unfold ValidateURI
    cases validateURI u with
    | none => simp
    | some e => simp
  · -- (2), only if
    rintro ⟨m, h⟩
    rcases Get_error_inv d c u request _ h with ⟨huri, _⟩ | ⟨_, hreq, _⟩ | ⟨_, _, h0 | h1 | h2⟩
    · exact Or.inl huri
    · exact Or.inr (Or.inl hreq)
    · rcases initialToken_error_inv d c request _ h0 with
        ⟨bytes, e, htok, hdes, _⟩ | ⟨_, _, _, hf⟩ | ⟨_, _, _, _, hf⟩ | hf
      · exact Or.inr (Or.inr ⟨bytes, e, htok, hdes⟩)
      · cases hf
      · cases hf
      · cases hf
    · obtain ⟨t0, _, hrun⟩ := h1
      rcases readParts_error d c request.PageSize _ _ _ hrun with
        hf | ⟨_, _, hf, _⟩ | ⟨_, _, hf, _⟩
      · cases hf
      · cases hf
      · cases hf
    · obtain ⟨_, _, _, _, _, _, hf⟩ := h2
      cases hf
  · -- (2), if
    intro h
    by_cases huri : ValidateURI c.ExistRoot u = true
    · exact ⟨_, by unfold Get; rw [if_pos huri]⟩
    · by_cases hreq : (d.ValidateGetRequest request.CloseFailoverVersion
          request.PageSize).isSome = true
      · exact ⟨_, by unfold Get; rw [if_neg huri, if_pos hreq]⟩
      · rcases h with h | h | ⟨bytes, e, htok, hdes⟩
        · exact absurd h huri
        · exact absurd h hreq
        · refine ⟨"next page token is corrupted", ?_⟩
          unfold Get
          rw [if_neg huri, if_neg hreq]
          simp [initialToken, htok, hdes]
  · -- (3), only if
    rintro ⟨m, h⟩
    rcases Get_error_inv d c u request _ h with ⟨_, hf⟩ | ⟨_, _, hf⟩ | ⟨huri, hreq, h0 | h1 | h2⟩
    · cases hf
    · cases hf
    · rcases initialToken_error_inv d c request _ h0 with
        ⟨_, _, _, _, hf⟩ | ⟨_, _, _, hf⟩ | ⟨htok, files, hq, hno, _⟩ | hf
      · cases hf
      · cases hf
      · exact ⟨huri, hreq, htok, files, hq, hno⟩
      · cases hf
    · obtain ⟨t0, _, hrun⟩ := h1
      rcases readParts_error d c request.PageSize _ _ _ hrun with
        hf | ⟨_, _, hf, _⟩ | ⟨_, _, hf, _⟩
      · cases hf
      · cases hf
      · cases hf
    · obtain ⟨_, _, _, _, _, _, hf⟩ := h2
      cases hf
  · -- (3), if
    rintro ⟨huri, hreq, htok, files, hq, hno⟩
    refine ⟨"requested workflow history does not exist", ?_⟩
    unfold Get
    rw [huri, hreq, initialToken_notFound d c request files htok hq hno]
    simp
  · -- (4), only if
    intro h
    obtain ⟨huri, hreq⟩ := Get_error_checks d c u request _ h (fun _ he => by cases he)
    refine ⟨huri, hreq, ?_⟩
    rcases Get_error_inv d c u request _ h with ⟨_, hf⟩ | ⟨_, _, hf⟩ | ⟨_, _, h0 | h1 | h2⟩
    · cases hf
    · cases hf
    · rcases initialToken_error_inv d c request _ h0 with
        ⟨_, _, _, _, hf⟩ | ⟨htok, m', hq, hf⟩ | ⟨_, _, _, _, hf⟩ | hf
      · cases hf
      · cases hf
        exact Or.inl ⟨htok, hq⟩
      · cases hf
      · cases hf
    · obtain ⟨t0, h0, hrun⟩ := h1
      obtain ⟨p, harr, hfail⟩ := readParts_fails_at d c request.PageSize _ _ _ hrun
      rcases hfail with ⟨m', he, hget⟩ | ⟨he, _⟩ | ⟨_, _, he, _⟩
      · cases he
        exact Or.inr ⟨t0, p, h0, harr, hget⟩
      · cases he
      · cases he
    · obtain ⟨_, _, _, _, _, _, hf⟩ := h2
      cases hf
  · -- (4), if
    rintro ⟨huri, hreq, ⟨htok, hq⟩ | ⟨t0, p, h0, harr, hget⟩⟩
    · unfold Get
      rw [huri, hreq]
      simp [initialToken, htok, getHighestVersion, hq]
    · exact Get_run_error d c u request t0 _ huri hreq h0
        (readParts_fails_of d c request.PageSize _
          { HistoryBatches := [], token := t0, numOfEvents := 0 } p (.Unavailable m) rfl harr
          (Or.inl ⟨m, rfl, hget⟩))
  · -- (5)
    intro huri hreq htok m hq
    unfold Get
    rw [huri, hreq]
    simp [initialToken, htok, getHighestVersion, hq]
  · -- (6), only if
    intro h
    obtain ⟨huri, hreq⟩ := Get_error_checks d c u request _ h (fun _ he => by cases he)
    refine ⟨huri, hreq, ?_⟩
    rcases Get_error_inv d c u request _ h with ⟨_, hf⟩ | ⟨_, _, hf⟩ | ⟨_, _, h0 | h1 | h2⟩
    · cases hf
    · cases hf
    · rcases initialToken_error_inv d c request _ h0 with
        ⟨_, _, _, _, hf⟩ | ⟨_, _, _, hf⟩ | ⟨_, _, _, _, hf⟩ | hf
      · cases hf
      · cases hf
      · cases hf
      · cases hf
    · obtain ⟨t0, h0, hrun⟩ := h1
      obtain ⟨p, harr, hfail⟩ := readParts_fails_at d c request.PageSize _ _ _ hrun
      refine ⟨t0, h0, Or.inl ⟨p, harr, ?_⟩⟩
      rcases hfail with ⟨_, he, _⟩ | ⟨he, hget⟩ | ⟨blob, m', he, hget, hdec⟩
      · cases he
      · cases he
        exact Or.inl ⟨hget, rfl⟩
      · cases he
        exact Or.inr ⟨blob, hget, hdec⟩
    · obtain ⟨t0, st, m', h0, hrun, hser, hf⟩ := h2
      cases hf
      refine ⟨t0, h0, Or.inr ⟨st, hrun, ?_, hser⟩⟩
      by_contra hnot
      rw [Get_run_end d c u request t0 st huri hreq h0 hrun hnot] at h
      cases h
  · -- (6), if
    rintro ⟨huri, hreq, t0, h0, ⟨p, harr, hcause⟩ | ⟨st, hrun, hle, hser⟩⟩
    · rcases hcause with ⟨hget, hm⟩ | ⟨blob, hget, hdec⟩
      · exact Get_run_error d c u request t0 _ huri hreq h0
          (readParts_fails_of d c request.PageSize _
            { HistoryBatches := [], token := t0, numOfEvents := 0 } p (.Internal m) rfl harr
            (Or.inr (Or.inl ⟨by rw [hm], hget⟩)))
      · exact Get_run_error d c u request t0 _ huri hreq h0
          (readParts_fails_of d c request.PageSize _
            { HistoryBatches := [], token := t0, numOfEvents := 0 } p (.Internal m) rfl harr
            (Or.inr (Or.inr ⟨blob, m, rfl, hget, hdec⟩)))
    · exact Get_run_serialize_error d c u request t0 st m huri hreq h0 hrun hle hser

/-- Witness of C17 (amended): on the sample store behind a bucket whose existence check fails,
`ValidateURI` fails and `Get` returns `InvalidArgument`; on the store whose part 1 cannot be
fetched, the loop reads part 0 (6 events, below the page size of 10), arrives at part 1, and
`Get` returns `Unavailable` with the error of the fetch. -/
theorem C17_get_error_classes_witness :
    (∃ m, Get sampleDeps unreachableClient sampleURI sampleRequest
      = .error (.err (.InvalidArgument m))) ∧
    Get sampleDeps stalledClient sampleURI sampleRequest
      = .error (.err (.Unavailable "timeout")) :=
  ⟨(C17_get_error_classes sampleDeps unreachableClient sampleURI sampleRequest).2.1.mpr
    (Or.inl ((C17_get_error_classes sampleDeps unreachableClient sampleURI sampleRequest).1.mpr
      (Or.inr rfl))),
   ((C17_get_error_classes sampleDeps stalledClient sampleURI sampleRequest).2.2.2.1
      "timeout").mpr
    ⟨rfl, rfl, Or.inr ⟨cutToken, 1, rfl,
      ⟨by decide, by decide,
        fun q h1 h2 => by
          have hq : q = 0 := by
            have h1' : (0 : Int) ≤ q := h1
            have h2' : q < 1 := h2
            omega
          subst hq
          exact ⟨[6], _, rfl, rfl⟩,
        fun _ => ⟨by decide, by decide⟩, Or.inr (by decide)⟩, rfl⟩⟩⟩

end gcloud

namespace matching

/-! ### Ack levels and read levels -/

theorem set_self (l : List dbSubqueue) (i : Nat) (s : dbSubqueue) (h : l[i]? = some s) :
    l.set i s = l := by
  apply List.ext_getElem?
  intro j
  by_cases hij : i = j
  · subst hij
    rw [h]
    have hlt : i < l.length := by
      by_contra hge
      rw [List.getElem?_eq_none (by omega)] at h
      cases h
    simp [List.getElem?_set_self, hlt]
  · simp [List.getElem?_set_ne hij]

/-- What `updateAckLevelAndBacklogStats` does to an existing subqueue: it returns, touches only
that subqueue, stores the new ack level, keeps the read level, and when the new ack level is the
read level leaves the count 0 and the oldest time equal to its argument. -/
theorem updateAckLevelAndBacklogStats_shape (db : taskQueueDB) (subqueue : Nat)
    (newAckLevel countDelta : Int) (oldestTime now : Time) (dbQueue : dbSubqueue)
    (hs : db.subqueues[subqueue]? = some dbQueue) :
    ∃ db' s', db.updateAckLevelAndBacklogStats subqueue newAckLevel countDelta oldestTime now
        = some db' ∧
      db'.subqueues = db.subqueues.set subqueue s' ∧
      db'.rangeID = db.rangeID ∧ db'.config = db.config ∧
      s'.AckLevel = newAckLevel ∧ s'.maxReadLevel = dbQueue.maxReadLevel ∧
      (newAckLevel = dbQueue.maxReadLevel →
        s'.ApproximateBacklogCount = 0 ∧ s'.oldestTime = oldestTime) := by
  have hlt : subqueue < db.subqueues.length := by
    by_contra hge
    rw [List.getElem?_eq_none (by omega)] at hs
    cases hs
  unfold taskQueueDB.updateAckLevelAndBacklogStats
  rw [hs]
  simp only
  by_cases hack : dbQueue.AckLevel = newAckLevel
  · rw [if_neg (not_not.mpr hack), if_neg (not_not.mpr hack)]
    by_cases hmax : newAckLevel = dbQueue.maxReadLevel
    · rw [if_pos hmax]
      by_cases hch : dbQueue.ApproximateBacklogCount ≠ 0 ∨ dbQueue.oldestTime ≠ oldestTime
      · rw [if_pos hch]
        exact ⟨_, { dbQueue with ApproximateBacklogCount := 0, oldestTime := oldestTime }, rfl,
          rfl, rfl, rfl, hack, rfl, fun _ => ⟨rfl, rfl⟩⟩
      · rw [if_neg hch]
        push_neg at hch
        exact ⟨_, dbQueue, rfl, (set_self _ _ _ hs).symm, rfl, rfl, hack, rfl, fun _ => hch⟩
    · rw [if_neg hmax]
      by_cases hd : countDelta ≠ 0
      · rw [if_pos hd]
        simp only [taskQueueDB.updateBacklogStatsLocked, hs]
        exact ⟨_, _, rfl, rfl, rfl, rfl, hack, rfl, fun h => absurd h hmax⟩
      · rw [if_neg hd]
        exact ⟨_, dbQueue, rfl, (set_self _ _ _ hs).symm, rfl, rfl, hack, rfl,
          fun h => absurd h hmax⟩
  · rw [if_pos hack, if_pos hack]
    by_cases hmax : newAckLevel = dbQueue.maxReadLevel
    · rw [if_pos hmax]
      by_cases hch : dbQueue.ApproximateBacklogCount ≠ 0 ∨ dbQueue.oldestTime ≠ oldestTime
      · rw [if_pos hch]
        exact ⟨_, { dbQueue with AckLevel := newAckLevel, ApproximateBacklogCount := 0,
                                 oldestTime := oldestTime }, rfl, by simp [List.set_set], rfl,
          rfl, rfl, rfl, fun _ => ⟨rfl, rfl⟩⟩
      · rw [if_neg hch]
        push_neg at hch
        exact ⟨_, { dbQueue with AckLevel := newAckLevel }, rfl, rfl, rfl, rfl, rfl, rfl,
          fun _ => hch⟩
    · rw [if_neg hmax]
      by_cases hd : countDelta ≠ 0
      · rw [if_pos hd]
        simp only [taskQueueDB.updateBacklogStatsLocked, List.getElem?_set_self hlt,
          List.set_set]
        exact ⟨_, _, rfl, rfl, rfl, rfl, rfl, rfl, fun h => absurd h hmax⟩
      · rw [if_neg hd]
        exact ⟨_, { dbQueue with AckLevel := newAckLevel }, rfl, rfl, rfl, rfl, rfl, rfl,
          fun h => absurd h hmax⟩

end matching

namespace matching

/-- C19 (what the code does).  When `updateAckLevelAndBacklogStats` is called on an existing
subqueue with a new ack level equal to the subqueue's `maxReadLevel`, it returns with the
backlog count of the subqueue 0 and its oldest-task time equal to the `oldestTime` argument,
whatever that argument and `countDelta` are: the time is the zero time only when the caller
passes the zero time. -/
theorem C19_oldestTime_set_to_argument (db : taskQueueDB) (subqueue : Nat)
    (newAckLevel countDelta : Int) (oldestTime now : Time) (dbQueue : dbSubqueue)
    (hs : db.subqueues[subqueue]? = some dbQueue)
    (hmax : newAckLevel = dbQueue.maxReadLevel) :
    ∃ db' s', db.updateAckLevelAndBacklogStats subqueue newAckLevel countDelta oldestTime now
        = some db' ∧
      db'.subqueues[subqueue]? = some s' ∧
      s'.ApproximateBacklogCount = 0 ∧ s'.oldestTime = oldestTime := by
  obtain ⟨db', s', hrun, hsub, _, _, _, _, hzero⟩ :=
    updateAckLevelAndBacklogStats_shape db subqueue newAckLevel countDelta oldestTime now
      dbQueue hs
  have hlt : subqueue < db.subqueues.length := by
    by_contra hge
    rw [List.getElem?_eq_none (by omega)] at hs
    cases hs
  refine ⟨db', s', hrun, ?_, (hzero hmax).1, (hzero hmax).2⟩
  rw [hsub, List.getElem?_set_self hlt]

/-- Witness of C19: on the freshly created queue (ack level and read level 0), the call with new
ack level 0 and oldest time 5 leaves the count 0 and the oldest time 5, not the zero time. -/
theorem C19_oldestTime_set_to_argument_witness :
    ∃ db' s', freshDB.updateAckLevelAndBacklogStats 0 0 3 5 9 = some db' ∧
      db'.subqueues[0]? = some s' ∧ s'.ApproximateBacklogCount = 0 ∧ s'.oldestTime = 5 :=
  C19_oldestTime_set_to_argument freshDB 0 0 3 5 9 _ rfl rfl

end matching

namespace matching

/-- The read level the `updates` map of `CreateTasks` holds for a subqueue is the id of one of
the tasks of the batch that go to that subqueue. -/
theorem collectUpdates_after (db : taskQueueDB) :
    ∀ (reqs : List writeTaskRequest) (u u' : IntMap subqueueCreateTasksResponse),
      collectUpdates db reqs u = some u' →
      ∀ sq v, u' sq = some v →
        u sq = some v ∨ ∃ req ∈ reqs, req.subqueue = sq ∧ v.maxReadLevelAfter = req.id := by
  intro reqs
  induction reqs with
  | nil =>
    intro u u' h sq v hv
    simp only [collectUpdates, Option.some.injEq] at h
    subst h
    exact Or.inl hv
  | cons req rest ih =>
    intro u u' h sq v hv
    unfold collectUpdates at h
    cases hs : db.subqueues[req.subqueue]? with
    | none => rw [hs] at h; cases h
    | some s =>
      rw [hs] at h
      simp only at h
      rcases ih _ u' h sq v hv with h1 | ⟨r, hr, hrs, hrv⟩
      · by_cases heq : sq = req.subqueue
        · simp only [IntMap.set, heq, if_true, Option.some.injEq] at h1
          refine Or.inr ⟨req, List.mem_cons_self _ _, heq.symm, ?_⟩
          rw [← h1]
        · simp only [IntMap.set, heq, if_false] at h1
          exact Or.inl h1
      · exact Or.inr ⟨r, List.mem_cons_of_mem _ hr, hrs, hrv⟩

/-- What `CreateTasks` does to the subqueues: every subqueue keeps its ack level, and either is
left as it was or has its read level set to the id of a task of the batch that goes to it. -/
theorem CreateTasks_shape (db db' : taskQueueDB) (reqs : List writeTaskRequest) (now : Time)
    (result : Except StoreError CreateTasksResponse)
    (updates : IntMap subqueueCreateTasksResponse) (err : Option StoreError)
    (h : db.CreateTasks reqs now result = some (db', updates, err)) :
    db'.rangeID = db.rangeID ∧ db'.config = db.config ∧
    ∀ i s', db'.subqueues[i]? = some s' →
      ∃ s, db.subqueues[i]? = some s ∧ s'.AckLevel = s.AckLevel ∧
        (s' = s ∨ ∃ req ∈ reqs, req.subqueue = i ∧ s'.maxReadLevel = req.id) := by
  unfold taskQueueDB.CreateTasks at h
  by_cases hemp : reqs.isEmpty = true
  · rw [if_pos hemp] at h
    simp only [Option.some.injEq, Prod.mk.injEq] at h
    obtain ⟨hdb, _, _⟩ := h
    subst hdb
    exact ⟨rfl, rfl, fun i s' hs' => ⟨s', hs', rfl, Or.inl rfl⟩⟩
  · rw [if_neg hemp] at h
    cases hu : collectUpdates db reqs (fun _ => none) with
    | none => rw [hu] at h; cases h
    | some u =>
      rw [hu] at h
      simp only at h
      have hafter := collectUpdates_after db reqs _ u hu
      have key : ∀ (i : Nat) (s' : dbSubqueue)
          (g : subqueueCreateTasksResponse → dbSubqueue → dbSubqueue),
          (∀ v s, (g v s).AckLevel = s.AckLevel ∧ (g v s).maxReadLevel = v.maxReadLevelAfter) →
          (db.subqueues[i]?).map (fun s => (u i).elim s (fun v => g v s)) = some s' →
          ∃ s, db.subqueues[i]? = some s ∧ s'.AckLevel = s.AckLevel ∧
            (s' = s ∨ ∃ req ∈ reqs, req.subqueue = i ∧ s'.maxReadLevel = req.id) := by
        intro i s' g hg hmap
        cases hsi : db.subqueues[i]? with
        | none => rw [hsi] at hmap; cases hmap
        | some s =>
          rw [hsi] at hmap
          simp only [Option.map_some', Option.some.injEq] at hmap
          refine ⟨s, rfl, ?_⟩
          cases hui : u i with
          | none =>
            rw [hui] at hmap
            simp only [Option.elim] at hmap
            subst hmap
            exact ⟨rfl, Or.inl rfl⟩
          | some v =>
            rw [hui] at hmap
            simp only [Option.elim] at hmap
            subst hmap
            refine ⟨(hg v s).1, Or.inr ?_⟩
            rcases hafter i v hui with hnone | ⟨req, hreq, hsq, hid⟩
            · cases hnone
            · exact ⟨req, hreq, hsq, by rw [(hg v s).2, hid]⟩
      cases result with
      | ok resp =>
        simp only [Option.some.injEq, Prod.mk.injEq] at h
        obtain ⟨hdb, _, _⟩ := h
        subst hdb
        refine ⟨by split <;> rfl, by split <;> rfl, ?_⟩
        intro i s' hs'
        have hsub : (if resp.UpdatedMetadata = true then
            ({ db with subqueues := (rangeOverMap u
                (fun update s => s.setMaxReadLevel update.maxReadLevelAfter)
                (rangeOverMap u (fun update s => s.addBacklog update.tasks.length)
                  db.subqueues)), lastWrite := now } : taskQueueDB)
            else { db with subqueues := (rangeOverMap u
                (fun update s => s.setMaxReadLevel update.maxReadLevelAfter)
                (rangeOverMap u (fun update s => s.addBacklog update.tasks.length)
                  db.subqueues)) }).subqueues
            = rangeOverMap u (fun update s => s.setMaxReadLevel update.maxReadLevelAfter)
                (rangeOverMap u (fun update s => s.addBacklog update.tasks.length)
                  db.subqueues) := by
          split <;> rfl
        rw [hsub, getElem?_rangeOverMap₂] at hs'
        exact key i s'
          (fun v s => (s.addBacklog v.tasks.length).setMaxReadLevel v.maxReadLevelAfter)
          (fun v s => ⟨rfl, rfl⟩) hs'
      | error e =>
        cases e with
        | ConditionFailed msg =>
          simp only [Option.some.injEq, Prod.mk.injEq] at h
          obtain ⟨hdb, _, _⟩ := h
          subst hdb
          refine ⟨rfl, rfl, ?_⟩
          intro i s' hs'
          simp only at hs'
          rw [getElem?_rangeOverMap₃] at hs'
          exact key i s'
            (fun v s => ((s.addBacklog v.tasks.length).setMaxReadLevel
              v.maxReadLevelAfter).subBacklog v.tasks.length)
            (fun v s => ⟨rfl, rfl⟩) hs'
        | NotFound msg =>
          simp only [Option.some.injEq, Prod.mk.injEq] at h
          obtain ⟨hdb, _, _⟩ := h
          subst hdb
          refine ⟨rfl, rfl, ?_⟩
          intro i s' hs'
          simp only at hs'
          rw [getElem?_rangeOverMap₂] at hs'
          exact key i s'
            (fun v s => (s.addBacklog v.tasks.length).setMaxReadLevel v.maxReadLevelAfter)
            (fun v s => ⟨rfl, rfl⟩) hs'
        | Other msg =>
          simp only [Option.some.injEq, Prod.mk.injEq] at h
          obtain ⟨hdb, _, _⟩ := h
          subst hdb
          refine ⟨rfl, rfl, ?_⟩
          intro i s' hs'
          simp only at hs'
          rw [getElem?_rangeOverMap₂] at hs'
          exact key i s'
            (fun v s => (s.addBacklog v.tasks.length).setMaxReadLevel v.maxReadLevelAfter)
            (fun v s => ⟨rfl, rfl⟩) hs'

end matching

namespace matching

theorem caughtUpEmpty_set (l : List dbSubqueue) (i : Nat) (s : dbSubqueue)
    (hl : ∀ x ∈ l, x.caughtUpEmpty) (hs : s.caughtUpEmpty) :
    ∀ x ∈ l.set i s, x.caughtUpEmpty := by
  intro x hx
  rcases List.mem_or_eq_of_mem_set hx with h | h
  · exact hl x h
  · rw [h]; exact hs

/-- An ack-level update that does not pass the read level keeps `caughtUpEmpty`. -/
theorem updateAckLevelAndBacklogStats_caughtUpEmpty (db db' : taskQueueDB) (subqueue : Nat)
    (newAckLevel countDelta : Int) (oldestTime now : Time) (h0 : db.caughtUpEmpty)
    (hin : ∀ s, db.subqueues[subqueue]? = some s → newAckLevel ≤ s.maxReadLevel)
    (h : db.updateAckLevelAndBacklogStats subqueue newAckLevel countDelta oldestTime now
      = some db') : db'.caughtUpEmpty := by
  cases hs : db.subqueues[subqueue]? with
  | none =>
    unfold taskQueueDB.updateAckLevelAndBacklogStats at h
    rw [hs] at h
    cases h
  | some dbQueue =>
    obtain ⟨db'', s', hrun, hsub, _, _, hack, hmax, hzero⟩ :=
      updateAckLevelAndBacklogStats_shape db subqueue newAckLevel countDelta oldestTime now
        dbQueue hs
    rw [h] at hrun
    cases hrun
    unfold taskQueueDB.caughtUpEmpty
    rw [hsub]
    refine caughtUpEmpty_set _ _ _ h0 ⟨?_, ?_⟩
    · rw [hack, hmax]; exact hin dbQueue hs
    · intro heq
      rw [hack, hmax] at heq
      exact (hzero heq).1

/-- A creation of tasks with ids above the read levels keeps `caughtUpEmpty`. -/
theorem CreateTasks_caughtUpEmpty (db db' : taskQueueDB) (reqs : List writeTaskRequest)
    (now : Time) (result : Except StoreError CreateTasksResponse)
    (updates : IntMap subqueueCreateTasksResponse) (err : Option StoreError)
    (h0 : db.caughtUpEmpty)
    (hin : ∀ req ∈ reqs, ∀ s, db.subqueues[req.subqueue]? = some s → s.maxReadLevel < req.id)
    (h : db.CreateTasks reqs now result = some (db', updates, err)) : db'.caughtUpEmpty := by
  obtain ⟨_, _, hshape⟩ := CreateTasks_shape db db' reqs now result updates err h
  intro s' hs'
  obtain ⟨i, hi⟩ := List.mem_iff_getElem?.mp hs'
  obtain ⟨s, hs, hack, hcase⟩ := hshape i s' hi
  have hs0 := h0 s (List.getElem?_mem hs)
  rcases hcase with heq | ⟨req, hreq, hsq, hid⟩
  · rw [heq]; exact hs0
  · have hlt := hin req hreq s (by rw [hsq]; exact hs)
    unfold dbSubqueue.caughtUpEmpty at hs0 ⊢
    rw [hack, hid]
    exact ⟨by omega, fun heq => by omega⟩

/-- C18, as stated, fails.  On the freshly created queue (ack level, read level and count 0), an
ack-level update to level 1 followed by the creation of the task with id 1, which the store
accepts, leaves the subqueue with ack level 1, read level 1 and a backlog count of 1. -/
theorem C18_caught_up_with_backlog :
    freshDB.subqueues.map (fun s => (s.AckLevel, s.maxReadLevel, s.ApproximateBacklogCount))
      = [(0, 0, 0)] ∧
    (freshDB.applyAll
        [.updateAckLevelAndBacklogStats 0 1 0 0 8,
         .CreateTasks [{ subqueue := 0, id := 1, pass := 0, fairLevel := ⟨0, 0⟩ }] 9
            (.ok { UpdatedMetadata := false })]).map
      (fun db => db.subqueues.map
        (fun s => (s.AckLevel, s.maxReadLevel, s.ApproximateBacklogCount)))
      = some [(1, 1, 1)] := by
  constructor
  · decide
  · decide

/-- C18, amended.  Start from a state in which every subqueue has its ack level at or below its
read level and counts no backlog when the two are equal (the freshly created partition is one).
After any sequence of `CreateTasks` calls (any store outcome) that write task ids above the read
level of their subqueue, and of `updateAckLevelAndBacklogStats` calls whose new ack level is not
above the read level of the subqueue (count delta and oldest time arbitrary), provided no call
panics, every subqueue whose `AckLevel` equals its `maxReadLevel` has `ApproximateBacklogCount`
exactly 0. -/
theorem C18_caught_up_subqueue_empty (ops : List BacklogOp) :
    ∀ (db db' : taskQueueDB), db.caughtUpEmpty → db.inOrderAll ops →
      db.applyAll ops = some db' →
      ∀ s ∈ db'.subqueues, s.AckLevel = s.maxReadLevel → s.ApproximateBacklogCount = 0 := by
  induction ops with
  | nil =>
    intro db db' h0 _ h s hs
    simp only [taskQueueDB.applyAll, Option.some.injEq] at h
    subst h
    exact (h0 s hs).2
  | cons op rest ih =>
    intro db db' h0 hin h
    unfold taskQueueDB.applyAll at h
    cases hop : db.apply op with
    | none => rw [hop] at h; cases h
    | some db1 =>
      rw [hop] at h
      refine ih db1 db' ?_ (hin.2 db1 hop) h
      cases op with
      | CreateTasks reqs now result =>
        simp only [taskQueueDB.apply] at hop
        cases hc : db.CreateTasks reqs now result with
        | none => rw [hc] at hop; cases hop
        | some r =>
          obtain ⟨d1, u, e⟩ := r
          rw [hc] at hop
          simp only [Option.map_some', Option.some.injEq] at hop
          subst hop
          exact CreateTasks_caughtUpEmpty db d1 reqs now result u e h0 hin.1 hc
      | updateAckLevelAndBacklogStats subqueue newAckLevel countDelta oldestTime now =>
        exact updateAckLevelAndBacklogStats_caughtUpEmpty db db1 subqueue newAckLevel
          countDelta oldestTime now h0 hin.1 hop
      | CreateFairTasks reqs now result => exact absurd hin.1 (by simp [BacklogOp.inOrder])
      | updateFairAckLevel subqueue newAckLevel countDelta knownCount oldestTime now =>
        exact absurd hin.1 (by simp [BacklogOp.inOrder])
      | updateBacklogStats countDelta oldestTime now =>
        exact absurd hin.1 (by simp [BacklogOp.inOrder])

end matching

namespace matching

/-- Witness of C18 (amended): on the freshly created queue, the creation of the task with id 1
and the ack-level update to level 1 leave ack level 1, read level 1 and count 0. -/
theorem C18_caught_up_subqueue_empty_witness :
    (freshDB.applyAll
        [.CreateTasks [{ subqueue := 0, id := 1, pass := 0, fairLevel := ⟨0, 0⟩ }] 8
            (.ok { UpdatedMetadata := false }),
         .updateAckLevelAndBacklogStats 0 1 (-1) 0 9]).map
      (fun db => db.subqueues.map
        (fun s => (s.AckLevel, s.maxReadLevel, s.ApproximateBacklogCount)))
      = some [(1, 1, 0)] ∧
    ∀ db', freshDB.applyAll
        [.CreateTasks [{ subqueue := 0, id := 1, pass := 0, fairLevel := ⟨0, 0⟩ }] 8
            (.ok { UpdatedMetadata := false }),
         .updateAckLevelAndBacklogStats 0 1 (-1) 0 9] = some db' →
      ∀ s ∈ db'.subqueues, s.AckLevel = s.maxReadLevel → s.ApproximateBacklogCount = 0 := by
  refine ⟨by decide, fun db' h => ?_⟩
  refine C18_caught_up_subqueue_empty _ freshDB db'
    (by unfold taskQueueDB.caughtUpEmpty dbSubqueue.caughtUpEmpty; decide) ?_ h
  refine ⟨?_, fun db1 h1 => ⟨?_, fun db2 _ => trivial⟩⟩
  · intro req hreq s hs
    simp only [List.mem_singleton] at hreq
    subst hreq
    have hl : freshDB.subqueues.map (fun s => s.maxReadLevel) = [0] := by decide
    have hmem : s.maxReadLevel ∈ freshDB.subqueues.map (fun s => s.maxReadLevel) :=
      List.mem_map.mpr ⟨s, List.getElem?_mem hs, rfl⟩
    rw [hl] at hmem
    simp only [List.mem_singleton] at hmem
    rw [hmem]
    decide
  · intro s hs
    have hl : db1.subqueues.map (fun s => s.maxReadLevel) = [1] := by
      have : (freshDB.apply (.CreateTasks
          [{ subqueue := 0, id := 1, pass := 0, fairLevel := ⟨0, 0⟩ }] 8
          (.ok { UpdatedMetadata := false }))).map
          (fun db => db.subqueues.map (fun s => s.maxReadLevel)) = some [1] := by
        decide
      rw [h1] at this
      simpa using this
    have hmem : s.maxReadLevel ∈ db1.subqueues.map (fun s => s.maxReadLevel) :=
      List.mem_map.mpr ⟨s, List.getElem?_mem hs, rfl⟩
    rw [hl] at hmem
    simp only [List.mem_singleton] at hmem
    rw [hmem]

/-- The freshly created partition satisfies `caughtUpEmpty` and holds the lease: after a
`RenewLease` without lease that finds no metadata and whose creation the store accepts, the
single subqueue has ack level 0, count 0 and the read level just before the first block, which
is not below 0 when the first block starts at 1 or later. -/
theorem RenewLease_fresh_caughtUpEmpty (db0 db : taskQueueDB) (now : Time) (msg : String)
    (r : Except StoreError taskQueueState) (h0 : db0.rangeID = 0)
    (hblock : 1 ≤ db0.config.rangeIDToTaskIDBlockStart initialRangeID db0.config.RangeSize)
    (h : (db0.RenewLease now).answer (.error (.NotFound msg)) none = some (db, r)) :
    db.caughtUpEmpty ∧ db.rangeID = initialRangeID := by
  obtain ⟨s0, info, hs0, hinfo⟩ := cachedQueueInfo_isSome
    { db0 with rangeID := initialRangeID,
               subqueues := ({ db0 with rangeID := initialRangeID } :
                 taskQueueDB).ensureDefaultSubqueuesLocked [] 0 0 }
    (ensureDefaultSubqueuesLocked_ne_nil { db0 with rangeID := initialRangeID } [] 0 0)
  simp only [taskQueueDB.RenewLease, if_pos h0, taskQueueDB.takeOverTaskQueueLocked,
    Prog.bind, Prog.answer] at h
  simp only [subqueueZero] at h hs0
  simp only [hs0, Option.some.injEq, Prod.mk.injEq] at h
  obtain ⟨hdb, _⟩ := h
  subst hdb
  refine ⟨?_, rfl⟩
  intro s hs
  simp only [taskQueueDB.ensureDefaultSubqueuesLocked, taskQueueDB.newSubqueueLocked,
    List.map_nil, List.any_nil, Bool.not_false, if_true, List.nil_append, List.length_singleton,
    List.map_cons, List.mem_singleton] at hs
  subst hs
  unfold dbSubqueue.caughtUpEmpty
  simp only
  exact ⟨by omega, fun _ => trivial⟩

end matching

namespace matching

/-! ### `AckLevel <= maxReadLevel` -/

theorem answer_ret {α : Type} (p : Prog α) (r : α)
    (h : (match p with
      | .ret a => some a
      | _ => none) = some r) : p = .ret r := by
  cases p with
  | ret a => simp only [Option.some.injEq] at h; rw [h]
  | panic => cases h
  | GetTaskQueue k => cases h
  | CreateTaskQueue req k => cases h
  | UpdateTaskQueue req k => cases h

/-- What the store answer makes of `updateTaskQueueLocked`: on an error the database is left as
it was, on acceptance it holds the new range id; the subqueues are untouched. -/
theorem updateTaskQueueLocked_bind_answer {α : Type} (db : taskQueueDB) (inc : Bool)
    (now : Time) (f : taskQueueDB × Option StoreError → Prog α)
    (get : Except StoreError GetTaskQueueResponse) (write : Option StoreError) (r : α)
    (h : ((db.updateTaskQueueLocked inc now).bind f).answer get write = some r) :
    (∃ e, write = some e ∧ f (db, some e) = .ret r) ∨
    (write = none ∧
      f ({ db with lastWrite := now,
                   rangeID := if inc then db.rangeID + 1 else db.rangeID }, none) = .ret r) := by
  unfold taskQueueDB.updateTaskQueueLocked at h
  cases hinfo : db.cachedQueueInfo with
  | none =>
    rw [hinfo] at h
    simp [Prog.bind, Prog.answer] at h
  | some info =>
    rw [hinfo] at h
    simp only [Prog.bind, Prog.answer] at h
    cases write with
    | some e =>
      simp only [Prog.bind] at h
      exact Or.inl ⟨e, rfl, answer_ret _ _ h⟩
    | none =>
      simp only [Prog.bind] at h
      exact Or.inr ⟨rfl, answer_ret _ _ h⟩

theorem updateTaskQueueLocked_answer (db : taskQueueDB) (inc : Bool) (now : Time)
    (get : Except StoreError GetTaskQueueResponse) (write : Option StoreError)
    (r : taskQueueDB × Option StoreError)
    (h : (db.updateTaskQueueLocked inc now).answer get write = some r) :
    (∃ e, write = some e ∧ r = (db, some e)) ∨
    (write = none ∧
      r = ({ db with lastWrite := now,
                     rangeID := if inc then db.rangeID + 1 else db.rangeID }, none)) := by
  unfold taskQueueDB.updateTaskQueueLocked at h
  cases hinfo : db.cachedQueueInfo with
  | none =>
    rw [hinfo] at h
    simp [Prog.answer] at h
  | some info =>
    rw [hinfo] at h
    simp only [Prog.answer] at h
    cases write with
    | some e =>
      simp only [Option.some.injEq] at h
      exact Or.inl ⟨e, rfl, h.symm⟩
    | none =>
      simp only [Option.some.injEq] at h
      exact Or.inr ⟨rfl, h.symm⟩

end matching

namespace matching

theorem ackLe_set (l : List dbSubqueue) (i : Nat) (s : dbSubqueue)
    (hl : ∀ x ∈ l, x.AckLevel ≤ x.maxReadLevel) (hs : s.AckLevel ≤ s.maxReadLevel) :
    ∀ x ∈ l.set i s, x.AckLevel ≤ x.maxReadLevel := by
  intro x hx
  rcases List.mem_or_eq_of_mem_set hx with h | h
  · exact hl x h
  · rw [h]; exact hs

/-- `CreateTasks` with task ids above the read levels keeps `ackBelowRead`. -/
theorem CreateTasks_ackBelowRead (db db' : taskQueueDB) (reqs : List writeTaskRequest)
    (now : Time) (result : Except StoreError CreateTasksResponse)
    (updates : IntMap subqueueCreateTasksResponse) (err : Option StoreError)
    (h0 : db.ackBelowRead)
    (hin : ∀ req ∈ reqs, ∀ s, db.subqueues[req.subqueue]? = some s → s.maxReadLevel < req.id)
    (h : db.CreateTasks reqs now result = some (db', updates, err)) : db'.ackBelowRead := by
  obtain ⟨hr, _, hshape⟩ := CreateTasks_shape db db' reqs now result updates err h
  refine ⟨by rw [hr]; exact h0.1, ?_⟩
  intro s' hs'
  obtain ⟨i, hi⟩ := List.mem_iff_getElem?.mp hs'
  obtain ⟨s, hs, hack, hcase⟩ := hshape i s' hi
  have hs0 := h0.2 s (List.getElem?_mem hs)
  rcases hcase with heq | ⟨req, hreq, hsq, hid⟩
  · rw [heq]; exact hs0
  · have hlt := hin req hreq s (by rw [hsq]; exact hs)
    rw [hack, hid]
    omega

/-- `updateAckLevelAndBacklogStats` with a new ack level not above the read level keeps
`ackBelowRead`. -/
theorem updateAckLevelAndBacklogStats_ackBelowRead (db db' : taskQueueDB) (subqueue : Nat)
    (newAckLevel countDelta : Int) (oldestTime now : Time) (h0 : db.ackBelowRead)
    (hin : ∀ s, db.subqueues[subqueue]? = some s → newAckLevel ≤ s.maxReadLevel)
    (h : db.updateAckLevelAndBacklogStats subqueue newAckLevel countDelta oldestTime now
      = some db') : db'.ackBelowRead := by
  cases hs : db.subqueues[subqueue]? with
  | none =>
    unfold taskQueueDB.updateAckLevelAndBacklogStats at h
    rw [hs] at h
    cases h
  | some dbQueue =>
    obtain ⟨db'', s', hrun, hsub, hr, _, hack, hmax, _⟩ :=
      updateAckLevelAndBacklogStats_shape db subqueue newAckLevel countDelta oldestTime now
        dbQueue hs
    rw [h] at hrun
    cases hrun
    refine ⟨by rw [hr]; exact h0.1, ?_⟩
    rw [hsub]
    refine ackLe_set _ _ _ h0.2 ?_
    rw [hack, hmax]
    exact hin dbQueue hs

/-- `OldUpdateState` with an ack level not above the read level of subqueue 0 keeps
`ackBelowRead`, whatever the store answers. -/
theorem OldUpdateState_ackBelowRead (db : taskQueueDB) (ackLevel : Int) (now : Time)
    (get : Except StoreError GetTaskQueueResponse) (write : Option StoreError)
    (r : taskQueueDB × Option StoreError) (h0 : db.ackBelowRead)
    (hin : ∀ s, db.subqueues[subqueueZero]? = some s → ackLevel ≤ s.maxReadLevel)
    (h : (db.OldUpdateState ackLevel now).answer get write = some r) : r.1.ackBelowRead := by
  unfold taskQueueDB.OldUpdateState at h
  cases hs : db.subqueues[subqueueZero]? with
  | none => rw [hs] at h; simp [Prog.answer] at h
  | some s0 =>
    rw [hs] at h
    simp only at h
    have hs0 := h0.2 s0 (List.getElem?_mem hs)
    have hle := hin s0 hs
    rcases updateTaskQueueLocked_bind_answer _ _ _ _ _ _ _ h with ⟨e, _, hf⟩ | ⟨_, hf⟩
    · simp only [Prog.ret.injEq] at hf
      rw [← hf]
      refine ⟨h0.1, ?_⟩
      simp only [List.set_set]
      refine ackLe_set _ _ _ h0.2 ?_
      split <;> exact hs0
    · simp only [Prog.ret.injEq] at hf
      rw [← hf]
      refine ⟨by simpa using h0.1, ?_⟩
      refine ackLe_set _ _ _ h0.2 ?_
      split <;> exact hle

/-- `AllocateSubqueue` keeps `ackBelowRead`, whatever the store answers: the new subqueue starts
with its ack level equal to its read level, and is dropped again when the write fails. -/
theorem AllocateSubqueue_ackBelowRead (db : taskQueueDB) (key : Option SubqueueKey)
    (now : Time) (get : Except StoreError GetTaskQueueResponse) (write : Option StoreError)
    (r : taskQueueDB × Except StoreError (List SubqueueInfo)) (h0 : db.ackBelowRead)
    (h : (db.AllocateSubqueue key now).answer get write = some r) : r.1.ackBelowRead := by
  unfold taskQueueDB.AllocateSubqueue at h
  simp only at h
  rcases updateTaskQueueLocked_bind_answer _ _ _ _ _ _ _ h with ⟨e, _, hf⟩ | ⟨_, hf⟩
  · simp only [Prog.ret.injEq] at hf
    rw [← hf]
    refine ⟨h0.1, ?_⟩
    simp only [List.dropLast_concat]
    exact h0.2
  · simp only [Prog.ret.injEq] at hf
    rw [← hf]
    refine ⟨by simpa using h0.1, ?_⟩
    intro s hs
    simp only [List.mem_append, List.mem_singleton] at hs
    rcases hs with hs | hs
    · exact h0.2 s hs
    · rw [hs]
      exact le_refl _

/-- `RenewLease` with a lease held keeps `ackBelowRead`, whatever the store answers: it only
raises the range id. -/
theorem RenewLease_ackBelowRead (db : taskQueueDB) (now : Time)
    (get : Except StoreError GetTaskQueueResponse) (write : Option StoreError)
    (r : taskQueueDB × Except StoreError taskQueueState) (h0 : db.ackBelowRead)
    (h : (db.RenewLease now).answer get write = some r) : r.1.ackBelowRead := by
  unfold taskQueueDB.RenewLease at h
  have hne : db.rangeID ≠ 0 := by have := h0.1; omega
  rw [if_neg hne] at h
  rcases updateTaskQueueLocked_bind_answer _ _ _ _ _ _ _ h with ⟨e, _, hf⟩ | ⟨_, hf⟩
  · simp only [Prog.ret.injEq] at hf
    rw [← hf]
    exact h0
  · simp only at hf
    split at hf
    · cases hf
    · simp only [Prog.ret.injEq] at hf
      rw [← hf]
      refine ⟨?_, h0.2⟩
      have := h0.1
      simp only [if_true]
      omega

/-- `SyncState` keeps `ackBelowRead`, whatever the store answers. -/
theorem SyncState_ackBelowRead (db : taskQueueDB) (stickyTaskQueueTTL : Nat)
    (now written : Time) (get : Except StoreError GetTaskQueueResponse)
    (write : Option StoreError) (r : taskQueueDB × Option StoreError) (h0 : db.ackBelowRead)
    (h : (db.SyncState stickyTaskQueueTTL now written).answer get write = some r) :
    r.1.ackBelowRead := by
  unfold taskQueueDB.SyncState at h
  simp only at h
  split at h
  · simp only [Prog.answer, Option.some.injEq] at h
    rw [← h]
    exact h0
  · rcases updateTaskQueueLocked_answer _ _ _ _ _ _ h with ⟨e, _, hr⟩ | ⟨_, hr⟩
    · rw [hr]; exact h0
    · rw [hr]
      exact ⟨by simpa using h0.1, h0.2⟩

end matching

namespace matching

/-- One call in order keeps `ackBelowRead`. -/
theorem perform_ackBelowRead (db db' : taskQueueDB) (op : DBOp) (h0 : db.ackBelowRead)
    (hin : op.inOrder db) (h : db.perform op = some db') : db'.ackBelowRead := by
  cases op with
  | CreateTasks reqs now result =>
    simp only [taskQueueDB.perform] at h
    cases hc : db.CreateTasks reqs now result with
    | none => rw [hc] at h; cases h
    | some r =>
      obtain ⟨d1, u, e⟩ := r
      rw [hc] at h
      simp only [Option.map_some', Option.some.injEq] at h
      subst h
      exact CreateTasks_ackBelowRead db d1 reqs now result u e h0 hin hc
  | updateAckLevelAndBacklogStats subqueue newAckLevel countDelta oldestTime now =>
    exact updateAckLevelAndBacklogStats_ackBelowRead db db' subqueue newAckLevel countDelta
      oldestTime now h0 hin h
  | OldUpdateState ackLevel now write =>
    simp only [taskQueueDB.perform] at h
    cases hc : (db.OldUpdateState ackLevel now).answer noGet write with
    | none => rw [hc] at h; cases h
    | some r =>
      rw [hc] at h
      simp only [Option.map_some', Option.some.injEq] at h
      subst h
      exact OldUpdateState_ackBelowRead db ackLevel now noGet write r h0 hin hc
  | AllocateSubqueue key now write =>
    simp only [taskQueueDB.perform] at h
    cases hc : (db.AllocateSubqueue key now).answer noGet write with
    | none => rw [hc] at h; cases h
    | some r =>
      rw [hc] at h
      simp only [Option.map_some', Option.some.injEq] at h
      subst h
      exact AllocateSubqueue_ackBelowRead db key now noGet write r h0 hc
  | RenewLease now get write =>
    simp only [taskQueueDB.perform] at h
    cases hc : (db.RenewLease now).answer get write with
    | none => rw [hc] at h; cases h
    | some r =>
      rw [hc] at h
      simp only [Option.map_some', Option.some.injEq] at h
      subst h
      exact RenewLease_ackBelowRead db now get write r h0 hc
  | SyncState stickyTaskQueueTTL now written write =>
    simp only [taskQueueDB.perform] at h
    cases hc : (db.SyncState stickyTaskQueueTTL now written).answer noGet write with
    | none => rw [hc] at h; cases h
    | some r =>
      rw [hc] at h
      simp only [Option.map_some', Option.some.injEq] at h
      subst h
      exact SyncState_ackBelowRead db stickyTaskQueueTTL now written noGet write r h0 hc

/-- C20, as stated, fails.  The freshly created queue (the state after a successful
`RenewLease`) has ack level 0 and read level 0; `updateAckLevelAndBacklogStats` with the new
ack level 5 stores it, and the subqueue has `AckLevel` 5 above `maxReadLevel` 0. -/
theorem C20_ack_level_above_read_level :
    (unloadedDB.perform (.RenewLease 7 (.error (.NotFound "task queue not found")) none)).map
      (fun db => db.subqueues.map (fun s => (s.AckLevel, s.maxReadLevel))) = some [(0, 0)] ∧
    (unloadedDB.performAll
        [.RenewLease 7 (.error (.NotFound "task queue not found")) none,
         .updateAckLevelAndBacklogStats 0 5 0 0 9]).map
      (fun db => db.subqueues.map (fun s => (s.AckLevel, s.maxReadLevel))) = some [(5, 0)] := by
  constructor
  · decide
  · decide

/-- C20, amended.  Start from a state in which a lease is held (`rangeID >= 1`) and every
subqueue has `AckLevel <= maxReadLevel` (the freshly created partition is one).  After any
sequence of `CreateTasks` calls that write task ids above the read level of their subqueue, of
`updateAckLevelAndBacklogStats` and `OldUpdateState` calls whose new ack level is not above the
read level of the subqueue, and of `AllocateSubqueue`, `RenewLease` and `SyncState` calls, with
arbitrary other arguments and arbitrary store outcomes, provided no call panics, a lease is
still held and every subqueue satisfies `AckLevel <= maxReadLevel`. -/
theorem C20_ack_level_below_read_level (ops : List DBOp) :
    ∀ (db db' : taskQueueDB), db.ackBelowRead → db.inOrderOps ops →
      db.performAll ops = some db' →
      0 < db'.rangeID ∧ ∀ s ∈ db'.subqueues, s.AckLevel ≤ s.maxReadLevel := by
  induction ops with
  | nil =>
    intro db db' h0 _ h
    simp only [taskQueueDB.performAll, Option.some.injEq] at h
    subst h
    exact h0
  | cons op rest ih =>
    intro db db' h0 hin h
    unfold taskQueueDB.performAll at h
    cases hop : db.perform op with
    | none => rw [hop] at h; cases h
    | some db1 =>
      rw [hop] at h
      exact ih db1 db' (perform_ackBelowRead db db1 op h0 hin.1 hop) (hin.2 db1 hop) h

/-- Witness of C20 (amended): on the freshly created queue, the creation of the task with id 1
with a store answer that is lost, and a renewal of the lease that the store accepts, leave ack
level 0 below read level 1 under range id 2. -/
theorem C20_ack_level_below_read_level_witness :
    (freshDB.performAll
        [.CreateTasks [{ subqueue := 0, id := 1, pass := 0, fairLevel := ⟨0, 0⟩ }] 8
            (.error (.Other "timeout")),
         .RenewLease 9 noGet none]).map
      (fun db => (db.rangeID, db.subqueues.map (fun s => (s.AckLevel, s.maxReadLevel))))
      = some (2, [(0, 1)]) ∧
    ∀ db', freshDB.performAll
        [.CreateTasks [{ subqueue := 0, id := 1, pass := 0, fairLevel := ⟨0, 0⟩ }] 8
            (.error (.Other "timeout")),
         .RenewLease 9 noGet none] = some db' →
      0 < db'.rangeID ∧ ∀ s ∈ db'.subqueues, s.AckLevel ≤ s.maxReadLevel := by
  refine ⟨by decide, fun db' h => ?_⟩
  refine C20_ack_level_below_read_level _ freshDB db'
    (by unfold taskQueueDB.ackBelowRead; decide) ?_ h
  refine ⟨?_, fun db1 _ => ⟨trivial, fun db2 _ => trivial⟩⟩
  intro req hreq s hs
  simp only [List.mem_singleton] at hreq
  subst hreq
  have hl : freshDB.subqueues.map (fun s => s.maxReadLevel) = [0] := by decide
  have hmem : s.maxReadLevel ∈ freshDB.subqueues.map (fun s => s.maxReadLevel) :=
    List.mem_map.mpr ⟨s, List.getElem?_mem hs, rfl⟩
  rw [hl] at hmem
  simp only [List.mem_singleton] at hmem
  rw [hmem]
  decide

end matching

namespace gcloud

/-! ### `validateURI` -/

/-- C27.  `validateURI` accepts exactly the URIs with scheme `gs`, a non-empty path and a
non-empty host name; any other scheme gives `ErrURISchemeMismatch` whatever the path and the
host are, and a `gs` URI with an empty path or an empty host name gives `ErrInvalidURI`. -/
theorem C27_validateURI_iff (u : URI) :
    (validateURI u = none ↔ u.Scheme = "gs" ∧ u.Path ≠ "" ∧ u.Hostname ≠ "") ∧
    (u.Scheme ≠ "gs" → validateURI u = some .ErrURISchemeMismatch) ∧
    (u.Scheme = "gs" → u.Path = "" ∨ u.Hostname = "" →
      validateURI u = some .ErrInvalidURI) := by
  unfold validateURI URIScheme
  refine ⟨?_, ?_, ?_⟩
  · by_cases hs : u.Scheme = "gs"
    · by_cases hp : u.Path = "" ∨ u.Hostname = ""
      · simp only [hs, ne_eq, not_true_eq_false, if_false, if_pos hp]
        constructor
        · intro h; cases h
        · rintro ⟨_, h1, h2⟩
          rcases hp with hp | hp
          · exact absurd hp h1
          · exact absurd hp h2
      · simp only [hs, ne_eq, not_true_eq_false, if_false, if_neg hp, true_iff, true_and]
        push_neg at hp
        exact hp
    · simp only [ne_eq, hs, not_false_eq_true, if_true, false_and, iff_false]
      intro h; cases h
  · intro hs
    rw [if_pos hs]
  · intro hs hp
    rw [if_neg (not_not.mpr hs), if_pos hp]

/-- Witness of C27: the five URIs of the test, by their parsed components. -/
theorem C27_validateURI_iff_witness :
    validateURI uriWrongScheme = some .ErrURISchemeMismatch ∧
    validateURI uriBare = some .ErrInvalidURI ∧
    validateURI uriNoPath = some .ErrInvalidURI ∧
    validateURI uriNoHost = some .ErrInvalidURI ∧
    validateURI uriVisibility = none :=
  ⟨(C27_validateURI_iff uriWrongScheme).2.1 (by decide),
   (C27_validateURI_iff uriBare).2.2 rfl (Or.inl rfl),
   (C27_validateURI_iff uriNoPath).2.2 rfl (Or.inl rfl),
   (C27_validateURI_iff uriNoHost).2.2 rfl (Or.inr rfl),
   (C27_validateURI_iff uriVisibility).1.mpr ⟨rfl, by decide, by decide⟩⟩

end gcloud

namespace cassandra

theorem lor_zero (x : Int) : Int.lor x 0 = x := by
  cases x with
  | ofNat m => simp [Int.lor]
  | negSucc m =>
    show Int.lor (Int.negSucc m) (Int.ofNat 0) = _
    simp [Int.lor, Nat.ldiff]

/-- C28.  For every subqueue index `n` with `0 <= n < 2^61`, `rowTypeTaskInSubqueue n = 4 * n`:
the two low bits are zero and the remaining bits hold `n`.  So the row type is not
`rowTypeTaskQueue`, its bit 1 is not set, and two indexes with the same row type are equal.
Subqueue 0 has the row type `rowTypeTask`. -/
theorem C28_rowTypeTaskInSubqueue (n : Int) (h0 : 0 ≤ n) (hn : n < 2 ^ 61) :
    rowTypeTaskInSubqueue n = 4 * n ∧
    rowTypeTaskInSubqueue n % 4 = 0 ∧
    rowTypeTaskInSubqueue n / 4 = n ∧
    rowTypeTaskInSubqueue n ≠ rowTypeTaskQueue ∧
    rowTypeTaskInSubqueue n / 2 % 2 = 0 ∧
    (∀ m : Int, 0 ≤ m → m < 2 ^ 61 →
      rowTypeTaskInSubqueue m = rowTypeTaskInSubqueue n → m = n) ∧
    rowTypeTaskInSubqueue 0 = rowTypeTask := by
  have key : ∀ k : Int, 0 ≤ k → k < 2 ^ 61 → rowTypeTaskInSubqueue k = 4 * k := by
    intro k hk0 hk
    unfold rowTypeTaskInSubqueue rowTypeTask
    rw [lor_zero, wrap64_of_isInt64]
    · ring
    · unfold isInt64 minInt64 maxInt64
      constructor <;> omega
  rw [key n h0 hn]
  refine ⟨rfl, by omega, by omega, ?_, by omega, ?_, ?_⟩
  · unfold rowTypeTaskQueue; omega
  · intro m hm0 hm h
    rw [key m hm0 hm] at h
    omega
  · rw [key 0 (le_refl _) (by norm_num)]
    rfl

/-- Witness of C28: subqueue 1 has row type 4 (`00000100`). -/
theorem C28_rowTypeTaskInSubqueue_witness : rowTypeTaskInSubqueue 1 = 4 * 1 :=
  (C28_rowTypeTaskInSubqueue 1 (by decide) (by decide)).1

end cassandra

namespace gcloud

/-! ### The not-found signal of the source -/

/-- An iteration of the loop of `Archive` that leaves the loop leaves it by a `return` or a
panic. -/
theorem archivePage_ne_done (d : Deps) (source : HistorySource) (request : ArchiveHistoryRequest)
    (next : Except IterError HistoryBlob) (pos : Nat) (st : archiveState) :
    (archivePage d source request next pos st).2 ≠ some .done := by
  unfold archivePage
  simp only
  split
  · simp
  · simp
  · simp
  · split
    · simp
    · simp
    · split
      · simp
      · split
        · simp
        · split
          · simp
          · simp

/-- The loop of `Archive` over the pages `pre ++ rest`: the loop over `pre`, and when that runs
to its end, the loop over `rest`. -/
theorem archivePages_append (d : Deps) (source : HistorySource) (request : ArchiveHistoryRequest)
    (rest : List (Except IterError HistoryBlob)) :
    ∀ (pre : List (Except IterError HistoryBlob)) (pos : Nat) (st st1 : archiveState),
      archivePages d source request pre pos st = (st1, .done) →
      archivePages d source request (pre ++ rest) pos st
        = archivePages d source request rest (pos + pre.length) st1 := by
  intro pre
  induction pre with
  | nil =>
    intro pos st st1 h
    simp only [archivePages, Prod.mk.injEq, and_true] at h
    subst h
    simp
  | cons next pre ih =>
    intro pos st st1 h
    have hne := archivePage_ne_done d source request next pos st
    rw [List.cons_append]
    unfold archivePages at h ⊢
    cases hp : archivePage d source request next pos st with
    | mk st2 exit =>
      rw [hp] at h hne
      cases exit with
      | some e =>
        simp only [Prod.mk.injEq] at h
        obtain ⟨_, he⟩ := h
        subst he
        exact absurd rfl hne
      | none =>
        simp only at h ⊢
        rw [ih (pos + 1) st2 st1 h]
        have hidx : pos + 1 + pre.length = pos + (next :: pre).length := by
          simp only [List.length_cons]; omega
        rw [hidx]
        conv_lhs => unfold archivePages

/-- C26.  The not-found signal ends the archival quietly.  Let `Archive` pass its validations
and let the pages its iterator has left be `pre`, then a page on which `Next` returns a
`NotFound` error, then `post`; let the loop run through the pages `pre` and leave the state
`st1`.  Then `Archive` returns nil without panic, and the storage calls, the storage, the
progress manager and the progress cursor are those of `st1`: for the not-found page and the
pages after it there is no existence check, no upload and no recording of progress.  The
duplicate-archival counter is raised by one. -/
theorem C26_not_found_ends_archive (d : Deps) (h : historyArchiver) (u : URI)
    (request : ArchiveHistoryRequest) (featureCatalog : ArchiveFeatureCatalog)
    (pre post : List (Except IterError HistoryBlob)) (msg : GoError) (st1 : archiveState)
    (huri : ValidateURI h.gcloudStorage.ExistRoot u = false)
    (hreq : (d.ValidateHistoryArchiveRequest request.CloseFailoverVersion
      request.NextEventID).isSome = false)
    (hpages : (archiveStart h featureCatalog).1.source.pages.drop
      (archiveStart h featureCatalog).1.pos = pre ++ .error (.NotFound msg) :: post)
    (hpre : archivePages d (archiveStart h featureCatalog).1.source request pre
      (archiveStart h featureCatalog).1.pos
      { storage := h.gcloudStorage
        progress := (archiveStart h featureCatalog).2
        pm := featureCatalog.ProgressManager
        calls := []
        metrics := { transientErrorCount := 0, nonRetryableErrorCount := 0,
                     successCount := 0, duplicateArchivalsCount := 0 }
        totalUploadSize := 0 } = (st1, .done)) :
    (Archive d h u request featureCatalog).err = none ∧
    (Archive d h u request featureCatalog).panicked = false ∧
    (Archive d h u request featureCatalog).calls = st1.calls ∧
    (Archive d h u request featureCatalog).storage = st1.storage ∧
    (Archive d h u request featureCatalog).pm = st1.pm ∧
    (Archive d h u request featureCatalog).progress = st1.progress ∧
    (Archive d h u request featureCatalog).metrics.duplicateArchivalsCount
      = st1.metrics.duplicateArchivalsCount + 1 ∧
    (Archive d h u request featureCatalog).metrics.successCount
      = st1.metrics.successCount := by
  have hbody := archiveBody_of_valid d h u request featureCatalog huri hreq
  rw [hpages, archivePages_append d _ request _ pre _ _ st1 hpre] at hbody
  simp only [archivePages, archivePage] at hbody
  unfold Archive
  rw [hbody]
  exact ⟨rfl, rfl, rfl, rfl, rfl, rfl, rfl, rfl⟩

/-- Witness of C26: a source of three pages whose second `Next` reports `NotFound`, an empty
destination and a fresh progress manager: `Archive` returns nil after the existence check and
the upload of part 0 only, with the progress recorded for part 0 only. -/
theorem C26_not_found_ends_archive_witness :
    (Archive sampleDeps
        (sampleArchiver [.ok (samplePage false), .error (.NotFound "history is gone"),
          .ok sampleLastPage]) sampleURI sampleArchiveRequest
        { ProgressManager := some freshProgressManager, NonRetryableError := none }).err = none ∧
    (Archive sampleDeps
        (sampleArchiver [.ok (samplePage false), .error (.NotFound "history is gone"),
          .ok sampleLastPage]) sampleURI sampleArchiveRequest
        { ProgressManager := some freshProgressManager, NonRetryableError := none }).calls
      = [.Exist (.part 5 0), .Upload (.part 5 0) [2]] ∧
    (Archive sampleDeps
        (sampleArchiver [.ok (samplePage false), .error (.NotFound "history is gone"),
          .ok sampleLastPage]) sampleURI sampleArchiveRequest
        { ProgressManager := some freshProgressManager, NonRetryableError := none }).progress
      = { CurrentPageNumber := 1, IteratorState := some [1] } := by
  obtain ⟨h1, _, h3, _, _, h6, _⟩ := C26_not_found_ends_archive sampleDeps
    (sampleArchiver [.ok (samplePage false), .error (.NotFound "history is gone"),
      .ok sampleLastPage]) sampleURI sampleArchiveRequest
    { ProgressManager := some freshProgressManager, NonRetryableError := none }
    [.ok (samplePage false)] [.ok sampleLastPage] "history is gone"
    (archivePages sampleDeps (sampleSource [.ok (samplePage false),
        .error (.NotFound "history is gone"), .ok sampleLastPage]) sampleArchiveRequest
      [.ok (samplePage false)] 0
      { storage := emptyStorage
        progress := { CurrentPageNumber := 0, IteratorState := none }
        pm := some freshProgressManager
        calls := []
        metrics := { transientErrorCount := 0, nonRetryableErrorCount := 0,
                     successCount := 0, duplicateArchivalsCount := 0 }
        totalUploadSize := 0 }).1
    (by decide) (by decide) rfl rfl
  exact ⟨h1, h3.trans (by decide), h6.trans (by decide)⟩

end gcloud

namespace matching

/-! ### Failed lease calls -/

/-- C29.  A failed `RenewLease` leaves the range id as it was.  For every answer of the store
to `GetTaskQueue` and to the write, if `RenewLease` returns an error then the database holds the
range id it held before the call: 0 after a failed takeover (whether the read, the creation or
the conditional update failed), `r` after a failed renewal. -/
theorem C29_failed_RenewLease_keeps_rangeID (db db1 : taskQueueDB) (now : Time)
    (get : Except StoreError GetTaskQueueResponse) (write : Option StoreError) (e : StoreError)
    (hrun : (db.RenewLease now).answer get write = some (db1, .error e)) :
    db1.rangeID = db.rangeID := by
  by_cases hr : db.rangeID = 0
  · simp only [taskQueueDB.RenewLease, if_pos hr, taskQueueDB.takeOverTaskQueueLocked,
      Prog.bind, Prog.answer] at hrun
    cases get with
    | ok response =>
      obtain ⟨s0, info, hs0, hinfo⟩ := cachedQueueInfo_isSome
        { db with rangeID := response.RangeID,
                  subqueues := ({ db with rangeID := response.RangeID } :
                    taskQueueDB).ensureDefaultSubqueuesLocked response.TaskQueueInfo.Subqueues
                      response.TaskQueueInfo.AckLevel
                      response.TaskQueueInfo.ApproximateBacklogCount }
        (ensureDefaultSubqueuesLocked_ne_nil _ _ _ _)
      simp only [taskQueueDB.updateTaskQueueLocked, hinfo, Prog.bind, if_true] at hrun
      cases write with
      | some e' =>
        simp only [Prog.bind, Option.some.injEq, Prod.mk.injEq] at hrun
        rw [← hrun.1, hr]
      | none =>
        simp only [Prog.bind] at hrun
        split at hrun
        · rename_i heq
          simp only [Option.some.injEq] at hrun
          subst hrun
          split at heq
          · cases heq
          · simp only [Prog.ret.injEq, Prod.mk.injEq] at heq
            exact absurd heq.2 (by simp)
        · cases hrun
    | error err =>
      cases err with
      | NotFound msg =>
        obtain ⟨s0, info, hs0, hinfo⟩ := cachedQueueInfo_isSome
          { db with rangeID := initialRangeID,
                    subqueues := ({ db with rangeID := initialRangeID } :
                      taskQueueDB).ensureDefaultSubqueuesLocked [] 0 0 }
          (ensureDefaultSubqueuesLocked_ne_nil { db with rangeID := initialRangeID } [] 0 0)
        simp only [hinfo, Prog.bind] at hrun
        cases write with
        | some e' =>
          simp only [Prog.bind, Option.some.injEq, Prod.mk.injEq] at hrun
          rw [← hrun.1, hr]
        | none =>
          simp only [Prog.bind] at hrun
          split at hrun
          · rename_i heq
            simp only [Option.some.injEq] at hrun
            subst hrun
            split at heq
            · cases heq
            · simp only [Prog.ret.injEq, Prod.mk.injEq] at heq
              exact absurd heq.2 (by simp)
          · cases hrun
      | ConditionFailed msg =>
        simp only [Prog.bind, Option.some.injEq, Prod.mk.injEq] at hrun
        rw [← hrun.1]
      | Other msg =>
        simp only [Prog.bind, Option.some.injEq, Prod.mk.injEq] at hrun
        rw [← hrun.1]
  · unfold taskQueueDB.RenewLease at hrun
    rw [if_neg hr] at hrun
    rcases updateTaskQueueLocked_bind_answer _ _ _ _ _ _ _ hrun with ⟨e', _, hf⟩ | ⟨_, hf⟩
    · simp only [Prog.ret.injEq, Prod.mk.injEq] at hf
      rw [← hf.1]
    · simp only at hf
      split at hf
      · cases hf
      · simp only [Prog.ret.injEq, Prod.mk.injEq] at hf
        exact absurd hf.2 (by simp)

end matching

namespace matching

/-- Witness of C29: the unloaded database (range id 0) finds metadata with range id 4 and its
conditional update is rejected; it is left with range id 0. -/
theorem C29_failed_RenewLease_keeps_rangeID_witness :
    lostTakeoverDB.rangeID = unloadedDB.rangeID :=
  C29_failed_RenewLease_keeps_rangeID unloadedDB lostTakeoverDB 7 (.ok sampleStored)
    (some (.ConditionFailed "range id mismatch")) (.ConditionFailed "range id mismatch") rfl

end matching

namespace matching

/-! ### `AllocateSubqueue` and `SyncState` -/

/-- C24.  `AllocateSubqueue` is atomic on failure and append-only on success.  Its single store
call is `UpdateTaskQueue` with `RangeID = PrevRangeID =` the current range id.  When the store
answers with an error, the call returns that error without a subqueue list and the database has
the subqueue list and the range id it had before.  When the store accepts the write, the
subqueue list is the previous list followed by one new subqueue with the given key, the range id
is unchanged, and the returned list, the persisted view of the new subqueue list, has one more
entry than the list had before. -/
theorem C24_AllocateSubqueue_atomic (db : taskQueueDB) (key : Option SubqueueKey)
    (now : Time) :
    ∃ info k, db.AllocateSubqueue key now
        = .UpdateTaskQueue { RangeID := db.rangeID, TaskQueueInfo := info,
                             PrevRangeID := db.rangeID } k ∧
      (∀ e, ∃ db', k (some e) = .ret (db', .error e) ∧
        db'.subqueues = db.subqueues ∧ db'.rangeID = db.rangeID) ∧
      (∃ db' infos s, k none = .ret (db', .ok infos) ∧
        db'.subqueues = db.subqueues ++ [s] ∧ s.Key = key ∧ db'.rangeID = db.rangeID ∧
        infos = db'.subqueues.map dbSubqueue.SubqueueInfo ∧
        infos.length = db.subqueues.length + 1) := by
  obtain ⟨s0, info, hs0, hinfo⟩ := cachedQueueInfo_isSome
    { db with subqueues := db.subqueues ++ [db.newSubqueueLocked key] } (by simp)
  refine ⟨info, ?_⟩
  apply Exists.intro
  refine ⟨?g1, ?g2, ?g3⟩
  case g1 =>
    simp only [taskQueueDB.AllocateSubqueue, taskQueueDB.updateTaskQueueLocked, hinfo, Prog.bind]
    rfl
  case g2 =>
    intro e
    simp only [Prog.bind, List.dropLast_concat]
    exact ⟨_, rfl, rfl, rfl⟩
  case g3 =>
    simp only [Prog.bind]
    exact ⟨_, _, db.newSubqueueLocked key, rfl, rfl, rfl, rfl, rfl,
      by simp [taskQueueDB.cloneSubqueues]⟩

/-- C22.  When `SyncState` writes.  (1) When `lastChange` is not later than `lastWrite` and no
more than half of `stickyTaskQueueTTL` has passed since `lastWrite`, `SyncState` returns nil
without a store call and leaves the database as it was.  (2) Otherwise (on a database with its
subqueue 0) its single store call is `UpdateTaskQueue` with `RangeID = PrevRangeID =` the
current range id; on acceptance only `lastWrite` changes, to the time after the write, and on an
error the database is left as it was.  (3) After an accepted write, a `SyncState` called within
half the TTL and with `lastChange` not later than the time of the write makes no store call. -/
theorem C22_SyncState_writes_iff (db : taskQueueDB) (stickyTaskQueueTTL : Nat)
    (now written : Time) :
    (¬ (db.lastChange > db.lastWrite ∨
        (now : Int) - (db.lastWrite : Int) > ((stickyTaskQueueTTL / 2 : Nat) : Int)) →
      db.SyncState stickyTaskQueueTTL now written = .ret (db, none)) ∧
    ((db.lastChange > db.lastWrite ∨
        (now : Int) - (db.lastWrite : Int) > ((stickyTaskQueueTTL / 2 : Nat) : Int)) →
      db.subqueues ≠ [] →
      ∃ info k, db.SyncState stickyTaskQueueTTL now written
          = .UpdateTaskQueue { RangeID := db.rangeID, TaskQueueInfo := info,
                               PrevRangeID := db.rangeID } k ∧
        k none = .ret ({ db with lastWrite := written }, none) ∧
        ∀ e, k (some e) = .ret (db, some e)) ∧
    (db.lastChange ≤ written →
      ∀ now' written' : Time,
        (now' : Int) - (written : Int) ≤ ((stickyTaskQueueTTL / 2 : Nat) : Int) →
        ({ db with lastWrite := written } : taskQueueDB).SyncState stickyTaskQueueTTL now'
            written'
          = .ret ({ db with lastWrite := written }, none)) := by
  refine ⟨?_, ?_, ?_⟩
  · intro h
    push_neg at h
    unfold taskQueueDB.SyncState
    simp only [gt_iff_lt, Bool.not_or, Bool.and_eq_true, Bool.not_eq_eq_eq_not, Bool.not_true,
      decide_eq_false_iff_not, not_lt]
    rw [if_pos ⟨h.1, h.2⟩]
  · intro h hne
    obtain ⟨s0, info, hs0, hinfo⟩ := cachedQueueInfo_isSome db hne
    refine ⟨info, ?_⟩
    apply Exists.intro
    refine ⟨?g1, ?g2, ?g3⟩
    case g1 =>
      unfold taskQueueDB.SyncState
      simp only [gt_iff_lt, Bool.not_or, Bool.and_eq_true, Bool.not_eq_eq_eq_not, Bool.not_true,
        decide_eq_false_iff_not, not_lt]
      rw [if_neg (by
        rintro ⟨h1, h2⟩
        rcases h with h | h
        · exact absurd h (not_lt.mpr h1)
        · exact absurd h (not_lt.mpr h2))]
      simp only [taskQueueDB.updateTaskQueueLocked, hinfo]
      rfl
    case g2 => rfl
    case g3 => intro e; rfl
  · intro hle now' written' hnow
    unfold taskQueueDB.SyncState
    simp only [gt_iff_lt, Bool.not_or, Bool.and_eq_true, Bool.not_eq_eq_eq_not, Bool.not_true,
      decide_eq_false_iff_not, not_lt]
    rw [if_pos ⟨hle, hnow⟩]

/-- Witness of C22 with a TTL of 24 hours in seconds: the freshly created queue was written at
time 7 and not changed since; `SyncState` at time 10 makes no store call. -/
theorem C22_SyncState_writes_iff_witness :
    freshDB.SyncState 86400 10 11 = .ret (freshDB, none) :=
  (C22_SyncState_writes_iff freshDB 86400 10 11).1 (by decide)

end matching

namespace matching

/-! ### The read level after `CreateTasks` -/

theorem lastIdFor_nil (sq : Nat) : lastIdFor [] sq = none := rfl

theorem lastIdFor_cons (req : writeTaskRequest) (rest : List writeTaskRequest) (sq : Nat) :
    lastIdFor (req :: rest) sq
      = if req.subqueue = sq then
          (match lastIdFor rest sq with
           | some id => some id
           | none => some req.id)
        else lastIdFor rest sq := by
  unfold lastIdFor
  by_cases h : req.subqueue = sq
  · simp only [List.filter_cons, h, decide_True, if_true]
    cases hf : rest.filter (fun r => decide (r.subqueue = sq)) with
    | nil => simp
    | cons a l =>
      rw [List.getLast?_cons_cons, List.getLast?_eq_getLast _ (List.cons_ne_nil a l)]
      rfl
  · simp [List.filter_cons, h]

/-- The `updates` map of `CreateTasks`, subqueue by subqueue: untouched for a subqueue that no
task of the batch goes to; otherwise an entry with the id of the last such task as
`maxReadLevelAfter` and the read level of the subqueue as `maxReadLevelBefore`. -/
theorem collectUpdates_last (db : taskQueueDB) :
    ∀ (reqs : List writeTaskRequest) (u u' : IntMap subqueueCreateTasksResponse),
      collectUpdates db reqs u = some u' →
      ∀ sq, (lastIdFor reqs sq = none → u' sq = u sq) ∧
        (∀ id, lastIdFor reqs sq = some id →
          ∃ v s, u' sq = some v ∧ v.maxReadLevelAfter = id ∧
            db.subqueues[sq]? = some s ∧ v.maxReadLevelBefore = s.maxReadLevel) := by
  intro reqs
  induction reqs with
  | nil =>
    intro u u' h sq
    simp only [collectUpdates, Option.some.injEq] at h
    subst h
    exact ⟨fun _ => rfl, fun id hid => by simp [lastIdFor_nil] at hid⟩
  | cons req rest ih =>
    intro u u' h sq
    unfold collectUpdates at h
    cases hs : db.subqueues[req.subqueue]? with
    | none => rw [hs] at h; cases h
    | some s =>
      rw [hs] at h
      simp only at h
      obtain ⟨ih1, ih2⟩ := ih _ u' h sq
      rw [lastIdFor_cons]
      by_cases hsq : req.subqueue = sq
      · rw [if_pos hsq]
        cases hl : lastIdFor rest sq with
        | some id0 =>
          dsimp only
          refine ⟨fun hn => (by cases hn), fun id hid => ?_⟩
          cases hid
          exact ih2 id0 hl
        | none =>
          dsimp only
          refine ⟨fun hn => (by cases hn), fun id hid => ?_⟩
          cases hid
          have := ih1 hl
          subst hsq
          simp only [IntMap.set, if_true] at this
          exact ⟨_, s, this, rfl, hs, rfl⟩
      · rw [if_neg hsq]
        refine ⟨fun hn => ?_, ih2⟩
        rw [ih1 hn]
        have hsq' : ¬ sq = req.subqueue := fun e => hsq e.symm
        simp [IntMap.set, hsq']

theorem getLast_max (l : List writeTaskRequest) :
    (l.map fun req => req.id).Pairwise (· ≤ ·) →
    ∀ x, l.getLast? = some x → ∀ y ∈ l, y.id ≤ x.id := by
  induction l with
  | nil => intro _ x hx; simp at hx
  | cons a rest ih =>
    intro hp x hx y hy
    simp only [List.map_cons, List.pairwise_cons, List.mem_map, forall_exists_index, and_imp,
      forall_apply_eq_imp_iff₂] at hp
    cases rest with
    | nil =>
      simp only [List.getLast?_singleton, Option.some.injEq] at hx
      simp only [List.mem_singleton] at hy
      rw [hy, hx]
    | cons b rest' =>
      rw [List.getLast?_cons_cons] at hx
      have hxmem : x ∈ b :: rest' := List.mem_of_mem_getLast? hx
      rcases List.mem_cons.mp hy with hya | hyr
      · rw [hya]; exact hp.1 x hxmem
      · exact ih hp.2 x hx y hyr

end matching

namespace matching

/-- C21.  The read level after `CreateTasks`.  For a non-empty batch whose subqueues exist and
every outcome of the store call (success, `ConditionFailedError`, any other error),
`CreateTasks` returns, and for every subqueue: when no task of the batch goes to it, its
`maxReadLevel` is kept and the response has no entry for it; when tasks go to it, its
`maxReadLevel` is the id of the last of them, its response entry reports that id as
`maxReadLevelAfter` and the read level before the call as `maxReadLevelBefore`, and when the
ids of the batch are in ascending order that id is the largest id written to the subqueue. -/
theorem C21_CreateTasks_maxReadLevel (db : taskQueueDB) (reqs : List writeTaskRequest)
    (now : Time) (result : Except StoreError CreateTasksResponse) (hne : reqs ≠ [])
    (hidx : ∀ req ∈ reqs, req.subqueue < db.subqueues.length) :
    ∃ db' updates err, db.CreateTasks reqs now result = some (db', updates, err) ∧
      ∀ sq s, db.subqueues[sq]? = some s →
        ∃ s', db'.subqueues[sq]? = some s' ∧
          (lastIdFor reqs sq = none → s'.maxReadLevel = s.maxReadLevel ∧ updates sq = none) ∧
          (∀ id, lastIdFor reqs sq = some id →
            s'.maxReadLevel = id ∧
            (∃ u, updates sq = some u ∧ u.maxReadLevelBefore = s.maxReadLevel ∧
              u.maxReadLevelAfter = id) ∧
            ((reqs.map fun req => req.id).Pairwise (· ≤ ·) →
              ∀ req ∈ reqs, req.subqueue = sq → req.id ≤ id)) := by
  obtain ⟨u, hu, _⟩ := collectUpdates_spec db reqs (fun _ => none) hidx
  have hlast := collectUpdates_last db reqs _ u hu
  have hemp : reqs.isEmpty = false := by
    cases reqs with
    | nil => exact absurd rfl hne
    | cons _ _ => rfl
  have key : ∀ (sq : Nat) (s : dbSubqueue)
      (g : subqueueCreateTasksResponse → dbSubqueue → dbSubqueue),
      (∀ v x, (g v x).maxReadLevel = v.maxReadLevelAfter) →
      db.subqueues[sq]? = some s →
      ∃ s', (db.subqueues[sq]?).map (fun x => (u sq).elim x (fun v => g v x)) = some s' ∧
        (lastIdFor reqs sq = none → s'.maxReadLevel = s.maxReadLevel ∧ u sq = none) ∧
        (∀ id, lastIdFor reqs sq = some id →
          s'.maxReadLevel = id ∧
          (∃ v, u sq = some v ∧ v.maxReadLevelBefore = s.maxReadLevel ∧
            v.maxReadLevelAfter = id) ∧
          ((reqs.map fun req => req.id).Pairwise (· ≤ ·) →
            ∀ req ∈ reqs, req.subqueue = sq → req.id ≤ id)) := by
    intro sq s g hg hs
    rw [hs]
    refine ⟨_, rfl, ?_, ?_⟩
    · intro hnone
      have := (hlast sq).1 hnone
      simp only at this
      rw [this]
      exact ⟨rfl, rfl⟩
    · intro id hid
      obtain ⟨v, s2, hv, hafter, hs2, hbefore⟩ := (hlast sq).2 id hid
      rw [hs] at hs2
      cases hs2
      rw [hv]
      refine ⟨by simp only [Option.elim]; rw [hg, hafter], ⟨v, rfl, hbefore, hafter⟩, ?_⟩
      intro hsorted req hreq hsq
      unfold lastIdFor at hid
      cases hl : (reqs.filter fun r => decide (r.subqueue = sq)).getLast? with
      | none => rw [hl] at hid; cases hid
      | some x =>
        rw [hl] at hid
        simp only [Option.map_some', Option.some.injEq] at hid
        rw [← hid]
        refine getLast_max _ ?_ x hl req ?_
        · exact List.Pairwise.sublist
            (List.Sublist.map _ (List.filter_sublist reqs)) hsorted
        · exact List.mem_filter.mpr ⟨hreq, by simpa using hsq⟩
  unfold taskQueueDB.CreateTasks
  rw [hemp]
  simp only [Bool.false_eq_true, if_false, hu]
  cases result with
  | ok resp =>
    refine ⟨_, _, _, rfl, ?_⟩
    intro sq s hs
    have hsub : (if resp.UpdatedMetadata = true then
        ({ db with subqueues := (rangeOverMap u
            (fun update s => s.setMaxReadLevel update.maxReadLevelAfter)
            (rangeOverMap u (fun update s => s.addBacklog update.tasks.length)
              db.subqueues)), lastWrite := now } : taskQueueDB)
        else { db with subqueues := (rangeOverMap u
            (fun update s => s.setMaxReadLevel update.maxReadLevelAfter)
            (rangeOverMap u (fun update s => s.addBacklog update.tasks.length)
              db.subqueues)) }).subqueues
        = rangeOverMap u (fun update s => s.setMaxReadLevel update.maxReadLevelAfter)
            (rangeOverMap u (fun update s => s.addBacklog update.tasks.length)
              db.subqueues) := by
      split <;> rfl
    rw [hsub, getElem?_rangeOverMap₂]
    exact key sq s
      (fun v x => (x.addBacklog v.tasks.length).setMaxReadLevel v.maxReadLevelAfter)
      (fun v x => rfl) hs
  | error e =>
    cases e with
    | ConditionFailed msg =>
      refine ⟨_, _, _, rfl, ?_⟩
      intro sq s hs
      simp only
      rw [getElem?_rangeOverMap₃]
      exact key sq s
        (fun v x => ((x.addBacklog v.tasks.length).setMaxReadLevel
          v.maxReadLevelAfter).subBacklog v.tasks.length)
        (fun v x => rfl) hs
    | NotFound msg =>
      refine ⟨_, _, _, rfl, ?_⟩
      intro sq s hs
      simp only
      rw [getElem?_rangeOverMap₂]
      exact key sq s
        (fun v x => (x.addBacklog v.tasks.length).setMaxReadLevel v.maxReadLevelAfter)
        (fun v x => rfl) hs
    | Other msg =>
      refine ⟨_, _, _, rfl, ?_⟩
      intro sq s hs
      simp only
      rw [getElem?_rangeOverMap₂]
      exact key sq s
        (fun v x => (x.addBacklog v.tasks.length).setMaxReadLevel v.maxReadLevelAfter)
        (fun v x => rfl) hs

end matching

namespace matching

/-- Witness of C21: on the freshly created queue (read level 0) the batch of the tasks 1 and 2
is rejected by the store with `ConditionFailedError`; the read level is 2 all the same, and the
response reports the read levels 0 before and 2 after. -/
theorem C21_CreateTasks_maxReadLevel_witness :
    (freshDB.CreateTasks sampleTasks 8 (.error (.ConditionFailed "range id mismatch"))).map
        (fun r => (r.1.subqueues.map (fun s => s.maxReadLevel),
          (r.2.1 0).map (fun u => (u.maxReadLevelBefore, u.maxReadLevelAfter))))
      = some ([2], some (0, 2)) ∧
    ∃ db' updates err,
      freshDB.CreateTasks sampleTasks 8 (.error (.ConditionFailed "range id mismatch"))
        = some (db', updates, err) := by
  obtain ⟨db', updates, err, h, _⟩ := C21_CreateTasks_maxReadLevel freshDB sampleTasks 8
    (.error (.ConditionFailed "range id mismatch")) (by decide) (by decide)
  exact ⟨by decide, db', updates, err, h⟩

end matching

namespace matching

/-! ### What a takeover adopts -/

/-- What `ensureDefaultSubqueuesLocked` builds from the persisted subqueues: the persisted
subqueues in order, followed by a subqueue of the default priority exactly when none of them
has the default key; and from an empty list, the single subqueue with the given ack level and
count. -/
theorem ensureDefaultSubqueuesLocked_shape (db : taskQueueDB) (infos : List SubqueueInfo)
    (a c : Int) :
    ((db.ensureDefaultSubqueuesLocked infos a c).take infos.length).map dbSubqueue.SubqueueInfo
      = infos ∧
    ((∃ i ∈ infos, i.Key
        = some { Priority := db.config.defaultPriorityLevel db.config.PriorityLevels }) →
      (db.ensureDefaultSubqueuesLocked infos a c).length = infos.length) ∧
    ((¬ ∃ i ∈ infos, i.Key
        = some { Priority := db.config.defaultPriorityLevel db.config.PriorityLevels }) →
      ∃ s, db.ensureDefaultSubqueuesLocked infos a c
          = (db.ensureDefaultSubqueuesLocked infos a c).take infos.length ++ [s] ∧
        s.Key = some { Priority := db.config.defaultPriorityLevel db.config.PriorityLevels }) ∧
    (infos = [] →
      ∃ s, db.ensureDefaultSubqueuesLocked infos a c = [s] ∧ s.AckLevel = a ∧
        s.ApproximateBacklogCount = c) := by
  have hconv : (infos.map fun info : SubqueueInfo =>
      ({ Key := info.Key, AckLevel := info.AckLevel, FairAckLevel := info.FairAckLevel,
         FairMaxReadLevel := info.FairMaxReadLevel,
         ApproximateBacklogCount := info.ApproximateBacklogCount, maxReadLevel := 0,
         oldestTime := 0 } : dbSubqueue)).map dbSubqueue.SubqueueInfo = infos := by
    rw [List.map_map]
    conv_rhs => rw [← List.map_id infos]
    apply List.map_congr_left
    intro i _
    rfl
  have hany : (infos.map fun info : SubqueueInfo =>
      ({ Key := info.Key, AckLevel := info.AckLevel, FairAckLevel := info.FairAckLevel,
         FairMaxReadLevel := info.FairMaxReadLevel,
         ApproximateBacklogCount := info.ApproximateBacklogCount, maxReadLevel := 0,
         oldestTime := 0 } : dbSubqueue)).any (fun s => decide (s.Key
            = some { Priority := db.config.defaultPriorityLevel db.config.PriorityLevels }))
        = true ↔
      ∃ i ∈ infos, i.Key
        = some { Priority := db.config.defaultPriorityLevel db.config.PriorityLevels } := by
    simp [List.any_eq_true]
  unfold taskQueueDB.ensureDefaultSubqueuesLocked
  simp only
  by_cases hdef : ∃ i ∈ infos, i.Key
      = some { Priority := db.config.defaultPriorityLevel db.config.PriorityLevels }
  · have h1 := hany.mpr hdef
    rw [h1]
    simp only [Bool.not_true, Bool.false_eq_true, if_false]
    refine ⟨?_, fun _ => by simp, fun h => absurd hdef h, ?_⟩
    · rw [List.take_of_length_le (by simp)]
      exact hconv
    · intro hnil
      subst hnil
      simp at hdef
  · have h1 : (infos.map fun info : SubqueueInfo =>
        ({ Key := info.Key, AckLevel := info.AckLevel, FairAckLevel := info.FairAckLevel,
           FairMaxReadLevel := info.FairMaxReadLevel,
           ApproximateBacklogCount := info.ApproximateBacklogCount, maxReadLevel := 0,
           oldestTime := 0 } : dbSubqueue)).any (fun s => decide (s.Key
              = some { Priority := db.config.defaultPriorityLevel db.config.PriorityLevels }))
          = false := by
      rw [Bool.eq_false_iff]
      exact fun h => hdef (hany.mp h)
    rw [h1]
    simp only [Bool.not_false, if_true]
    cases infos with
    | nil =>
      simp only [List.map_nil, List.nil_append, List.length_singleton, if_true, List.map_cons,
        List.length_nil, List.take_zero]
      exact ⟨trivial, fun h => absurd h hdef, fun _ => ⟨_, rfl, rfl⟩, fun _ => ⟨_, rfl, rfl, rfl⟩⟩
    | cons i rest =>
      have hlen : ¬ ((List.map (fun info : SubqueueInfo =>
          ({ Key := info.Key, AckLevel := info.AckLevel, FairAckLevel := info.FairAckLevel,
             FairMaxReadLevel := info.FairMaxReadLevel,
             ApproximateBacklogCount := info.ApproximateBacklogCount, maxReadLevel := 0,
             oldestTime := 0 } : dbSubqueue)) (i :: rest)
            ++ [db.newSubqueueLocked (some { Priority :=
                db.config.defaultPriorityLevel db.config.PriorityLevels })]).length = 1) := by
        simp
      rw [if_neg hlen]
      have htake : (List.map (fun info : SubqueueInfo =>
          ({ Key := info.Key, AckLevel := info.AckLevel, FairAckLevel := info.FairAckLevel,
             FairMaxReadLevel := info.FairMaxReadLevel,
             ApproximateBacklogCount := info.ApproximateBacklogCount, maxReadLevel := 0,
             oldestTime := 0 } : dbSubqueue)) (i :: rest)
            ++ [db.newSubqueueLocked (some { Priority :=
                db.config.defaultPriorityLevel db.config.PriorityLevels })]).take
              (i :: rest).length
          = List.map (fun info : SubqueueInfo =>
          ({ Key := info.Key, AckLevel := info.AckLevel, FairAckLevel := info.FairAckLevel,
             FairMaxReadLevel := info.FairMaxReadLevel,
             ApproximateBacklogCount := info.ApproximateBacklogCount, maxReadLevel := 0,
             oldestTime := 0 } : dbSubqueue)) (i :: rest) := by
        rw [List.take_append_of_le_length (by simp)]
        exact List.take_of_length_le (by simp)
      rw [htake]
      refine ⟨hconv, fun h => absurd h hdef, fun _ => ⟨_, rfl, rfl⟩, fun h => by cases h⟩

end matching

namespace matching

/-- C25.  A takeover adopts the persisted state.  After a `RenewLease` without lease that finds
metadata and returns a state: the leading subqueues of the database are the persisted
subqueues, in order, with all their persisted fields (ack level and backlog count included);
when one of them has the default-priority key there is no further subqueue, otherwise exactly
one more, with the default-priority key; and when the metadata lists no subqueue, the database
has the single subqueue 0, whose ack level and backlog count are the top-level `AckLevel` and
`ApproximateBacklogCount` of the persisted `TaskQueueInfo`. -/
theorem C25_takeover_adopts_persisted (db db1 : taskQueueDB) (now : Time)
    (response : GetTaskQueueResponse) (write : Option StoreError) (st : taskQueueState)
    (hr : db.rangeID = 0)
    (hrun : (db.RenewLease now).answer (.ok response) write = some (db1, .ok st)) :
    (db1.subqueues.take response.TaskQueueInfo.Subqueues.length).map dbSubqueue.SubqueueInfo
      = response.TaskQueueInfo.Subqueues ∧
    ((∃ i ∈ response.TaskQueueInfo.Subqueues, i.Key
        = some { Priority := db.config.defaultPriorityLevel db.config.PriorityLevels }) →
      db1.subqueues.length = response.TaskQueueInfo.Subqueues.length) ∧
    ((¬ ∃ i ∈ response.TaskQueueInfo.Subqueues, i.Key
        = some { Priority := db.config.defaultPriorityLevel db.config.PriorityLevels }) →
      ∃ s, db1.subqueues
          = db1.subqueues.take response.TaskQueueInfo.Subqueues.length ++ [s] ∧
        s.Key = some { Priority := db.config.defaultPriorityLevel db.config.PriorityLevels }) ∧
    (response.TaskQueueInfo.Subqueues = [] →
      ∃ s, db1.subqueues = [s] ∧ s.AckLevel = response.TaskQueueInfo.AckLevel ∧
        s.ApproximateBacklogCount = response.TaskQueueInfo.ApproximateBacklogCount) := by
  obtain ⟨s0, info, hs0, hinfo⟩ := cachedQueueInfo_isSome
    { db with rangeID := response.RangeID,
              subqueues := ({ db with rangeID := response.RangeID } :
                taskQueueDB).ensureDefaultSubqueuesLocked response.TaskQueueInfo.Subqueues
                  response.TaskQueueInfo.AckLevel
                  response.TaskQueueInfo.ApproximateBacklogCount }
    (ensureDefaultSubqueuesLocked_ne_nil _ _ _ _)
  obtain ⟨e1, e2, e3, e4⟩ := ensureDefaultSubqueuesLocked_shape
    ({ db with rangeID := response.RangeID } : taskQueueDB)
    response.TaskQueueInfo.Subqueues response.TaskQueueInfo.AckLevel
    response.TaskQueueInfo.ApproximateBacklogCount
  simp only at e1 e2 e3 e4
  simp only [taskQueueDB.RenewLease, if_pos hr, taskQueueDB.takeOverTaskQueueLocked,
    Prog.bind, Prog.answer, taskQueueDB.updateTaskQueueLocked, hinfo, if_true] at hrun
  cases write with
  | some e => simp [Prog.bind] at hrun
  | none =>
    simp only [Prog.bind] at hrun
    split at hrun
    · rename_i heq
      simp only [Option.some.injEq] at hrun
      subst hrun
      split at heq
      · cases heq
      · simp only [Prog.ret.injEq, Prod.mk.injEq] at heq
        obtain ⟨hdb, _⟩ := heq
        subst hdb
        simp only
        have hmapinfo : ∀ (m : Int) (l : List dbSubqueue),
            (l.map fun s => ({ s with maxReadLevel := m } : dbSubqueue)).map
              dbSubqueue.SubqueueInfo = l.map dbSubqueue.SubqueueInfo := by
          intro m l
          rw [List.map_map]
          rfl
        refine ⟨?_, ?_, ?_, ?_⟩
        · rw [← List.map_take, hmapinfo]
          exact e1
        · intro h
          rw [List.length_map]
          exact e2 h
        · intro h
          obtain ⟨s, hs, hk⟩ := e3 h
          refine ⟨{ s with maxReadLevel := (db.config.rangeIDToTaskIDBlockStart
            (response.RangeID + 1) db.config.RangeSize - 1) }, ?_, hk⟩
          rw [← List.map_take]
          conv_lhs => rw [hs]
          rw [List.map_append]
          rfl
        · intro h
          obtain ⟨s, hs, ha, hc⟩ := e4 h
          refine ⟨{ s with maxReadLevel := (db.config.rangeIDToTaskIDBlockStart
            (response.RangeID + 1) db.config.RangeSize - 1) }, ?_, ha, hc⟩
          rw [hs]
          rfl
    · simp at hrun

/-- Witness of C25: a queue that was unloaded with one backlogged task (persisted with a
backlog count of 1 on its default-priority subqueue) has, after the reload, the single subqueue
0 with ack level 0 and a backlog count of 1. -/
theorem C25_takeover_adopts_persisted_witness :
    reloadedDB.subqueues.map (fun s => (s.AckLevel, s.ApproximateBacklogCount)) = [(0, 1)] ∧
    (reloadedDB.subqueues.take storedOneTask.TaskQueueInfo.Subqueues.length).map
        dbSubqueue.SubqueueInfo = storedOneTask.TaskQueueInfo.Subqueues :=
  ⟨by decide,
   (C25_takeover_adopts_persisted unloadedDB reloadedDB 7 storedOneTask none reloadedState
      rfl rfl).1⟩

end matching

namespace matching

/-! ### Stamping `lastChange` -/

/-- `updateAckLevelAndBacklogStats` stamps `lastChange` whenever it changes a subqueue. -/
theorem updateAckLevelAndBacklogStats_stamps (db db' : taskQueueDB) (subqueue : Nat)
    (newAckLevel countDelta : Int) (oldestTime now : Time)
    (h : db.updateAckLevelAndBacklogStats subqueue newAckLevel countDelta oldestTime now
      = some db')
    (hdiff : db'.subqueues ≠ db.subqueues) : db'.lastChange = now := by
  unfold taskQueueDB.updateAckLevelAndBacklogStats at h
  cases hs : db.subqueues[subqueue]? with
  | none => rw [hs] at h; cases h
  | some dbQueue =>
    rw [hs] at h
    simp only at h
    by_cases hack : dbQueue.AckLevel = newAckLevel
    · rw [if_neg (not_not.mpr hack), if_neg (not_not.mpr hack)] at h
      split at h
      · split at h
        · cases h; rfl
        · cases h; exact absurd rfl hdiff
      · split at h
        · simp only [taskQueueDB.updateBacklogStatsLocked, hs, Option.some.injEq] at h
          rw [← h]
        · cases h; exact absurd rfl hdiff
    · rw [if_pos hack, if_pos hack] at h
      split at h
      · split at h
        · cases h; rfl
        · cases h; rfl
      · split at h
        · simp only [taskQueueDB.updateBacklogStatsLocked] at h
          split at h
          · cases h
          · cases h; rfl
        · cases h; rfl

/-- `updateFairAckLevel` always stamps `lastChange`. -/
theorem updateFairAckLevel_stamps (db db' : taskQueueDB) (subqueue : Nat)
    (newAckLevel : fairLevel) (countDelta knownCount : Int) (oldestTime now : Time)
    (h : db.updateFairAckLevel subqueue newAckLevel countDelta knownCount oldestTime now
      = some db') : db'.lastChange = now := by
  unfold taskQueueDB.updateFairAckLevel at h
  split at h
  · cases h
  · simp only at h
    split at h
    · cases h; rfl
    · split at h
      · simp only [taskQueueDB.updateBacklogStatsLocked] at h
        split at h
        · cases h
        · cases h; rfl
      · cases h; rfl

/-- `setKnownFairBacklogCount` stamps `lastChange` whenever it changes a subqueue. -/
theorem setKnownFairBacklogCount_stamps (db db' : taskQueueDB) (subqueue : Nat) (count : Int)
    (now : Time) (h : db.setKnownFairBacklogCount subqueue count now = some db')
    (hdiff : db'.subqueues ≠ db.subqueues) : db'.lastChange = now := by
  unfold taskQueueDB.setKnownFairBacklogCount at h
  split at h
  · cases h
  · split at h
    · cases h; rfl
    · cases h; exact absurd rfl hdiff

/-- `updateBacklogStats` always stamps `lastChange`. -/
theorem updateBacklogStats_stamps (db db' : taskQueueDB) (countDelta : Int)
    (oldestTime now : Time) (h : db.updateBacklogStats countDelta oldestTime now = some db') :
    db'.lastChange = now := by
  unfold taskQueueDB.updateBacklogStats taskQueueDB.updateBacklogStatsLocked at h
  split at h
  · cases h
  · cases h; rfl

/-- C23 (what the code does).  `CreateTasks` and `CreateFairTasks` never stamp `lastChange`:
whatever the batch and the store outcome, the database they leave has the `lastChange` it had
before the call, and the `lastWrite` it had unless the store call succeeded with
`UpdatedMetadata` set, although on a success without `UpdatedMetadata` and on an error other
than `ConditionFailedError` they leave the added tasks in `ApproximateBacklogCount` (and
`CreateFairTasks` the raised `FairMaxReadLevel`). -/
theorem C23_creations_keep_lastChange (db : taskQueueDB) (reqs : List writeTaskRequest)
    (now : Time) (result : Except StoreError CreateTasksResponse) :
    (∀ r, db.CreateTasks reqs now result = some r →
      r.1.lastChange = db.lastChange ∧
      ((∀ resp, result = .ok resp → resp.UpdatedMetadata = false) →
        r.1.lastWrite = db.lastWrite)) ∧
    (∀ r, db.CreateFairTasks reqs now result = some r →
      r.1.lastChange = db.lastChange ∧
      ((∀ resp, result = .ok resp → resp.UpdatedMetadata = false) →
        r.1.lastWrite = db.lastWrite)) := by
  constructor
  · intro r h
    unfold taskQueueDB.CreateTasks at h
    split at h
    · cases h; exact ⟨rfl, fun _ => rfl⟩
    · split at h
      · cases h
      · simp only at h
        split at h
        · rename_i resp
          cases h
          refine ⟨by simp only; split <;> rfl, fun hm => ?_⟩
          simp only [hm resp rfl, Bool.false_eq_true, if_false]
        · cases h; exact ⟨rfl, fun _ => rfl⟩
        · cases h; exact ⟨rfl, fun _ => rfl⟩
  · intro r h
    unfold taskQueueDB.CreateFairTasks at h
    split at h
    · cases h; exact ⟨rfl, fun _ => rfl⟩
    · simp only at h
      split at h
      · cases h
      · split at h
        · rename_i resp
          cases h
          refine ⟨by simp only; split <;> rfl, fun hm => ?_⟩
          simp only [hm resp rfl, Bool.false_eq_true, if_false]
        · cases h; exact ⟨rfl, fun _ => rfl⟩
        · cases h; exact ⟨rfl, fun _ => rfl⟩

end matching

namespace matching

/-- C23 (failing input).  One task created on the fresh queue at time 8, the store succeeding
without updating the metadata: the backlog count of subqueue 0 goes from 0 to 1, `lastWrite`
stays 7 and `lastChange` stays 0, not 8. -/
theorem C23_creations_keep_lastChange_witness :
    (freshDB.subqueues.map (fun s => s.ApproximateBacklogCount), freshDB.lastWrite,
        freshDB.lastChange) = ([0], 7, 0) ∧
    (freshDB.CreateTasks oneTask 8 (.ok { UpdatedMetadata := false })).map
        (fun r => (r.1.subqueues.map (fun s => s.ApproximateBacklogCount), r.1.lastWrite,
          r.1.lastChange)) = some ([1], 7, 0) ∧
    ((freshDB.CreateTasks oneTask 8 (.ok { UpdatedMetadata := false })).get rfl).1.lastChange
      = freshDB.lastChange :=
  ⟨by decide, by decide,
    ((C23_creations_keep_lastChange freshDB oneTask 8 (.ok { UpdatedMetadata := false })).1
      ((freshDB.CreateTasks oneTask 8 (.ok { UpdatedMetadata := false })).get rfl)
      (Option.some_get _).symm).1⟩

end matching


namespace gcloud

/-! ### Continuation tokens stay inside their part -/

/-- The loop of `Get` does not panic when it starts with an offset between 0 and the number of
batches of the current part: the first slice is in range, and every later part is sliced from
offset 0. -/
theorem readParts_no_panic (d : Deps) (c : Client) (PageSize : Int) :
    ∀ (fuel : Nat) (st : getState), 0 ≤ st.token.BatchIdxOffset →
      st.token.BatchIdxOffset
        ≤ (decodedPart d c st.token.CloseFailoverVersion st.token.CurrentPart).length →
      readParts d c PageSize fuel st ≠ .error .panic := by
  intro fuel
  induction fuel with
  | zero => intro st _ _ h; simp [readParts] at h
  | succ fuel ih =>
    intro st h0 hle h
    unfold readParts at h
    split at h
    · cases hget : c.Get (constructHistoryFilenameMultipart st.token.CloseFailoverVersion
          st.token.CurrentPart) with
      | error e => rw [hget] at h; cases h
      | ok ob =>
        cases ob with
        | none => rw [hget] at h; cases h
        | some blob =>
          rw [hget] at h
          simp only at h
          cases hdec : d.DecodeHistories blob with
          | error e => rw [hdec] at h; cases h
          | ok bs =>
            rw [hdec] at h
            simp only at h
            have hdp : decodedPart d c st.token.CloseFailoverVersion st.token.CurrentPart
                = bs := by
              simp only [decodedPart, hget, hdec]
            rw [hdp] at hle
            split at h
            · rename_i hbad
              omega
            · split at h
              · cases h
              · exact ih _ (le_refl _) (Int.ofNat_nonneg _) h
    · cases h

/-- A `Get` given a token whose offset is between 0 and the number of batches of its current
part does not panic. -/
theorem Get_token_no_panic (d : Deps) (c : Client) (u : URI) (request : GetHistoryRequest)
    (b : Blob) (t : getHistoryToken) (hreq : request.NextPageToken = some b)
    (hdes : d.deserializeGetHistoryToken b = .ok t) (h0 : 0 ≤ t.BatchIdxOffset)
    (hle : t.BatchIdxOffset ≤ (decodedPart d c t.CloseFailoverVersion t.CurrentPart).length) :
    Get d c u request ≠ .error .panic := by
  intro h
  have hinit : initialToken d c request = .ok t := by
    simp only [initialToken, hreq, hdes]
  rcases Get_error_inv d c u request _ h with
    ⟨_, hf⟩ | ⟨_, _, hf⟩ | ⟨_, _, hi | ⟨t0, hi, hrun⟩ | ⟨t0, st, m, _, _, _, hf⟩⟩
  · cases hf
  · cases hf
  · rw [hinit] at hi; cases hi
  · rw [hinit] at hi
    cases hi
    exact readParts_no_panic d c _ _ _ h0 hle hrun
  · cases hf

/-- C30.  Every continuation token produced by `Get` points inside its part.  When a successful
`Get` returns a `NextPageToken`, that token is the serialization of the token the loop ended
with, whose `BatchIdxOffset` is 0 or strictly between 0 and the number of batches its
`CurrentPart` decodes to; so a `Get` on the same store that is given this token (the bytes
deserializing to it) does not panic, whatever the rest of the request. -/
theorem C30_token_offset_in_range (d : Deps) (c : Client) (u : URI)
    (request : GetHistoryRequest) (resp : GetHistoryResponse) (t0 : getHistoryToken) (b : Blob)
    (hget : Get d c u request = .ok resp) (h0 : initialToken d c request = .ok t0)
    (hb : resp.NextPageToken = some b) :
    ∃ st, readParts d c request.PageSize (t0.HighestPart + 1 - t0.CurrentPart).toNat
        { HistoryBatches := [], token := t0, numOfEvents := 0 } = .ok st ∧
      d.serializeToken st.token = .ok b ∧
      (st.token.BatchIdxOffset = 0 ∨
        (0 < st.token.BatchIdxOffset ∧
          st.token.BatchIdxOffset
            < (decodedPart d c st.token.CloseFailoverVersion st.token.CurrentPart).length)) ∧
      ∀ (u2 : URI) (request2 : GetHistoryRequest), request2.NextPageToken = some b →
        d.deserializeGetHistoryToken b = .ok st.token →
        Get d c u2 request2 ≠ .error .panic := by
  obtain ⟨t0', st, h0', hrun, _, htok⟩ := Get_ok_inv d c u request resp hget
  rw [h0] at h0'
  cases h0'
  obtain ⟨hH, hV, hcase⟩ := readParts_position d c request.PageSize _ _ st hrun rfl
  simp only at hH hV hcase
  rcases htok with ⟨_, hnone⟩ | ⟨hend, b', hser, hsome⟩
  · rw [hnone] at hb; cases hb
  · rw [hsome] at hb
    cases hb
    have hbound : st.token.BatchIdxOffset = 0 ∨
        (0 < st.token.BatchIdxOffset ∧
          st.token.BatchIdxOffset
            < (decodedPart d c st.token.CloseFailoverVersion st.token.CurrentPart).length) := by
      rw [hV]
      rcases hcase with ⟨hc, k, hoff, _, hin, _⟩ | ⟨_, k, pre, hoff, _, hk⟩
      · obtain ⟨hk1, hoff0, hlt, _⟩ := hin (by omega)
        rw [hc]
        right
        omega
      · by_cases hk0 : k = 0
        · left; rw [hoff, hk0]; rfl
        · right
          have := (hk hk0).1
          omega
    refine ⟨st, hrun, hser, hbound, ?_⟩
    intro u2 request2 hreq hdes
    refine Get_token_no_panic d c u2 request2 _ st.token hreq hdes ?_ ?_
    · rcases hbound with h | h
      · omega
      · omega
    · rcases hbound with h | h
      · rw [h]; exact Int.ofNat_nonneg _
      · omega

/-- Witness of C30: the first call on `cutClient` with page size 10 ends on part 1 with offset
1, and part 1 decodes to two batches; the call given the returned token does not panic. -/
theorem C30_token_offset_in_range_witness :
    ∃ st, readParts sampleDeps cutClient sampleRequest.PageSize
        (cutToken.HighestPart + 1 - cutToken.CurrentPart).toNat
        { HistoryBatches := [], token := cutToken, numOfEvents := 0 } = .ok st ∧
      st.token.BatchIdxOffset = 1 ∧
      (decodedPart sampleDeps cutClient st.token.CloseFailoverVersion
        st.token.CurrentPart).length = 2 ∧
      Get sampleDeps cutClient sampleURI
        { sampleRequest with NextPageToken := some [0, 1, 0, 1, 0, 1, 0, 1] }
        ≠ .error .panic := by
  obtain ⟨st, hrun, _, _, hnp⟩ := C30_token_offset_in_range sampleDeps cutClient sampleURI
    sampleRequest cutPage cutToken [0, 1, 0, 1, 0, 1, 0, 1] rfl rfl rfl
  have hst : st = { HistoryBatches := [sampleBatch 1 6, sampleBatch 1 6]
                    token := { CloseFailoverVersion := 1, HighestPart := 1, CurrentPart := 1,
                               BatchIdxOffset := 1 }
                    numOfEvents := 12 } :=
    Except.ok.inj (hrun.symm.trans rfl)
  subst hst
  exact ⟨_, hrun, rfl, rfl, hnp sampleURI _ rfl rfl⟩

end gcloud
